import Mathlib

/-!
UNO server (`src/uno/server.c`): shallow embedding and verified properties.

The shared `GameState` record of the server is embedded as a Lean structure.
C `int`s are embedded as `Int` (no wrap-around: the counters of this program
stay far below `INT_MAX`), fixed-size C arrays as lists whose length is a
well-formedness hypothesis of the theorems, and every array access whose index
is computed from the state is fallible (`Option`): an access outside the array
yields `none`.  `rand()` is embedded as a stream of naturals that is threaded
through the functions that consume it.
-/

namespace Uno

/-! ## Constants -/

@[reducible] def MAX_PLAYERS : Nat := 5
@[reducible] def HAND_SIZE : Nat := 5
@[reducible] def MAX_HAND : Int := 8
@[reducible] def DECK_SIZE : Nat := 108
/-- Second dimension of `Card hands[MAX_PLAYERS][20]`. -/
@[reducible] def HAND_CAP : Nat := 20

/-! ## Card types -/

/-- The enum `Color`: `RED, BLUE, GREEN, YELLOW`, in this order. -/
inductive Color where
  | RED
  | BLUE
  | GREEN
  | YELLOW
  deriving DecidableEq, Inhabited

/-- The enum `Type`: `NUMBER, SKIP, PLUS2`. -/
inductive CardType where
  | NUMBER
  | SKIP
  | PLUS2
  deriving DecidableEq, Inhabited

/-- The struct `Card`: colour, type and number (`-1` on the special cards). -/
structure Card where
  color : Color
  type : CardType
  number : Int
  deriving DecidableEq, Inhabited

/-! ## Shared game state -/

/-- The `GameState` record (the two mutexes carry no data and are left out). -/
structure GameState where
  players : Int
  current_turn : Int
  game_over : Int
  active : List Int
  no_card_count : List Int
  top_card : Card
  hands : List (List Card)
  hand_count : List Int
  deck : List Card
  deck_top : Int
  scores : List Int
  deriving DecidableEq

/-- The array sizes fixed by the C declaration of `GameState`. -/
structure GameState.WF (g : GameState) : Prop where
  active_len : g.active.length = MAX_PLAYERS
  no_card_len : g.no_card_count.length = MAX_PLAYERS
  hands_len : g.hands.length = MAX_PLAYERS
  hand_len : ∀ h ∈ g.hands, h.length = HAND_CAP
  hand_count_len : g.hand_count.length = MAX_PLAYERS
  deck_len : g.deck.length = DECK_SIZE
  scores_len : g.scores.length = MAX_PLAYERS

/-- The sizes of the `hands` array. -/
def HandsWF (hs : List (List Card)) : Prop :=
  hs.length = MAX_PLAYERS ∧ ∀ h ∈ hs, h.length = HAND_CAP

/-- States on which the apply step stays inside its arrays: the declared array
sizes, a player count in `1..5` and a deck cursor in `0..108`. -/
structure GameState.Safe (g : GameState) : Prop where
  wf : g.WF
  players_pos : 0 < g.players
  players_le : g.players ≤ 5
  top_lo : 0 ≤ g.deck_top
  top_hi : g.deck_top ≤ 108

/-! ## Array access -/

/-- Read `a[i]`; `none` when `i` is outside the array. -/
def rd {α : Type} (a : List α) (i : Int) : Option α :=
  if 0 ≤ i then a[i.toNat]? else none

/-- Write `a[i] = v`; `none` when `i` is outside the array. -/
def wr {α : Type} (a : List α) (i : Int) (v : α) : Option (List α) :=
  if 0 ≤ i ∧ i < a.length then some (a.set i.toNat v) else none

/-! ## `rand()` -/

/-- The successive results of `rand()`. -/
abbrev Rand := Nat → Nat

/-- One call of `rand()`: the value returned and the remaining stream. -/
def rand (r : Rand) : Nat × Rand := (r 0, fun k => r (k + 1))

/-! ## Deck: `build_deck`, `shuffle_deck`, `draw_card` -/

/-- One store `game->deck[idx++] = c`, on the pair (deck, idx). -/
def store (st : List Card × Nat) (c : Card) : List Card × Nat :=
  (st.1.set st.2 c, st.2 + 1)

/-- Body of the outer loop of `build_deck` for colour `c`. -/
def build_color (st : List Card × Nat) (c : Color) : List Card × Nat :=
  let st := store st ⟨c, .NUMBER, 0⟩
  let st := (List.range' 1 9).foldl
    (fun st n => store (store st ⟨c, .NUMBER, (n : Int)⟩) ⟨c, .NUMBER, (n : Int)⟩) st
  let st := store st ⟨c, .SKIP, -1⟩
  let st := store st ⟨c, .SKIP, -1⟩
  let st := store st ⟨c, .PLUS2, -1⟩
  store st ⟨c, .PLUS2, -1⟩

/-- The function `build_deck`: the loop `for (c = 0; c < 4; c++)` runs over the four colours
in the order of the enum. -/
def build_deck (g : GameState) : GameState :=
  let st := [Color.RED, Color.BLUE, Color.GREEN, Color.YELLOW].foldl build_color (g.deck, 0)
  { g with deck := st.1, deck_top := 0 }

/-- The three statements that exchange `deck[i]` and `deck[j]`. -/
def swap_cards (d : List Card) (i j : Nat) : List Card :=
  let tmp := d.getD i default
  let d := d.set i (d.getD j default)
  d.set j tmp

/-- The loop `for (i = start; i > 0; i--)` of `shuffle_deck`. -/
def shuffle_loop : Nat → List Card → Rand → List Card × Rand
  | 0, d, r => (d, r)
  | i + 1, d, r =>
    let j := (rand r).1 % (i + 1 + 1)
    shuffle_loop i (swap_cards d (i + 1) j) (rand r).2

/-- The function `shuffle_deck`: the loop starts at `i = DECK_SIZE-1`. -/
def shuffle_deck (g : GameState) (r : Rand) : GameState × Rand :=
  let res := shuffle_loop (DECK_SIZE - 1) g.deck r
  ({ g with deck := res.1 }, res.2)

/-- The state in which `draw_card` reads the deck: rebuilt and reshuffled when
the cursor has reached the end. -/
def refill (g : GameState) (r : Rand) : GameState × Rand :=
  if g.deck_top ≥ (DECK_SIZE : Int) then shuffle_deck (build_deck g) r else (g, r)

/-- The function `draw_card`: the card returned, the new state and the remaining random stream. -/
def draw_card (g : GameState) (r : Rand) : Option (Card × GameState × Rand) :=
  let gr := refill g r
  match rd gr.1.deck gr.1.deck_top with
  | none => none
  | some c => some (c, { gr.1 with deck_top := gr.1.deck_top + 1 }, gr.2)

/-! ## Move validation -/

/-- The function `valid_move`: three tests in the order of the source. -/
def valid_move (a b : Card) : Bool :=
  if a.color = b.color then true
  else if a.type = b.type then true
  else if a.type = .NUMBER ∧ b.type = .NUMBER ∧ a.number = b.number then true
  else false

/-! ## Turn order and win evaluation -/

/-- The loop of `next_player` over the remaining values of `i`. -/
def next_player_loop (g : GameState) (cur : Int) : List Nat → Option Int
  | [] => some (-1)
  | i :: rest =>
    let n := (cur + (i : Int)).tmod g.players
    match rd g.active n with
    | none => none
    | some a => if a ≠ 0 then some n else next_player_loop g cur rest

/-- The function `next_player`: `i` runs over `1 .. players`. -/
def next_player (g : GameState) (cur : Int) : Option Int :=
  next_player_loop g cur (List.range' 1 g.players.toNat)

/-- The value of a C `int` (32 bits, two's complement) after the integer `x` is
stored in it: `x` reduced modulo `2^32` into `-2^31 .. 2^31 - 1`. -/
def to_int (x : Int) : Int := (x + 2147483648) % 4294967296 - 2147483648

/-- The counting loop of `check_last_player`, on the pair (alive, last). -/
def count_alive (g : GameState) : List Nat → Int × Int → Option (Int × Int)
  | [], st => some st
  | i :: rest, st =>
    match rd g.active (i : Int) with
    | none => none
    | some a => count_alive g rest (if a ≠ 0 then (st.1 + 1, (i : Int)) else st)

/-- The function `check_last_player` (the rewrite of `scores.txt` is not part of the
state); `scores[last]++` is an `int` increment. -/
def check_last_player (g : GameState) : Option GameState :=
  match count_alive g (List.range g.players.toNat) (0, -1) with
  | none => none
  | some st =>
    if st.1 = 1 then
      match rd g.scores st.2 with
      | none => none
      | some s =>
        match wr g.scores st.2 (to_int (s + 1)) with
        | none => none
        | some sc => some { g with scores := sc, game_over := 1 }
    else some g

/-! ## Hands -/

/-- Read `hands[p][i]`. -/
def rd_hand (hs : List (List Card)) (p i : Int) : Option Card :=
  match rd hs p with
  | none => none
  | some h => rd h i

/-- Write `hands[p][i] = c`. -/
def wr_hand (hs : List (List Card)) (p i : Int) (c : Card) : Option (List (List Card)) :=
  match rd hs p with
  | none => none
  | some h =>
    match wr h i c with
    | none => none
    | some h2 => wr hs p h2

/-- The statement `game->hands[n][game->hand_count[n]++] = draw_card();`. -/
def deal_to (g : GameState) (r : Rand) (n : Int) : Option (GameState × Rand) :=
  match draw_card g r with
  | none => none
  | some (c, g1, r1) =>
    match rd g1.hand_count n with
    | none => none
    | some k =>
      match wr g1.hand_count n (k + 1), wr_hand g1.hands n k c with
      | some hc, some hs => some ({ g1 with hands := hs, hand_count := hc }, r1)
      | _, _ => none

/-- The loop `for (i = choice; i < hand_count[pid]-1; i++) hands[pid][i] = hands[pid][i+1];`
over the remaining values of `i`. -/
def shift_left (hs : List (List Card)) (pid : Int) : List Nat → Option (List (List Card))
  | [] => some hs
  | i :: rest =>
    match rd_hand hs pid ((i : Int) + 1) with
    | none => none
    | some c =>
      match wr_hand hs pid (i : Int) c with
      | none => none
      | some hs2 => shift_left hs2 pid rest

/-- The cards a player holds: the first `hand_count[p]` entries of `hands[p]`. -/
def hand (g : GameState) (p : Int) : Option (List Card) :=
  match rd g.hands p, rd g.hand_count p with
  | some h, some k => some (h.take k.toNat)
  | _, _ => none

/-! ## Input line -/

/-- The bytes received, cut at the first newline (`buf[strcspn(buf, "\n")] = 0`)
or NUL. -/
def line_of (data : List Char) : List Char :=
  data.takeWhile (fun c => c ≠ '\n' ∧ c.toNat ≠ 0)

/-- The literal `"NO_CARD"`. -/
def NO_CARD : List Char := ['N', 'O', '_', 'C', 'A', 'R', 'D']

/-- The C `isspace` in the default locale. -/
def isspace (c : Char) : Bool :=
  c.toNat = 32 ∨ (9 ≤ c.toNat ∧ c.toNat ≤ 13)

/-- The digit-accumulating loop of `atoi`. -/
def atoi_digits : List Char → Int → Int
  | [], acc => acc
  | c :: cs, acc =>
    if 48 ≤ c.toNat ∧ c.toNat ≤ 57 then atoi_digits cs (acc * 10 + ((c.toNat : Int) - 48))
    else acc

/-- The number written at the start of a string: leading white space, an
optional sign, decimal digits. -/
def decimal_value (s : List Char) : Int :=
  match s.dropWhile isspace with
  | '-' :: cs => - atoi_digits cs 0
  | '+' :: cs => atoi_digits cs 0
  | cs => atoi_digits cs 0

/-- The C library `strtol(s, NULL, 10)`: the number at the start of the string,
replaced by `LONG_MAX` or `LONG_MIN` when it does not fit a 64-bit `long`. -/
def strtol (s : List Char) : Int :=
  if decimal_value s > 9223372036854775807 then 9223372036854775807
  else if decimal_value s < -9223372036854775808 then -9223372036854775808
  else decimal_value s

/-- The C library `atoi`, which is `(int) strtol(s, NULL, 10)`: the result is a
32-bit `int`, so `atoi("4294967298")` is 2. -/
def atoi (s : List Char) : Int := to_int (strtol s)

/-! ## The apply step of `handle_client` -/

/-- The message sent to the client by the apply step. -/
inductive Reply where
  | silent
  | invalid_card_number
  | invalid_move
  | disqualified_no_card
  | you_win
  | disqualified_8_cards
  deriving DecidableEq

/-- Result of one apply step: the new shared state, the remaining random
stream, the message sent and whether the worker reached `exit(0)`. -/
structure Applied where
  game : GameState
  rand : Rand
  reply : Reply
  exited : Bool

/-- The tail shared by both disqualifications: `active[pid] = 0`,
`current_turn = next_player(pid)`, `check_last_player()`. -/
def disqualify (g : GameState) (pid : Int) : Option GameState :=
  match wr g.active pid 0 with
  | none => none
  | some ac =>
    let g1 := { g with active := ac }
    match next_player g1 pid with
    | none => none
    | some t => check_last_player { g1 with current_turn := t }

/-- The `NO_CARD` branch (lines 238-257). -/
def no_card_step (pid : Int) (g : GameState) (r : Rand) : Option Applied :=
  match rd g.no_card_count pid with
  | none => none
  | some k =>
    match wr g.no_card_count pid (k + 1) with
    | none => none
    | some nc =>
      match deal_to { g with no_card_count := nc } r pid with
      | none => none
      | some (g1, r1) =>
        match rd g1.no_card_count pid with
        | none => none
        | some k1 =>
          if k1 ≥ 3 then
            match disqualify g1 pid with
            | none => none
            | some g2 => some ⟨g2, r1, .disqualified_no_card, true⟩
          else
            match next_player g1 pid with
            | none => none
            | some t => some ⟨{ g1 with current_turn := t }, r1, .silent, false⟩

/-- The effect of the played card on the turn (lines 297-308). -/
def card_effect (pid : Int) (played : Card) (g : GameState) (r : Rand) :
    Option (GameState × Rand) :=
  match played.type with
  | .SKIP =>
    match next_player g pid with
    | none => none
    | some n1 =>
      match next_player g n1 with
      | none => none
      | some t => some ({ g with current_turn := t }, r)
  | .PLUS2 =>
    match next_player g pid with
    | none => none
    | some n2 =>
      match deal_to g r n2 with
      | none => none
      | some (g1, r1) =>
        match deal_to g1 r1 n2 with
        | none => none
        | some (g2, r2) =>
          match next_player g2 n2 with
          | none => none
          | some t => some ({ g2 with current_turn := t }, r2)
  | .NUMBER =>
    match next_player g pid with
    | none => none
    | some t => some ({ g with current_turn := t }, r)

/-- A legal play of `hands[pid][choice]` (lines 278-321). -/
def play_card (pid choice : Int) (g : GameState) (r : Rand) : Option Applied :=
  match rd_hand g.hands pid choice, rd g.hand_count pid with
  | some played, some hc =>
    match shift_left g.hands pid (List.range' choice.toNat (hc - 1 - choice).toNat),
        wr g.hand_count pid (hc - 1) with
    | some hs, some hcs =>
      let g1 := { g with top_card := played, hands := hs, hand_count := hcs }
      if hc - 1 = 0 then some ⟨{ g1 with game_over := 1 }, r, .you_win, true⟩
      else
        match card_effect pid played g1 r with
        | none => none
        | some (g2, r2) =>
          match rd g2.hand_count pid with
          | none => none
          | some hc2 =>
            if hc2 ≥ MAX_HAND then
              match disqualify g2 pid with
              | none => none
              | some g3 => some ⟨g3, r2, .disqualified_8_cards, true⟩
            else some ⟨g2, r2, .silent, false⟩
    | _, _ => none
  | _, _ => none

/-- The apply step: the code of `handle_client` from the `strcmp` on line 238
to the end of the loop body, on the input line `buf`; `choice` is the `int`
of line 259, `atoi(buf) - 1`. -/
def apply_step (pid : Int) (buf : List Char) (g : GameState) (r : Rand) : Option Applied :=
  if buf = NO_CARD then no_card_step pid g r
  else
    let choice := to_int (atoi buf - 1)
    if choice < 0 then some ⟨g, r, .invalid_card_number, false⟩
    else
      match rd g.hand_count pid with
      | none => none
      | some hc =>
        if choice ≥ hc then some ⟨g, r, .invalid_card_number, false⟩
        else
          match rd_hand g.hands pid choice with
          | none => none
          | some selected =>
            if valid_move selected g.top_card then play_card pid choice g r
            else some ⟨g, r, .invalid_move, false⟩

/-! ## Derived runs and concrete states -/

/-- The pairs (i, j) exchanged by the loop of `shuffle_deck`, in order. -/
def swap_steps : Nat → Rand → List (Nat × Nat)
  | 0, _ => []
  | i + 1, r => (i + 1, (rand r).1 % (i + 1 + 1)) :: swap_steps i (rand r).2

/-- The cards returned by `n` consecutive calls of `draw_card`, with the final
state and random stream. -/
def draw_n : Nat → GameState → Rand → Option (List Card × GameState × Rand)
  | 0, g, r => some ([], g, r)
  | n + 1, g, r =>
    match draw_card g r with
    | none => none
    | some (c, g1, r1) =>
      match draw_n n g1 r1 with
      | none => none
      | some (cs, g2, r2) => some (c :: cs, g2, r2)

/-- The all-zero card: what a zero-filled `Card` denotes. -/
def zero_card : Card := ⟨.RED, .NUMBER, 0⟩

/-- The zero-filled `GameState` that `mmap` hands to `main`, for `n` players. -/
def zero_state (n : Int) : GameState :=
  { players := n
    current_turn := 0
    game_over := 0
    active := List.replicate 5 0
    no_card_count := List.replicate 5 0
    top_card := zero_card
    hands := List.replicate 5 (List.replicate 20 zero_card)
    hand_count := List.replicate 5 0
    deck := List.replicate 108 zero_card
    deck_top := 0
    scores := List.replicate 5 0 }

/-- Iterating a turn function from `cur`: entry `0` is `f cur`, entry `i + 1`
is `f` applied to entry `i`. -/
def iter_turn (f : Int → Option Int) (cur : Int) : Nat → Option Int
  | 0 => f cur
  | i + 1 =>
    match iter_turn f cur i with
    | none => none
    | some x => f x

/-- The results of iterating `next_player` from `cur`: `x1, x2, ..` at `0, 1, ..`. -/
def turn_seq (g : GameState) (cur : Int) (i : Nat) : Option Int :=
  iter_turn (next_player g) cur i

/-- Whether `active[n]` is readable and nonzero. -/
def is_active (g : GameState) (n : Int) : Bool :=
  match rd g.active n with
  | none => false
  | some a => a ≠ 0

/-- The active slots among `0 .. players-1`, in increasing order. -/
def active_slots (g : GameState) : List Int :=
  ((List.range g.players.toNat).map Int.ofNat).filter (is_active g)

/-- The zero-filled state with `n` players and the given active flags. -/
def flag_state (n : Int) (bs : List Bool) : GameState :=
  { zero_state n with active := bs.map (fun b => if b then 1 else 0) }

/-- All lists of `n` booleans. -/
def bool_lists : Nat → List (List Bool)
  | 0 => [[]]
  | n + 1 => (bool_lists n).flatMap (fun l => [false :: l, true :: l])

/-- The finite check behind the cycle theorem, for a turn function `f`, the
list of active slots and a reference index: the first `k` iterates are the
active slots in some order, the iterate after them is the first again, and `f`
maps active slots to active slots. -/
def cycle_ok (f : Int → Option Int) (slots : List Int) (cur : Int) : Bool :=
  decide (((List.range slots.length).map (iter_turn f cur)).Perm (slots.map some)) &&
  decide (iter_turn f cur slots.length = iter_turn f cur 0) &&
  slots.all (fun x => match f x with
    | none => false
    | some y => decide (y ∈ slots))

/-- The three-player state of the scenario: all three active, player 1 holding
five cards with two `NO_CARD` declarations behind them. -/
def strike_state : GameState :=
  { zero_state 3 with
    active := [1, 1, 1, 0, 0]
    no_card_count := [0, 2, 0, 0, 0]
    hand_count := [5, 5, 5, 0, 0]
    current_turn := 1 }

/-- Three active players; player 0 holds `RED NUMBER 5` and one more card and
has declared `NO_CARD` twice; the top card is `RED NUMBER 3`. -/
def streak_state : GameState :=
  { zero_state 3 with
    active := [1, 1, 1, 0, 0]
    no_card_count := [2, 0, 0, 0, 0]
    hand_count := [2, 5, 5, 0, 0]
    hands := (⟨.RED, .NUMBER, 5⟩ :: List.replicate 19 zero_card) ::
      List.replicate 4 (List.replicate 20 zero_card)
    top_card := ⟨.RED, .NUMBER, 3⟩ }

/-- Three active players; player 0 holds the single card `RED NUMBER 5`, the
top card is `RED NUMBER 3`, and the win counts loaded from the ledger are 4, 0, 7. -/
def last_card_state : GameState :=
  { zero_state 3 with
    active := [1, 1, 1, 0, 0]
    hand_count := [1, 5, 5, 0, 0]
    hands := (⟨.RED, .NUMBER, 5⟩ :: List.replicate 19 zero_card) ::
      List.replicate 4 (List.replicate 20 zero_card)
    top_card := ⟨.RED, .NUMBER, 3⟩
    scores := [4, 0, 7, 0, 0] }

/-- Three successive `NO_CARD` apply steps of player `p`, each run on the state
and random stream left by the one before (the turns of the other players in
between are left out). -/
def no_card_thrice (p : Int) (g : GameState) (r : Rand) : Option Applied :=
  match apply_step p NO_CARD g r with
  | none => none
  | some a1 =>
    match apply_step p NO_CARD a1.game a1.rand with
    | none => none
    | some a2 => apply_step p NO_CARD a2.game a2.rand

/-- Three active players; players 0 and 1 hold seven cards each, the first card
of player 0 is `RED +2`, and the top card is `RED NUMBER 3`. -/
def seven_card_state : GameState :=
  { zero_state 3 with
    active := [1, 1, 1, 0, 0]
    hand_count := [7, 7, 5, 0, 0]
    hands := (⟨.RED, .PLUS2, -1⟩ :: List.replicate 19 zero_card) ::
      List.replicate 4 (List.replicate 20 zero_card)
    top_card := ⟨.RED, .NUMBER, 3⟩ }

/-- Three players of whom only player 2 is active; the win counts are 4, 0, 7. -/
def sole_survivor_state : GameState :=
  { zero_state 3 with
    active := [0, 0, 1, 0, 0]
    scores := [4, 0, 7, 0, 0] }

/-! ## The score ledger: `fprintf` and `fscanf` on `scores.txt` -/

/-- What `printf("%d")` prints for an `int`. -/
def print_int (v : Int) : List Char :=
  if v < 0 then '-' :: Nat.toDigits 10 (-v).toNat else Nat.toDigits 10 v.toNat

/-- The output of `fprintf(f, "Player %d: %d\n", i, v)`. -/
def ledger_line (i v : Int) : List Char :=
  ['P', 'l', 'a', 'y', 'e', 'r', ' '] ++ print_int i ++ [':', ' '] ++ print_int v ++ ['\n']

/-- The loop of `check_last_player` that rewrites `scores.txt`, over the
remaining values of `i`. -/
def ledger_text (g : GameState) : List Nat → Option (List Char)
  | [] => some []
  | i :: rest =>
    match rd g.scores (i : Int), ledger_text g rest with
    | some v, some t => some (ledger_line (i : Int) v ++ t)
    | _, _ => none

/-- The text that `check_last_player` writes to `scores.txt`: one line for each
of the `players` slots. -/
def write_scores (g : GameState) : Option (List Char) :=
  ledger_text g (List.range g.players.toNat)

/-- An ordinary-character directive of a `scanf` format: every character must
be the next one of the input; the result tells whether all matched, and what
is left unread. -/
def match_lit : List Char → List Char → Bool × List Char
  | [], s => (true, s)
  | _ :: _, [] => (false, [])
  | c :: cs, x :: xs => if c = x then match_lit cs xs else (false, x :: xs)

/-- The digits part of a `%d` conversion: at least one decimal digit. -/
def scan_digits (neg : Bool) (s : List Char) : Option Int × List Char :=
  let ds := s.takeWhile (fun c => decide (48 ≤ c.toNat ∧ c.toNat ≤ 57))
  if ds = [] then (none, s)
  else (some (if neg then - atoi_digits ds 0 else atoi_digits ds 0),
        s.dropWhile (fun c => decide (48 ≤ c.toNat ∧ c.toNat ≤ 57)))

/-- A `%d` conversion of `scanf`: white space is skipped, then an optional sign
and decimal digits are read; the result is the value converted, if any, and
what is left unread. -/
def scan_int (s : List Char) : Option Int × List Char :=
  match s.dropWhile isspace with
  | '-' :: cs => scan_digits true cs
  | '+' :: cs => scan_digits false cs
  | cs => scan_digits false cs

/-- One call `fscanf(f, "Player %*d: %d", &scores[i])`: the value assigned, if
the input matched up to the last conversion, and what is left unread.  The
ordinary characters `Player` and `:` must be the next characters of the input,
a blank of the format skips any white space, `%*d` converts without assigning. -/
def fscanf_record (s : List Char) : Option Int × List Char :=
  let m1 := match_lit ['P', 'l', 'a', 'y', 'e', 'r'] s
  if m1.1 = false then (none, m1.2)
  else
    let c1 := scan_int (m1.2.dropWhile isspace)
    match c1.1 with
    | none => (none, c1.2)
    | some _ =>
      let m2 := match_lit [':'] c1.2
      if m2.1 = false then (none, m2.2)
      else scan_int (m2.2.dropWhile isspace)

/-- The reading loop of `load_scores` over the remaining values of `i`: a call
that assigns nothing leaves `scores[i]` as it was. -/
def load_loop : List Nat → List Char → List Int → Option (List Int)
  | [], _, sc => some sc
  | i :: rest, s, sc =>
    match (fscanf_record s).1 with
    | none => load_loop rest (fscanf_record s).2 sc
    | some v =>
      match wr sc (i : Int) v with
      | none => none
      | some sc2 => load_loop rest (fscanf_record s).2 sc2

/-- The function `load_scores` on the content of `scores.txt` (`none` when the
file cannot be opened): the new state and the content of the file afterwards. -/
def load_scores (g : GameState) (file : Option (List Char)) : Option (GameState × List Char) :=
  match file with
  | none =>
    some ({ g with scores := List.replicate MAX_PLAYERS 0 },
      ((List.range MAX_PLAYERS).map (fun i => ledger_line (Int.ofNat i) 0)).flatten)
  | some s =>
    match load_loop (List.range MAX_PLAYERS) s g.scores with
    | none => none
    | some sc => some ({ g with scores := sc }, s)

/-- The state after lines 278-287 of a legal play: `top_card` is the played
card, the row `hands[pid]` is `row` and `hand_count[pid]` is `hc - 1`. -/
def removed_state (g : GameState) (pid : Int) (played : Card) (row : List Card) (hc : Int) :
    GameState :=
  { g with
    top_card := played
    hands := g.hands.set pid.toNat row
    hand_count := g.hand_count.set pid.toNat (hc - 1) }

/-- The finite check behind the two-step theorems, for a turn function `f` and
a player `p`: the two players after `p` differ from `p` and from each other. -/
def two_step_ok (f : Int → Option Int) (p : Int) : Bool :=
  match f p with
  | none => false
  | some n1 =>
    match f n1 with
    | none => false
    | some n2 => decide (n1 ≠ p ∧ n2 ≠ p ∧ n2 ≠ n1)

/-- What `card_effect pid played g r` returning `(g2, r2)` has done, with `n1`
the player after `pid`. -/
structure EffectFacts (pid : Int) (played : Card) (g : GameState) (r : Rand)
    (g2 : GameState) (r2 : Rand) (n1 : Int) : Prop where
  safe : g2.Safe
  next : next_player g pid = some n1
  n1_lo : 0 ≤ n1
  n1_hi : n1 < g.players
  n1_active : is_active g n1 = true
  players_eq : g2.players = g.players
  active_eq : g2.active = g.active
  no_card_eq : g2.no_card_count = g.no_card_count
  top_eq : g2.top_card = g.top_card
  scores_eq : g2.scores = g.scores
  over_eq : g2.game_over = g.game_over
  turn_lo : 0 ≤ g2.current_turn
  turn_hi : g2.current_turn < g.players
  turn_active : is_active g g2.current_turn = true
  number : played.type = .NUMBER → g2 = { g with current_turn := n1 } ∧ r2 = r
  skip : played.type = .SKIP → next_player g n1 = some g2.current_turn ∧
    g2 = { g with current_turn := g2.current_turn } ∧ r2 = r
  plus2 : played.type = .PLUS2 → next_player g n1 = some g2.current_turn ∧
    ∃ c1 c2 gd k, draw_n 2 g r = some ([c1, c2], gd, r2) ∧
      g2.deck = gd.deck ∧ g2.deck_top = gd.deck_top ∧
      rd g.hand_count n1 = some k ∧ rd g2.hand_count n1 = some (k + 2) ∧
      hand g2 n1 = (hand g n1).map (fun l => l ++ [c1, c2]) ∧
      ∀ q, q ≠ n1 → hand g2 q = hand g q ∧ rd g2.hand_count q = rd g.hand_count q

/-- What the end of a legal play (lines 310-321) makes of the state `g2` left
by the card effect, `hc2` being `hand_count[pid]` in `g2`. -/
structure OutcomeFacts (pid : Int) (g2 : GameState) (r2 : Rand) (hc2 : Int) (res : Applied) :
    Prop where
  rand_eq : res.rand = r2
  frame : res.game = { g2 with active := res.game.active
                               current_turn := res.game.current_turn
                               scores := res.game.scores
                               game_over := res.game.game_over }
  safe : res.game.Safe
  keep : hc2 < 8 → res.game = g2 ∧ res.exited = false ∧ res.reply = .silent
  out : 8 ≤ hc2 → res.exited = true ∧ res.reply = .disqualified_8_cards ∧
    res.game.active = g2.active.set pid.toNat 0 ∧
    ∃ gb, gb.players = g2.players ∧ gb.active = g2.active.set pid.toNat 0 ∧
      gb.scores = g2.scores ∧ gb.game_over = g2.game_over ∧
      next_player gb pid = some gb.current_turn ∧
      check_last_player gb = some res.game ∧ res.game.current_turn = gb.current_turn

/-- Three active players with the turn at player 0, who holds `RED SKIP` and
one more card; the top card is `RED NUMBER 3`. -/
def skip_state : GameState :=
  { zero_state 3 with
    active := [1, 1, 1, 0, 0]
    hand_count := [2, 5, 5, 0, 0]
    hands := (⟨.RED, .SKIP, -1⟩ :: List.replicate 19 zero_card) ::
      List.replicate 4 (List.replicate 20 zero_card)
    top_card := ⟨.RED, .NUMBER, 3⟩ }

/-- Three active players with the turn at player 0, who holds `RED +2` and one
more card; players 1 and 2 hold five cards; the top card is `RED NUMBER 3`. -/
def plus2_state : GameState :=
  { zero_state 3 with
    active := [1, 1, 1, 0, 0]
    hand_count := [2, 5, 5, 0, 0]
    hands := (⟨.RED, .PLUS2, -1⟩ :: List.replicate 19 zero_card) ::
      List.replicate 4 (List.replicate 20 zero_card)
    top_card := ⟨.RED, .NUMBER, 3⟩ }

/-! ## The startup deal of `main` -/

/-- The inner loop `for (j = 0; j < HAND_SIZE; j++) hands[i][j] = draw_card();`
over the remaining values of `j`. -/
def deal_hand (i : Int) : List Nat → GameState → Rand → Option (GameState × Rand)
  | [], g, r => some (g, r)
  | j :: rest, g, r =>
    match draw_card g r with
    | none => none
    | some (c, g1, r1) =>
      match wr_hand g1.hands i (j : Int) c with
      | none => none
      | some hs => deal_hand i rest { g1 with hands := hs } r1

/-- The outer loop of the deal (lines 387-393) over the remaining values of `i`. -/
def deal_players : List Nat → GameState → Rand → Option (GameState × Rand)
  | [], g, r => some (g, r)
  | i :: rest, g, r =>
    match wr g.active (i : Int) 1, wr g.no_card_count (i : Int) 0,
        wr g.hand_count (i : Int) (HAND_SIZE : Int) with
    | some ac, some nc, some hc =>
      match deal_hand (i : Int) (List.range HAND_SIZE)
          { g with active := ac, no_card_count := nc, hand_count := hc } r with
      | none => none
      | some (g1, r1) => deal_players rest g1 r1
    | _, _, _ => none

/-- The loop `do top_card = draw_card(); while (top_card.type != NUMBER);` with
a bound `fuel` on the number of draws: `none` when the bound is used up (or a
draw fails). -/
def draw_top : Nat → GameState → Rand → Option (GameState × Rand)
  | 0, _, _ => none
  | fuel + 1, g, r =>
    match draw_card g r with
    | none => none
    | some (c, g1, r1) =>
      if c.type ≠ .NUMBER then draw_top fuel { g1 with top_card := c } r1
      else some ({ g1 with top_card := c }, r1)

/-- Lines 381-396 of `main` for the player count `n` read from the terminal:
the clamp to 3, `build_deck`, `shuffle_deck`, the deal and the face-up card. -/
def startup (fuel : Nat) (n : Int) (g : GameState) (r : Rand) : Option (GameState × Rand) :=
  let g0 : GameState := { g with players := if n < 3 ∨ n > 5 then 3 else n }
  let sh := shuffle_deck (build_deck g0) r
  match deal_players (List.range g0.players.toNat) sh.1 sh.2 with
  | none => none
  | some (g1, r1) => draw_top fuel g1 r1

/-- What the deal loop over the players `i0 .. i0 + m - 1` has done when it
leaves the state `gf`, started on `g`. -/
structure DealFacts (i0 m : Nat) (g gf : GameState) : Prop where
  deck : gf.deck = g.deck
  deck_top : gf.deck_top = g.deck_top + 5 * (m : Int)
  players : gf.players = g.players
  top_card : gf.top_card = g.top_card
  scores : gf.scores = g.scores
  current_turn : gf.current_turn = g.current_turn
  game_over : gf.game_over = g.game_over
  active_len : gf.active.length = g.active.length
  no_card_len : gf.no_card_count.length = g.no_card_count.length
  hand_count_len : gf.hand_count.length = g.hand_count.length
  hands_wf : HandsWF gf.hands
  dealt : ∀ q : Nat, i0 ≤ q → q < i0 + m →
    rd gf.active (q : Int) = some 1 ∧ rd gf.no_card_count (q : Int) = some 0 ∧
    rd gf.hand_count (q : Int) = some 5 ∧
    ∃ h, rd gf.hands (q : Int) = some h ∧
      h.take 5 = (g.deck.drop (g.deck_top.toNat + 5 * (q - i0))).take 5
  other : ∀ q : Int, (q < (i0 : Int) ∨ (i0 : Int) + (m : Int) ≤ q) →
    rd gf.active q = rd g.active q ∧ rd gf.no_card_count q = rd g.no_card_count q ∧
    rd gf.hand_count q = rd g.hand_count q ∧ rd gf.hands q = rd g.hands q

/-- A card whose type is not `NUMBER` (the loop condition of the face-up draw). -/
def not_number (c : Card) : Bool := decide (c.type ≠ CardType.NUMBER)

/-- The number of non-`NUMBER` cards among `deck[92..107]`, the entries that
`build_deck` does not write. -/
def stale_actions (g : GameState) : Nat := (g.deck.drop 92).countP not_number

/-- Three players of whom players 0 and 1 are active; player 1 holds five cards
and has declared `NO_CARD` twice; the win counts are 4, 0, 7. -/
def duel_state : GameState :=
  { zero_state 3 with
    active := [1, 1, 0, 0, 0]
    no_card_count := [0, 2, 0, 0, 0]
    hand_count := [5, 5, 0, 0, 0]
    current_turn := 1
    scores := [4, 0, 7, 0, 0] }

/-- The number of copies of a card in the canonical deck, as the specification
words it: per colour one `NUMBER 0`, two each of `NUMBER 1..9`, two `SKIP` and
two `PLUS2`, the specials carrying number `-1`. -/
def canonical_count (x : Card) : Nat :=
  match x.type with
  | .NUMBER => if x.number = 0 then 1 else if 1 ≤ x.number ∧ x.number ≤ 9 then 2 else 0
  | .SKIP => if x.number = -1 then 2 else 0
  | .PLUS2 => if x.number = -1 then 2 else 0

/-- The 23 cards that one pass of the outer loop of `build_deck` stores for
colour `c`, in the order of the stores. -/
def color_cards (c : Color) : List Card :=
  [⟨c, .NUMBER, 0⟩,
   ⟨c, .NUMBER, 1⟩, ⟨c, .NUMBER, 1⟩, ⟨c, .NUMBER, 2⟩, ⟨c, .NUMBER, 2⟩,
   ⟨c, .NUMBER, 3⟩, ⟨c, .NUMBER, 3⟩, ⟨c, .NUMBER, 4⟩, ⟨c, .NUMBER, 4⟩,
   ⟨c, .NUMBER, 5⟩, ⟨c, .NUMBER, 5⟩, ⟨c, .NUMBER, 6⟩, ⟨c, .NUMBER, 6⟩,
   ⟨c, .NUMBER, 7⟩, ⟨c, .NUMBER, 7⟩, ⟨c, .NUMBER, 8⟩, ⟨c, .NUMBER, 8⟩,
   ⟨c, .NUMBER, 9⟩, ⟨c, .NUMBER, 9⟩,
   ⟨c, .SKIP, -1⟩, ⟨c, .SKIP, -1⟩, ⟨c, .PLUS2, -1⟩, ⟨c, .PLUS2, -1⟩]

/-- The 92 cards that `build_deck` stores, in the order of the stores. -/
def built_deck : List Card :=
  color_cards .RED ++ color_cards .BLUE ++ color_cards .GREEN ++ color_cards .YELLOW

/-! ## Move validation: theorems -/

/-- C1: `valid_move a b` is true exactly when the colours are equal, or the
types are equal, or both cards are `NUMBER` cards with equal numbers; being a
function of the two cards alone it is total and does not touch the game state. -/
theorem valid_move_iff (a b : Card) :
    valid_move a b = true ↔
      (a.color = b.color ∨ a.type = b.type ∨
        (a.type = .NUMBER ∧ b.type = .NUMBER ∧ a.number = b.number)) := by
  unfold valid_move
  by_cases hc : a.color = b.color
  · simp [hc]
  · by_cases ht : a.type = b.type
    · simp [hc, ht]
    · by_cases hn : a.type = .NUMBER ∧ b.type = .NUMBER ∧ a.number = b.number
      · simp [hc, ht, hn]
      · simp [hc, ht, hn]

/-! ## Deck: lemmas -/

theorem foldl_store (w : List Card) :
    ∀ (d : List Card) (idx : Nat), idx + w.length ≤ d.length →
      w.foldl store (d, idx) = (d.take idx ++ w ++ d.drop (idx + w.length), idx + w.length) := by
  induction w with
  | nil => intro d idx _; simp
  | cons c w ih =>
    intro d idx h
    simp only [List.length_cons] at h
    have hlt : idx < d.length := by omega
    rw [List.foldl_cons]
    show w.foldl store (d.set idx c, idx + 1) = _
    rw [ih (d.set idx c) (idx + 1) (by simp; omega)]
    have h1 : (d.set idx c).take (idx + 1) = d.take idx ++ [c] := by
      rw [List.set_eq_take_append_cons_drop, if_pos hlt]
      rw [List.take_append_eq_append_take]
      simp [List.take_take, Nat.min_eq_left (Nat.le_of_lt hlt)]
    have h2 : (d.set idx c).drop (idx + 1 + w.length) = d.drop (idx + (w.length + 1)) := by
      rw [List.drop_set]
      simp [show idx < idx + 1 + w.length by omega]
      congr 1
      omega
    rw [h1, h2]
    simp [Nat.add_assoc, Nat.add_comm 1]

theorem build_deck_fold (d : List Card) :
    [Color.RED, Color.BLUE, Color.GREEN, Color.YELLOW].foldl build_color (d, 0)
      = built_deck.foldl store (d, 0) := rfl

theorem built_deck_length : built_deck.length = 92 := by decide

theorem build_deck_eq (g : GameState) (h : g.deck.length = DECK_SIZE) :
    build_deck g = { g with deck := built_deck ++ g.deck.drop 92, deck_top := 0 } := by
  unfold build_deck
  rw [build_deck_fold, foldl_store built_deck g.deck 0 (by rw [h]; decide)]
  simp [built_deck_length]

/-- C2: on the zero-filled state of `main`, `build_deck` stores 92 cards and
leaves `deck[92..107]` as they were, so the deck holds 17 copies of `RED NUMBER 0`
where the canonical multiset has one, and the deck built over another prior
deck is different. -/
theorem build_deck_keeps_stale_tail :
    (build_deck (zero_state 3)).deck.count zero_card = 17 ∧
    canonical_count zero_card = 1 ∧
    (build_deck (zero_state 3)).deck.drop 92 = List.replicate 16 zero_card ∧
    (build_deck { zero_state 3 with deck := List.replicate 108 ⟨.BLUE, .SKIP, -1⟩ }).deck
      ≠ (build_deck (zero_state 3)).deck := by
  have hz : (zero_state 3).deck.length = DECK_SIZE := by decide
  rw [build_deck_eq _ hz, build_deck_eq _ (by simp)]
  decide

theorem shuffle_deck_deck (g : GameState) (r : Rand) :
    (shuffle_deck g r).1.deck = (shuffle_loop 107 g.deck r).1 := by
  have h1 : DECK_SIZE - 1 = 107 := by decide
  simp only [shuffle_deck, h1]

theorem swap_cards_perm (d : List Card) (i j : Nat) (hi : i < d.length) (hj : j < d.length) :
    (swap_cards d i j).Perm d := by
  unfold swap_cards
  rw [List.perm_iff_count]
  intro a
  rw [List.count_set _ _ _ _ (by simpa using hj), List.count_set _ _ _ _ hi]
  simp only [List.getD_eq_getElem?_getD, List.getElem?_eq_getElem hi,
    List.getElem?_eq_getElem hj, Option.getD_some, List.getElem_set]
  have h1 := List.boole_getElem_le_countP (fun x => x == a) d i hi
  have h2 := List.boole_getElem_le_countP (fun x => x == a) d j hj
  rw [← List.count_eq_countP] at h1 h2
  simp only [beq_iff_eq] at h1 h2 ⊢
  by_cases hij : i = j
  · subst hij
    simp
    split_ifs at h1 ⊢ <;> omega
  · simp [hij]
    split_ifs at h1 h2 ⊢ <;> omega

theorem swap_cards_get (d : List Card) (i j k : Nat) (hi : i < d.length) (hj : j < d.length) :
    (swap_cards d i j)[k]? = if k = j then d[i]? else if k = i then d[j]? else d[k]? := by
  unfold swap_cards
  simp only [List.getD_eq_getElem?_getD, List.getElem?_eq_getElem hi,
    List.getElem?_eq_getElem hj, Option.getD_some, List.getElem?_set, List.length_set]
  by_cases h1 : k = j
  · subst h1
    simp [hj]
  · by_cases h2 : k = i
    · subst h2
      simp [hi, h1, Ne.symm h1]
    · simp [h1, h2, Ne.symm h1, Ne.symm h2]

theorem swap_cards_length (d : List Card) (i j : Nat) : (swap_cards d i j).length = d.length := by
  simp [swap_cards]

theorem shuffle_loop_perm (n : Nat) :
    ∀ (d : List Card) (r : Rand), n < d.length → (shuffle_loop n d r).1.Perm d := by
  induction n with
  | zero => intro d r _; simp [shuffle_loop]
  | succ i ih =>
    intro d r h
    have hj : (rand r).1 % (i + 1 + 1) < d.length :=
      Nat.lt_of_lt_of_le (Nat.mod_lt _ (by omega)) (by omega)
    rw [shuffle_loop]
    exact (ih _ _ (by rw [swap_cards_length]; omega)).trans (swap_cards_perm d _ _ h hj)

theorem shuffle_loop_steps (n : Nat) :
    ∀ (d : List Card) (r : Rand),
      (shuffle_loop n d r).1 = (swap_steps n r).foldl (fun d p => swap_cards d p.1 p.2) d := by
  induction n with
  | zero => intro d r; simp [shuffle_loop, swap_steps]
  | succ i ih => intro d r; rw [shuffle_loop, swap_steps, List.foldl_cons, ih]

theorem swap_steps_fst (n : Nat) :
    ∀ r : Rand, (swap_steps n r).map Prod.fst = (List.range' 1 n).reverse := by
  induction n with
  | zero => intro r; simp [swap_steps]
  | succ i ih =>
    intro r
    rw [swap_steps, List.map_cons, ih, List.range'_concat]
    simp [Nat.add_comm]

theorem swap_steps_le (n : Nat) : ∀ (r : Rand), ∀ p ∈ swap_steps n r, p.2 ≤ p.1 := by
  induction n with
  | zero => intro r p hp; simp [swap_steps] at hp
  | succ i ih =>
    intro r p hp
    rw [swap_steps, List.mem_cons] at hp
    rcases hp with rfl | hp
    · exact Nat.le_of_lt_succ (Nat.mod_lt _ (by omega))
    · exact ih _ p hp

theorem shuffle_deck_perm_aux (g : GameState) (r : Rand) (h : g.deck.length = DECK_SIZE) :
    (shuffle_deck g r).1.deck.Perm g.deck := by
  have h107 : 107 < g.deck.length := by rw [h]; exact Nat.lt_succ_self 107
  rw [shuffle_deck_deck]
  exact shuffle_loop_perm 107 g.deck r h107

/-- C5: `shuffle_deck` leaves a permutation of the 108 cards it was given; its
steps run over `i = 107, 106, .., 1`, each exchanging position `i` with a
position `j ≤ i` (the entries at `i` and `j` trade places, every other entry
stays); the cursor and all other fields are unchanged. -/
theorem shuffle_deck_perm (g : GameState) (r : Rand) (h : g.deck.length = DECK_SIZE) :
    (shuffle_deck g r).1.deck.Perm g.deck ∧
    (shuffle_deck g r).1.deck =
      (swap_steps 107 r).foldl (fun d p => swap_cards d p.1 p.2) g.deck ∧
    (swap_steps 107 r).map Prod.fst = (List.range' 1 107).reverse ∧
    (∀ p ∈ swap_steps 107 r, p.2 ≤ p.1) ∧
    (∀ (d : List Card) (i j k : Nat), i < d.length → j < d.length →
      (swap_cards d i j)[k]? = if k = j then d[i]? else if k = i then d[j]? else d[k]?) ∧
    (shuffle_deck g r).1.deck_top = g.deck_top ∧
    (shuffle_deck g r).1 = { g with deck := (shuffle_deck g r).1.deck } := by
  have hd := shuffle_deck_deck g r
  refine ⟨?_, ?_, ?_, ?_, swap_cards_get, ?_, ?_⟩
  · exact shuffle_deck_perm_aux g r h
  · rw [hd]
    exact shuffle_loop_steps 107 g.deck r
  · exact swap_steps_fst 107 r
  · exact swap_steps_le 107 r
  · simp only [shuffle_deck]
  · simp only [shuffle_deck]

/-! ## Drawing: lemmas and theorems -/

theorem rd_eq_getElem {α : Type} (a : List α) (i : Int) (h0 : 0 ≤ i) (h1 : i.toNat < a.length) :
    rd a i = some (a.get ⟨i.toNat, h1⟩) := by
  simp [rd, h0, List.getElem?_eq_getElem h1]

theorem shuffle_loop_length (n : Nat) :
    ∀ (d : List Card) (r : Rand), (shuffle_loop n d r).1.length = d.length := by
  induction n with
  | zero => intro d r; simp [shuffle_loop]
  | succ i ih => intro d r; rw [shuffle_loop, ih, swap_cards_length]

theorem shuffle_deck_length (g : GameState) (r : Rand) :
    (shuffle_deck g r).1.deck.length = g.deck.length := by
  rw [shuffle_deck_deck, shuffle_loop_length]

theorem build_deck_length (g : GameState) (h : g.deck.length = DECK_SIZE) :
    (build_deck g).deck.length = DECK_SIZE := by
  rw [build_deck_eq g h]
  simp only [List.length_append, List.length_drop, built_deck_length, h, DECK_SIZE]

theorem refill_length (g : GameState) (r : Rand) (h : g.deck.length = DECK_SIZE) :
    (refill g r).1.deck.length = DECK_SIZE := by
  unfold refill
  split
  · rw [shuffle_deck_length, build_deck_length g h]
  · exact h

theorem refill_of_lt (g : GameState) (r : Rand) (h : g.deck_top < 108) : refill g r = (g, r) := by
  unfold refill
  rw [if_neg]
  simp only [DECK_SIZE, ge_iff_le, Nat.cast_ofNat]
  omega

theorem refill_of_ge (g : GameState) (r : Rand) (h : 108 ≤ g.deck_top) :
    refill g r = shuffle_deck (build_deck g) r := by
  unfold refill
  rw [if_pos]
  simpa [DECK_SIZE] using h

theorem refill_top_of_ge (g : GameState) (r : Rand) (h : 108 ≤ g.deck_top) :
    (refill g r).1.deck_top = 0 := by
  rw [refill_of_ge g r h]
  simp only [shuffle_deck, build_deck]

theorem draw_card_of_lt (g : GameState) (r : Rand) (hlen : g.deck.length = DECK_SIZE)
    (h0 : 0 ≤ g.deck_top) (h1 : g.deck_top < 108) :
    ∃ c, rd g.deck g.deck_top = some c ∧
      draw_card g r = some (c, { g with deck_top := g.deck_top + 1 }, r) := by
  have hi : g.deck_top.toNat < g.deck.length := by rw [hlen]; simp only [DECK_SIZE]; omega
  refine ⟨g.deck.get ⟨g.deck_top.toNat, hi⟩, rd_eq_getElem _ _ h0 hi, ?_⟩
  unfold draw_card
  simp only [refill_of_lt g r h1, rd_eq_getElem _ _ h0 hi]

theorem draw_card_ok (g : GameState) (r : Rand) (hlen : g.deck.length = DECK_SIZE)
    (h0 : 0 ≤ g.deck_top) (h1 : g.deck_top ≤ 108) :
    ∃ c g2, draw_card g r = some (c, g2, (refill g r).2) ∧
      (0 ≤ (refill g r).1.deck_top ∧ (refill g r).1.deck_top < 108) ∧
      rd (refill g r).1.deck (refill g r).1.deck_top = some c ∧
      g2 = { (refill g r).1 with deck_top := (refill g r).1.deck_top + 1 } ∧
      (1 ≤ g2.deck_top ∧ g2.deck_top ≤ 108) ∧
      g2.deck.length = DECK_SIZE ∧
      (g.deck_top < 108 → refill g r = (g, r)) ∧
      (g.deck_top = 108 →
        refill g r = shuffle_deck (build_deck g) r ∧ (refill g r).1.deck_top = 0) := by
  have hrange : 0 ≤ (refill g r).1.deck_top ∧ (refill g r).1.deck_top < 108 := by
    by_cases h : g.deck_top < 108
    · rw [refill_of_lt g r h]; exact ⟨h0, h⟩
    · rw [refill_top_of_ge g r (by omega)]; omega
  have hl := refill_length g r hlen
  have hi : (refill g r).1.deck_top.toNat < (refill g r).1.deck.length := by
    rw [hl]; simp only [DECK_SIZE]; omega
  have hrd := rd_eq_getElem (refill g r).1.deck _ hrange.1 hi
  refine ⟨_, _, ?_, hrange, hrd, rfl, ⟨by simp only; omega, by simp only; omega⟩, hl,
    fun h => refill_of_lt g r h, fun h => ⟨refill_of_ge g r (by omega), refill_top_of_ge g r (by omega)⟩⟩
  unfold draw_card
  simp only [hrd]

theorem draw_n_of_le (n : Nat) :
    ∀ (g : GameState) (r : Rand), g.deck.length = DECK_SIZE → 0 ≤ g.deck_top →
      g.deck_top + n ≤ 108 →
      draw_n n g r =
        some ((g.deck.drop g.deck_top.toNat).take n, { g with deck_top := g.deck_top + n }, r) := by
  induction n with
  | zero => intro g r _ _ _; simp [draw_n]
  | succ n ih =>
    intro g r hlen h0 h1
    have hi : g.deck_top.toNat < g.deck.length := by rw [hlen]; simp only [DECK_SIZE]; omega
    obtain ⟨c, hc, hd⟩ := draw_card_of_lt g r hlen h0 (by omega)
    rw [rd_eq_getElem _ _ h0 hi] at hc
    rw [draw_n, hd]
    simp only
    rw [ih { g with deck_top := g.deck_top + 1 } r hlen (by simp only; omega) (by simp only; omega)]
    simp only [Option.some.injEq, Prod.mk.injEq]
    refine ⟨?_, ?_⟩
    · have ht : (g.deck_top + 1).toNat = g.deck_top.toNat + 1 := by omega
      rw [ht, List.drop_eq_getElem_cons hi, List.take_succ_cons]
      congr 1
      simpa using (Option.some.inj hc).symm
    · have ht : g.deck_top + 1 + (n : Int) = g.deck_top + ((n + 1 : Nat) : Int) := by
        push_cast; omega
      rw [ht]
      exact ⟨rfl, trivial⟩

/-- The shuffled state never meets the refill condition during its first 108 draws. -/
theorem no_refill_before_108 (g : GameState) (r : Rand) (k : Nat) (hk : k < 108)
    (hlen : g.deck.length = DECK_SIZE) (h0 : g.deck_top = 0) :
    ∃ cs g1, draw_n k g r = some (cs, g1, r) ∧ refill g1 r = (g1, r) := by
  refine ⟨_, _, draw_n_of_le k g r hlen (by omega) (by omega), ?_⟩
  exact refill_of_lt _ _ (by simp only; omega)

/-- C3: 108 draws from the deck freshly built over the zero-filled state and
shuffled with any random stream succeed without consuming a random value and
leave the cursor at 108, and the cards returned are the shuffled deck; they hold
17 copies of `RED NUMBER 0`, where the canonical multiset has one. -/
theorem draw_108_after_build (r : Rand) :
    ∃ cs g2,
      draw_n 108 (shuffle_deck (build_deck (zero_state 3)) r).1
          (shuffle_deck (build_deck (zero_state 3)) r).2
        = some (cs, g2, (shuffle_deck (build_deck (zero_state 3)) r).2) ∧
      g2.deck_top = 108 ∧
      cs = (shuffle_deck (build_deck (zero_state 3)) r).1.deck ∧
      cs.count zero_card = 17 ∧ canonical_count zero_card = 1 := by
  have hz : (zero_state 3).deck.length = DECK_SIZE := by decide
  have hb := build_deck_length _ hz
  have hl : (shuffle_deck (build_deck (zero_state 3)) r).1.deck.length = DECK_SIZE := by
    rw [shuffle_deck_length, hb]
  have ht : (shuffle_deck (build_deck (zero_state 3)) r).1.deck_top = 0 := by
    simp only [shuffle_deck, build_deck]
  have hp := shuffle_deck_perm_aux (build_deck (zero_state 3)) r hb
  refine ⟨_, _, draw_n_of_le 108 _ _ hl (by omega) (by omega), ?_, ?_, ?_, by decide⟩
  · simp only [ht]; rfl
  · rw [ht]
    simp [hl]
  · rw [ht]
    simp only [Int.toNat_zero, List.drop_zero]
    rw [List.take_of_length_le (by rw [hl])]
    rw [hp.count_eq, build_deck_eq _ hz]
    decide

/-- Witness for `shuffle_deck_perm`: the deck built over the zero-filled state. -/
theorem shuffle_deck_perm_witness :
    (build_deck (zero_state 3)).deck.length = DECK_SIZE ∧
    (shuffle_deck (build_deck (zero_state 3)) (fun k => k)).1.deck.Perm
      (build_deck (zero_state 3)).deck :=
  ⟨by decide, (shuffle_deck_perm (build_deck (zero_state 3)) (fun k => k) (by decide)).1⟩

/-! ## Turn order: lemmas and theorems -/

theorem tmod_range (a n : Int) (ha : 0 ≤ a) (hn : 0 < n) : 0 ≤ a.tmod n ∧ a.tmod n < n :=
  ⟨Int.tmod_nonneg n ha, Int.tmod_lt_of_pos a hn⟩

theorem rd_active_some (g : GameState) (n : Int) (h0 : 0 ≤ n) (h1 : n < g.active.length) :
    ∃ a, rd g.active n = some a := by
  have hi : n.toNat < g.active.length := by omega
  exact ⟨_, rd_eq_getElem _ _ h0 hi⟩

theorem next_player_loop_spec (g : GameState) (cur : Int) (m : Nat) :
    ∀ s : Nat,
      (∀ j : Nat, s ≤ j → j < s + m → ∃ a, rd g.active ((cur + (j : Int)).tmod g.players) = some a) →
      ∃ x, next_player_loop g cur (List.range' s m) = some x ∧
        ((x = -1 ∧ ∀ j : Nat, s ≤ j → j < s + m →
            rd g.active ((cur + (j : Int)).tmod g.players) = some 0) ∨
         (∃ i : Nat, s ≤ i ∧ i < s + m ∧ x = (cur + (i : Int)).tmod g.players ∧
            (∃ a, rd g.active x = some a ∧ a ≠ 0) ∧
            ∀ j : Nat, s ≤ j → j < i →
              rd g.active ((cur + (j : Int)).tmod g.players) = some 0)) := by
  induction m with
  | zero =>
    intro s _
    exact ⟨-1, by simp [next_player_loop], Or.inl ⟨rfl, fun j h1 h2 => by omega⟩⟩
  | succ m ih =>
    intro s hrd
    obtain ⟨a, ha⟩ := hrd s (Nat.le_refl s) (by omega)
    rw [List.range'_succ, next_player_loop]
    simp only [ha]
    by_cases hz : a = 0
    · subst hz
      obtain ⟨x, hx, hcase⟩ := ih (s + 1) (fun j h1 h2 => hrd j (by omega) (by omega))
      refine ⟨x, by simpa using hx, ?_⟩
      rcases hcase with ⟨hm1, hall⟩ | ⟨i, hi1, hi2, hxi, hact, hbefore⟩
      · refine Or.inl ⟨hm1, fun j h1 h2 => ?_⟩
        by_cases hjs : j = s
        · subst hjs; exact ha
        · exact hall j (by omega) (by omega)
      · refine Or.inr ⟨i, by omega, by omega, hxi, hact, fun j h1 h2 => ?_⟩
        by_cases hjs : j = s
        · subst hjs; exact ha
        · exact hbefore j (by omega) h2
    · refine ⟨_, by simp [hz], Or.inr ⟨s, Nat.le_refl s, by omega, rfl, ⟨a, ha, hz⟩, ?_⟩⟩
      intro j h1 h2
      omega

theorem covers_all_slots (N cur n : Int) (hc0 : 0 ≤ cur) (hc1 : cur < N) (hn0 : 0 ≤ n)
    (hn1 : n < N) : ∃ j : Nat, 1 ≤ j ∧ (j : Int) ≤ N ∧ (cur + (j : Int)).tmod N = n := by
  by_cases h : cur < n
  · refine ⟨(n - cur).toNat, by omega, by omega, ?_⟩
    have : cur + ((n - cur).toNat : Int) = n := by omega
    rw [this]
    exact Int.tmod_eq_of_lt hn0 hn1
  · refine ⟨(n - cur + N).toNat, by omega, by omega, ?_⟩
    have : cur + ((n - cur + N).toNat : Int) = n + N := by omega
    rw [this, Int.tmod_eq_emod (by omega) (by omega), Int.add_emod_self]
    exact Int.emod_eq_of_lt hn0 hn1

theorem next_player_char (g : GameState) (cur : Int)
    (hN : 0 < g.players) (hN5 : g.players ≤ 5) (hlen : g.active.length = MAX_PLAYERS)
    (hc0 : 0 ≤ cur) (hc1 : cur < g.players) :
    ∃ x, next_player g cur = some x ∧
      (x = -1 ↔ ∀ n : Int, 0 ≤ n → n < g.players → rd g.active n = some 0) ∧
      (x ≠ -1 → ∃ i : Nat, 1 ≤ i ∧ (i : Int) ≤ g.players ∧
          x = (cur + (i : Int)) % g.players ∧
          (∃ a, rd g.active x = some a ∧ a ≠ 0) ∧
          ∀ j : Nat, 1 ≤ j → j < i → rd g.active ((cur + (j : Int)) % g.players) = some 0) := by
  have hrange : ∀ j : Nat, 0 ≤ (cur + (j : Int)).tmod g.players ∧
      (cur + (j : Int)).tmod g.players < g.players :=
    fun j => tmod_range _ _ (by omega) hN
  have hemod : ∀ j : Nat, (cur + (j : Int)).tmod g.players = (cur + (j : Int)) % g.players :=
    fun j => Int.tmod_eq_emod (by omega) (by omega)
  obtain ⟨x, hx, hcase⟩ := next_player_loop_spec g cur g.players.toNat 1
    (fun j _ _ => rd_active_some g _ (hrange j).1 (by rw [hlen]; have := (hrange j).2; simp only [MAX_PLAYERS]; omega))
  refine ⟨x, hx, ?_, ?_⟩
  · rcases hcase with ⟨hm1, hall⟩ | ⟨i, hi1, hi2, hxi, ⟨a, ha, hne⟩, _⟩
    · refine ⟨fun _ n hn0 hn1 => ?_, fun _ => hm1⟩
      obtain ⟨j, hj1, hj2, hj⟩ := covers_all_slots g.players cur n hc0 hc1 hn0 hn1
      rw [← hj]
      exact hall j hj1 (by omega)
    · have hx0 : 0 ≤ x := by rw [hxi]; exact (hrange i).1
      have hx1 : x < g.players := by rw [hxi]; exact (hrange i).2
      refine ⟨fun h => by omega, fun hall => ?_⟩
      have := hall x hx0 hx1
      rw [ha] at this
      exact absurd (Option.some.inj this) hne
  · intro hne
    rcases hcase with ⟨hm1, _⟩ | ⟨i, hi1, hi2, hxi, hact, hbefore⟩
    · exact absurd hm1 hne
    · refine ⟨i, hi1, by omega, by rw [← hemod]; exact hxi, hact, fun j h1 h2 => ?_⟩
      rw [← hemod]
      exact hbefore j h1 h2

/-- C6: for `N = players` in `1..5` and `cur` in `0..N-1`, `next_player`
returns a value; it is `-1` exactly when no slot in `0..N-1` is active;
otherwise it is `(cur + i) % N` for the least `i` in `1..N` whose slot is
active (so `cur` itself is examined last).  The function only reads the state. -/
theorem next_player_first_active (g : GameState) (cur : Int)
    (hN : 0 < g.players) (hN5 : g.players ≤ 5) (hlen : g.active.length = MAX_PLAYERS)
    (hc0 : 0 ≤ cur) (hc1 : cur < g.players) :
    ∃ x, next_player g cur = some x ∧
      (x = -1 ↔ ∀ n : Int, 0 ≤ n → n < g.players → rd g.active n = some 0) ∧
      (x ≠ -1 → ∃ i : Nat, 1 ≤ i ∧ (i : Int) ≤ g.players ∧
          x = (cur + (i : Int)) % g.players ∧
          (∃ a, rd g.active x = some a ∧ a ≠ 0) ∧
          ∀ j : Nat, 1 ≤ j → j < i → rd g.active ((cur + (j : Int)) % g.players) = some 0) :=
  next_player_char g cur hN hN5 hlen hc0 hc1

/-- Witness for `next_player_first_active`: three players, only slot 0 active,
reference index 1. -/
theorem next_player_first_active_witness :
    ∃ x, next_player { zero_state 3 with active := [1, 0, 0, 0, 0] } 1 = some x ∧
      (x = -1 ↔ ∀ n : Int, 0 ≤ n →
        n < ({ zero_state 3 with active := [1, 0, 0, 0, 0] } : GameState).players →
        rd ({ zero_state 3 with active := [1, 0, 0, 0, 0] } : GameState).active n = some 0) := by
  obtain ⟨x, hx, hiff, _⟩ :=
    next_player_first_active { zero_state 3 with active := [1, 0, 0, 0, 0] } 1
      (by decide) (by decide) (by decide) (by decide) (by decide)
  exact ⟨x, hx, hiff⟩

/-! ### The turn cycle -/

theorem rd_map {α β : Type} (f : α → β) (l : List α) (n : Int) :
    rd (l.map f) n = (rd l n).map f := by
  unfold rd
  split
  · simp
  · rfl

theorem rd_flags_congr (g g2 : GameState)
    (hf : g.active.map (fun a => decide (a ≠ 0)) = g2.active.map (fun a => decide (a ≠ 0)))
    (n : Int) :
    (rd g.active n).map (fun a => decide (a ≠ 0)) = (rd g2.active n).map (fun a => decide (a ≠ 0)) := by
  rw [← rd_map, ← rd_map, hf]

theorem next_player_loop_congr (g g2 : GameState) (hp : g.players = g2.players)
    (hf : g.active.map (fun a => decide (a ≠ 0)) = g2.active.map (fun a => decide (a ≠ 0)))
    (cur : Int) : ∀ l : List Nat, next_player_loop g cur l = next_player_loop g2 cur l := by
  intro l
  induction l with
  | nil => rfl
  | cons i rest ih =>
    have key := rd_flags_congr g g2 hf ((cur + (i : Int)).tmod g.players)
    rw [next_player_loop, next_player_loop, ← hp, ih]
    cases h1 : rd g.active ((cur + (i : Int)).tmod g.players) with
    | none =>
      cases h2 : rd g2.active ((cur + (i : Int)).tmod g.players) with
      | none => rfl
      | some b => rw [h1, h2] at key; simp at key
    | some a =>
      cases h2 : rd g2.active ((cur + (i : Int)).tmod g.players) with
      | none => rw [h1, h2] at key; simp at key
      | some b =>
        rw [h1, h2] at key
        simp only [Option.map_some', Option.some.injEq, decide_eq_decide] at key
        by_cases ha : a = 0
        · have hb : b = 0 := by
            by_contra hb
            exact (key.mpr hb) ha
          simp [ha, hb]
        · have hb : b ≠ 0 := key.mp ha
          simp [ha, hb]

theorem next_player_congr (g g2 : GameState) (hp : g.players = g2.players)
    (hf : g.active.map (fun a => decide (a ≠ 0)) = g2.active.map (fun a => decide (a ≠ 0))) :
    next_player g = next_player g2 := by
  funext cur
  rw [next_player, next_player, ← hp]
  exact next_player_loop_congr g g2 hp hf cur _

theorem active_slots_congr (g g2 : GameState) (hp : g.players = g2.players)
    (hf : g.active.map (fun a => decide (a ≠ 0)) = g2.active.map (fun a => decide (a ≠ 0))) :
    active_slots g = active_slots g2 := by
  have hact : is_active g = is_active g2 := by
    funext n
    have key := rd_flags_congr g g2 hf n
    unfold is_active
    cases h1 : rd g.active n <;> cases h2 : rd g2.active n <;> rw [h1, h2] at key <;>
      simp at key ⊢
    simpa using key
  rw [active_slots, active_slots, hp, hact]

theorem mem_bool_lists : ∀ (n : Nat) (l : List Bool), l.length = n → l ∈ bool_lists n := by
  intro n
  induction n with
  | zero =>
    intro l hl
    simp [bool_lists, List.length_eq_zero.mp hl]
  | succ n ih =>
    intro l hl
    cases l with
    | nil => simp at hl
    | cons b t =>
      simp only [List.length_cons, Nat.add_right_cancel_iff] at hl
      simp only [bool_lists, List.mem_flatMap, List.mem_cons, List.cons.injEq,
        List.mem_singleton]
      refine ⟨t, ih t hl, ?_⟩
      cases b <;> simp

set_option maxRecDepth 100000 in
theorem cycle_ok_all :
    ∀ bs ∈ bool_lists 5, ∀ n ∈ [1, 2, 3, 4, 5], ∀ cur ∈ List.range n,
      active_slots (flag_state (n : Nat) bs) ≠ [] →
      cycle_ok (next_player (flag_state (n : Nat) bs)) (active_slots (flag_state (n : Nat) bs))
        (cur : Nat) = true := by
  decide

theorem cycle_ok_state (g : GameState) (cur : Int)
    (hN : 0 < g.players) (hN5 : g.players ≤ 5) (hlen : g.active.length = MAX_PLAYERS)
    (hc0 : 0 ≤ cur) (hc1 : cur < g.players) (hk : active_slots g ≠ []) :
    cycle_ok (next_player g) (active_slots g) cur = true := by
  have hp : g.players = (flag_state (g.players.toNat : Nat)
      (g.active.map (fun a => decide (a ≠ 0)))).players := by
    simp only [flag_state, zero_state]; omega
  have hf : g.active.map (fun a => decide (a ≠ 0)) =
      (flag_state (g.players.toNat : Nat) (g.active.map (fun a => decide (a ≠ 0)))).active.map
        (fun a => decide (a ≠ 0)) := by
    simp only [flag_state, List.map_map]
    apply List.map_congr_left
    intro a _
    by_cases ha : a = 0 <;> simp [ha]
  have hbs := mem_bool_lists 5 (g.active.map (fun a => decide (a ≠ 0))) (by simp [hlen])
  have hn : g.players.toNat ∈ [1, 2, 3, 4, 5] := by
    simp only [List.mem_cons, List.mem_singleton, List.not_mem_nil, or_false]; omega
  have hcur : cur.toNat ∈ List.range g.players.toNat := by
    rw [List.mem_range]; omega
  have hcast : ((cur.toNat : Nat) : Int) = cur := by omega
  have := cycle_ok_all _ hbs _ hn _ hcur
  rw [hcast, ← next_player_congr g _ hp hf, ← active_slots_congr g _ hp hf] at this
  exact this hk

theorem active_slots_nodup (g : GameState) : (active_slots g).Nodup := by
  unfold active_slots
  apply List.Nodup.filter
  exact List.Nodup.map (fun a b h => by simpa using h) (List.nodup_range _)

theorem mem_active_slots (g : GameState) (x : Int) :
    x ∈ active_slots g ↔
      0 ≤ x ∧ x < g.players ∧ ∃ a, rd g.active x = some a ∧ a ≠ 0 := by
  simp only [active_slots, List.mem_filter, List.mem_map, List.mem_range, is_active,
    Int.ofNat_eq_coe]
  constructor
  · rintro ⟨⟨i, hi, rfl⟩, hact⟩
    refine ⟨by omega, by omega, ?_⟩
    cases h : rd g.active (i : Int) with
    | none => simp [h] at hact
    | some a => exact ⟨a, rfl, by simpa [h] using hact⟩
  · rintro ⟨h0, h1, a, ha, hne⟩
    exact ⟨⟨x.toNat, by omega, by omega⟩, by simp [ha, hne]⟩

theorem iter_turn_period (f : Int → Option Int) (cur : Int) (k : Nat)
    (h : iter_turn f cur k = iter_turn f cur 0) :
    ∀ i, iter_turn f cur (i + k) = iter_turn f cur i := by
  intro i
  induction i with
  | zero => simpa using h
  | succ i ih =>
    have : i + 1 + k = (i + k) + 1 := by omega
    rw [this, iter_turn, ih, iter_turn]

/-- C7: with `N = players` in `1..5`, `cur` in `0..N-1` and at least one
active slot, every iterate of `next_player` from `cur` is an active slot; the
first `k` iterates (`k` the number of active slots) are the active slots, each
exactly once; and the sequence of iterates has period `k`. -/
theorem next_player_cycle (g : GameState) (cur : Int)
    (hN : 0 < g.players) (hN5 : g.players ≤ 5) (hlen : g.active.length = MAX_PLAYERS)
    (hc0 : 0 ≤ cur) (hc1 : cur < g.players) (hk : 1 ≤ (active_slots g).length) :
    (∀ i, ∃ x, turn_seq g cur i = some x ∧ x ∈ active_slots g ∧
        ∃ a, rd g.active x = some a ∧ a ≠ 0) ∧
    ((List.range (active_slots g).length).map (turn_seq g cur)).Perm
        ((active_slots g).map some) ∧
    ((List.range (active_slots g).length).map (turn_seq g cur)).Nodup ∧
    (∀ i, turn_seq g cur (i + (active_slots g).length) = turn_seq g cur i) := by
  have hne : active_slots g ≠ [] := by
    intro h; rw [h] at hk; simp at hk
  have hok := cycle_ok_state g cur hN hN5 hlen hc0 hc1 hne
  simp only [cycle_ok, Bool.and_eq_true, decide_eq_true_eq, List.all_eq_true] at hok
  obtain ⟨⟨hperm, hper⟩, hclosed⟩ := hok
  have hmem : ∀ i, ∃ x, turn_seq g cur i = some x ∧ x ∈ active_slots g := by
    intro i
    induction i with
    | zero =>
      have h0 : iter_turn (next_player g) cur 0 ∈
          (List.range (active_slots g).length).map (iter_turn (next_player g) cur) :=
        List.mem_map.mpr ⟨0, List.mem_range.mpr (by omega), rfl⟩
      obtain ⟨x, hx, hxe⟩ := List.mem_map.mp (hperm.mem_iff.mp h0)
      exact ⟨x, hxe.symm, hx⟩
    | succ i ih =>
      obtain ⟨x, hx, hxm⟩ := ih
      have hc := hclosed x hxm
      unfold turn_seq at hx ⊢
      rw [iter_turn, hx]
      cases hf : next_player g x with
      | none => simp [hf] at hc
      | some y => exact ⟨y, hf, by simpa [hf] using hc⟩
  refine ⟨fun i => ?_, hperm, ?_, iter_turn_period _ _ _ hper⟩
  · obtain ⟨x, hx, hxm⟩ := hmem i
    exact ⟨x, hx, hxm, ((mem_active_slots g x).mp hxm).2.2⟩
  · exact hperm.nodup_iff.mpr
      ((active_slots_nodup g).map (fun a b h => Option.some.inj h))

/-- Witness for `next_player_cycle`: three players, slots 0 and 2 active. -/
theorem next_player_cycle_witness :
    1 ≤ (active_slots (flag_state 3 [true, false, true, false, false])).length ∧
    ((List.range (active_slots (flag_state 3 [true, false, true, false, false])).length).map
        (turn_seq (flag_state 3 [true, false, true, false, false]) 0)).Perm
      ((active_slots (flag_state 3 [true, false, true, false, false])).map some) :=
  ⟨by decide,
   (next_player_cycle (flag_state 3 [true, false, true, false, false]) 0
      (by decide) (by decide) (by decide) (by decide) (by decide) (by decide)).2.1⟩

/-! ## The apply step: lemmas -/

theorem rd_nonneg {α : Type} (a : List α) (i : Int) (h0 : 0 ≤ i) : rd a i = a[i.toNat]? := by
  simp [rd, h0]

theorem rd_some_of_lt {α : Type} (a : List α) (i : Int) (h0 : 0 ≤ i) (h1 : i < a.length) :
    ∃ v, rd a i = some v := by
  have hi : i.toNat < a.length := by omega
  exact ⟨_, rd_eq_getElem a i h0 hi⟩

theorem rd_lt_of_some {α : Type} (a : List α) (i : Int) (v : α) (h : rd a i = some v) :
    0 ≤ i ∧ i < a.length := by
  unfold rd at h
  split at h
  · have := (List.getElem?_eq_some_iff.mp h).1
    omega
  · cases h

theorem wr_of_lt {α : Type} (a : List α) (i : Int) (v : α) (h0 : 0 ≤ i) (h1 : i < a.length) :
    wr a i v = some (a.set i.toNat v) := by
  simp [wr, h0, h1]

theorem rd_set_same {α : Type} (a : List α) (i : Int) (v : α) (h0 : 0 ≤ i) (h1 : i < a.length) :
    rd (a.set i.toNat v) i = some v := by
  have hi : i.toNat < a.length := by omega
  rw [rd_nonneg _ _ h0]
  simp [hi]

theorem rd_set_other {α : Type} (a : List α) (i j : Int) (v : α) (h0 : 0 ≤ i) (hij : i ≠ j) :
    rd (a.set i.toNat v) j = rd a j := by
  unfold rd
  split
  · rw [List.getElem?_set_ne]
    omega
  · rfl

theorem HandsWF_set (hs : List (List Card)) (p : Nat) (h : List Card) (hw : HandsWF hs)
    (hl : h.length = HAND_CAP) : HandsWF (hs.set p h) := by
  refine ⟨by simpa using hw.1, fun x hx => ?_⟩
  rcases List.mem_or_eq_of_mem_set hx with hx | hx
  · exact hw.2 x hx
  · rw [hx]; exact hl

theorem rd_hands_length (hs : List (List Card)) (p : Int) (h : List Card) (hw : HandsWF hs)
    (hp : rd hs p = some h) : h.length = HAND_CAP := by
  have h0 := (rd_lt_of_some _ _ _ hp).1
  rw [rd_nonneg _ _ h0] at hp
  exact hw.2 h (List.getElem?_mem hp)

theorem wr_hand_ok (hs : List (List Card)) (p i : Int) (c : Card) (hw : HandsWF hs)
    (hp0 : 0 ≤ p) (hp1 : p < 5) (hi0 : 0 ≤ i) (hi1 : i < 20) :
    ∃ h, rd hs p = some h ∧ wr_hand hs p i c = some (hs.set p.toNat (h.set i.toNat c)) ∧
      HandsWF (hs.set p.toNat (h.set i.toNat c)) := by
  obtain ⟨h, hh⟩ := rd_some_of_lt hs p hp0 (by rw [hw.1]; simp only [MAX_PLAYERS]; omega)
  have hl := rd_hands_length hs p h hw hh
  refine ⟨h, hh, ?_, HandsWF_set _ _ _ hw (by simpa using hl)⟩
  unfold wr_hand
  rw [hh]
  simp only
  rw [wr_of_lt h i c hi0 (by rw [hl]; simp only [HAND_CAP]; omega)]
  simp only
  rw [wr_of_lt hs p _ hp0 (by rw [hw.1]; simp only [MAX_PLAYERS]; omega)]

theorem rd_hand_ok (hs : List (List Card)) (p i : Int) (hw : HandsWF hs)
    (hp0 : 0 ≤ p) (hp1 : p < 5) (hi0 : 0 ≤ i) (hi1 : i < 20) :
    ∃ c, rd_hand hs p i = some c := by
  obtain ⟨h, hh⟩ := rd_some_of_lt hs p hp0 (by rw [hw.1]; simp only [MAX_PLAYERS]; omega)
  have hl := rd_hands_length hs p h hw hh
  obtain ⟨c, hc⟩ := rd_some_of_lt h i hi0 (by rw [hl]; simp only [HAND_CAP]; omega)
  exact ⟨c, by unfold rd_hand; rw [hh]; exact hc⟩

theorem GameState.WF.handsWF {g : GameState} (hw : g.WF) : HandsWF g.hands :=
  ⟨hw.hands_len, hw.hand_len⟩

theorem refill_frame (g : GameState) (r : Rand) :
    (refill g r).1 = { g with deck := (refill g r).1.deck, deck_top := (refill g r).1.deck_top } := by
  unfold refill
  split
  · simp only [shuffle_deck, build_deck]
  · rfl

theorem draw_card_frame (g : GameState) (r : Rand) (hs : g.Safe) :
    ∃ c g1 r1, draw_card g r = some (c, g1, r1) ∧
      g1 = { g with deck := g1.deck, deck_top := g1.deck_top } ∧ g1.Safe := by
  obtain ⟨c, g2, hd, _, _, hg2, hb, hl, _, _⟩ := draw_card_ok g r hs.wf.deck_len hs.top_lo hs.top_hi
  have hf := refill_frame g r
  have hg1 : g2 = { g with deck := g2.deck, deck_top := g2.deck_top } := by
    rw [hg2, hf]
  refine ⟨c, g2, _, hd, hg1, ?_⟩
  have hw := hs.wf
  rw [hg1]
  exact ⟨⟨hw.active_len, hw.no_card_len, hw.hands_len, hw.hand_len, hw.hand_count_len, hl,
    hw.scores_len⟩, hs.players_pos, hs.players_le, by simp only; omega, hb.2⟩

theorem deal_to_ok (g : GameState) (r : Rand) (n k : Int) (hs : g.Safe)
    (hn0 : 0 ≤ n) (hn1 : n < 5) (hk : rd g.hand_count n = some k) (hk0 : 0 ≤ k) (hk1 : k < 20) :
    ∃ c g1 r1 h g2, draw_card g r = some (c, g1, r1) ∧ rd g.hands n = some h ∧
      deal_to g r n = some (g2, r1) ∧
      g2 = { g with hands := g.hands.set n.toNat (h.set k.toNat c),
                    hand_count := g.hand_count.set n.toNat (k + 1),
                    deck := g1.deck, deck_top := g1.deck_top } ∧
      g2.Safe := by
  obtain ⟨c, g1, r1, hd, hg1, hs1⟩ := draw_card_frame g r hs
  obtain ⟨h, hh, hwr, hwf⟩ := wr_hand_ok g.hands n k c hs.wf.handsWF hn0 hn1 hk0 hk1
  have hhc : g1.hand_count = g.hand_count := by rw [hg1]
  have hhs : g1.hands = g.hands := by rw [hg1]
  have hw := hs1.wf
  refine ⟨c, g1, r1, h, _, hd, hh, ?_, rfl, ?_⟩
  · unfold deal_to
    rw [hd]
    simp only [hhc, hhs, hk, hwr]
    rw [wr_of_lt _ _ _ hn0 (by rw [hs.wf.hand_count_len]; simp only [MAX_PLAYERS]; omega)]
    simp only [Option.some.injEq, Prod.mk.injEq, and_true]
    rw [hg1]
  · exact ⟨⟨hs.wf.active_len, hs.wf.no_card_len, hwf.1, hwf.2,
      by simpa using hs.wf.hand_count_len, hw.deck_len, hs.wf.scores_len⟩,
      hs.players_pos, hs.players_le, hs1.top_lo, hs1.top_hi⟩

theorem take_set_succ (h : List Card) (k : Nat) (c : Card) (hk : k < h.length) :
    (h.set k c).take (k + 1) = h.take k ++ [c] := by
  rw [List.set_eq_take_append_cons_drop, if_pos hk, List.take_append_eq_append_take]
  simp [List.take_take, Nat.min_eq_left (Nat.le_of_lt hk)]

theorem count_alive_ok (g : GameState) (hlen : g.active.length = MAX_PLAYERS) :
    ∀ (l : List Nat) (st : Int × Int), (∀ i ∈ l, i < 5) →
      ∃ st2, count_alive g l st = some st2 ∧
        (st2 = st ∨ (st.1 < st2.1 ∧ ∃ i ∈ l, st2.2 = (i : Int))) ∧ st.1 ≤ st2.1 := by
  intro l
  induction l with
  | nil => intro st _; exact ⟨st, rfl, Or.inl rfl, le_refl _⟩
  | cons i rest ih =>
    intro st hl
    obtain ⟨a, ha⟩ := rd_some_of_lt g.active (i : Int) (by omega)
      (by rw [hlen]; have := hl i (List.mem_cons_self _ _); simp only [MAX_PLAYERS]; omega)
    rw [count_alive, ha]
    simp only
    obtain ⟨st2, h2, hcase, hle⟩ :=
      ih (if a ≠ 0 then (st.1 + 1, (i : Int)) else st) (fun j hj => hl j (List.mem_cons_of_mem _ hj))
    refine ⟨st2, h2, ?_, ?_⟩
    · by_cases hz : a ≠ 0
      · rw [if_pos hz] at hcase hle
        simp only at hle
        right
        rcases hcase with h | ⟨_, j, hj, hj2⟩
        · exact ⟨by omega, i, List.mem_cons_self _ _, by rw [h]⟩
        · exact ⟨by omega, j, List.mem_cons_of_mem _ hj, hj2⟩
      · rw [if_neg hz] at hcase
        rcases hcase with h | ⟨h1, j, hj, hj2⟩
        · exact Or.inl h
        · exact Or.inr ⟨h1, j, List.mem_cons_of_mem _ hj, hj2⟩
    · by_cases hz : a ≠ 0
      · rw [if_pos hz] at hle
        simp only at hle
        omega
      · rw [if_neg hz] at hle
        exact hle

theorem check_last_player_ok (g : GameState) (hs : g.Safe) :
    ∃ g2, check_last_player g = some g2 ∧
      g2 = { g with scores := g2.scores, game_over := g2.game_over } ∧ g2.Safe := by
  obtain ⟨st, hst, hcase, _⟩ := count_alive_ok g hs.wf.active_len (List.range g.players.toNat)
    (0, -1) (fun i hi => by have := List.mem_range.mp hi; have := hs.players_le; omega)
  unfold check_last_player
  rw [hst]
  simp only
  by_cases h1 : st.1 = 1
  · rw [if_pos h1]
    rcases hcase with h | ⟨_, i, hi, hi2⟩
    · rw [h] at h1; simp at h1
    · have him := List.mem_range.mp hi
      have h5 := hs.players_le
      have hlen := hs.wf.scores_len
      obtain ⟨v, hv⟩ := rd_some_of_lt g.scores st.2 (by omega)
        (by rw [hlen]; simp only [MAX_PLAYERS]; omega)
      rw [hv]
      simp only
      rw [wr_of_lt _ _ _ (by omega) (by rw [hlen]; simp only [MAX_PLAYERS]; omega)]
      refine ⟨_, rfl, rfl, ?_⟩
      have hw := hs.wf
      exact ⟨⟨hw.active_len, hw.no_card_len, hw.hands_len, hw.hand_len, hw.hand_count_len,
        hw.deck_len, by simpa using hw.scores_len⟩, hs.players_pos, hs.players_le, hs.top_lo,
        hs.top_hi⟩
  · rw [if_neg h1]
    exact ⟨g, rfl, rfl, hs⟩

theorem next_player_ok (g : GameState) (cur : Int) (hs : g.Safe) (hc0 : 0 ≤ cur)
    (hc1 : cur < g.players) :
    ∃ x, next_player g cur = some x ∧ -1 ≤ x ∧ x < g.players ∧
      ((∃ q a, 0 ≤ q ∧ q < g.players ∧ rd g.active q = some a ∧ a ≠ 0) →
        0 ≤ x ∧ ∃ a, rd g.active x = some a ∧ a ≠ 0) := by
  obtain ⟨x, hx, hiff, hpos⟩ :=
    next_player_char g cur hs.players_pos hs.players_le hs.wf.active_len hc0 hc1
  have hN := hs.players_pos
  by_cases hm : x = -1
  · refine ⟨x, hx, by omega, by omega, ?_⟩
    rintro ⟨q, a, hq0, hq1, hqa, hne⟩
    have := hiff.mp hm q hq0 hq1
    rw [hqa] at this
    exact absurd (Option.some.inj this) hne
  · obtain ⟨i, _, _, hxi, hact, _⟩ := hpos hm
    have h0 : 0 ≤ x := by rw [hxi]; exact Int.emod_nonneg _ (by omega)
    have h1 : x < g.players := by rw [hxi]; exact Int.emod_lt_of_pos _ hN
    exact ⟨x, hx, by omega, h1, fun _ => ⟨h0, hact⟩⟩

theorem next_player_frame (g g2 : GameState) (hp : g.players = g2.players)
    (ha : g.active = g2.active) : next_player g = next_player g2 :=
  next_player_congr g g2 hp (by rw [ha])

theorem disqualify_ok (g : GameState) (pid : Int) (hs : g.Safe) (hp0 : 0 ≤ pid)
    (hp1 : pid < g.players) :
    ∃ t g2, next_player { g with active := g.active.set pid.toNat 0 } pid = some t ∧
      check_last_player { g with active := g.active.set pid.toNat 0, current_turn := t }
        = some g2 ∧
      disqualify g pid = some g2 ∧
      g2 = { g with active := g.active.set pid.toNat 0, current_turn := t,
                    scores := g2.scores, game_over := g2.game_over } ∧
      g2.Safe := by
  have hw := hs.wf
  have h5 := hs.players_le
  have hs1 : ({ g with active := g.active.set pid.toNat 0 } : GameState).Safe :=
    ⟨⟨by simpa using hw.active_len, hw.no_card_len, hw.hands_len, hw.hand_len,
      hw.hand_count_len, hw.deck_len, hw.scores_len⟩, hs.players_pos, hs.players_le, hs.top_lo,
      hs.top_hi⟩
  obtain ⟨t, ht, _⟩ := next_player_ok _ pid hs1 hp0 hp1
  have hs2 : ({ g with active := g.active.set pid.toNat 0, current_turn := t } : GameState).Safe :=
    ⟨⟨hs1.wf.active_len, hw.no_card_len, hw.hands_len, hw.hand_len,
      hw.hand_count_len, hw.deck_len, hw.scores_len⟩, hs.players_pos, hs.players_le, hs.top_lo,
      hs.top_hi⟩
  obtain ⟨g2, hg2, hfr, hs3⟩ := check_last_player_ok _ hs2
  refine ⟨t, g2, ht, hg2, ?_, hfr, hs3⟩
  unfold disqualify
  rw [wr_of_lt _ _ _ hp0 (by rw [hw.active_len]; simp only [MAX_PLAYERS]; omega)]
  simp only [ht]
  exact hg2

theorem refill_no_card_count (g : GameState) (r : Rand) (nc : List Int) :
    refill { g with no_card_count := nc } r =
      ({ (refill g r).1 with no_card_count := nc }, (refill g r).2) := by
  unfold refill
  split
  · simp only [shuffle_deck, build_deck]
  · rfl

theorem draw_card_no_card_count (g : GameState) (r : Rand) (nc : List Int) :
    draw_card { g with no_card_count := nc } r =
      (draw_card g r).map (fun x => (x.1, { x.2.1 with no_card_count := nc }, x.2.2)) := by
  unfold draw_card
  rw [refill_no_card_count]
  simp only
  cases rd (refill g r).1.deck (refill g r).1.deck_top <;> rfl

theorem hand_after_deal (g2 g : GameState) (n k : Int) (h : List Card) (c : Card)
    (hw : HandsWF g.hands) (hn0 : 0 ≤ n) (hn1 : n < 5) (hlen : g.hand_count.length = MAX_PLAYERS)
    (hh : rd g.hands n = some h) (hk : rd g.hand_count n = some k) (hk0 : 0 ≤ k) (hk1 : k < 20)
    (e1 : g2.hands = g.hands.set n.toNat (h.set k.toNat c))
    (e2 : g2.hand_count = g.hand_count.set n.toNat (k + 1)) :
    hand g2 n = (hand g n).map (fun l => l ++ [c]) ∧ rd g2.hand_count n = some (k + 1) ∧
      ∀ q, q ≠ n → hand g2 q = hand g q := by
  have hl := rd_hands_length g.hands n h hw hh
  have r1 : rd g2.hands n = some (h.set k.toNat c) := by
    rw [e1]; exact rd_set_same _ _ _ hn0 (by rw [hw.1]; simp only [MAX_PLAYERS]; omega)
  have r2 : rd g2.hand_count n = some (k + 1) := by
    rw [e2]; exact rd_set_same _ _ _ hn0 (by rw [hlen]; simp only [MAX_PLAYERS]; omega)
  refine ⟨?_, r2, fun q hq => ?_⟩
  · unfold hand
    rw [r1, r2, hh, hk]
    simp only [Option.map_some', Option.some.injEq]
    have : (k + 1).toNat = k.toNat + 1 := by omega
    rw [this]
    exact take_set_succ h k.toNat c (by rw [hl]; simp only [HAND_CAP]; omega)
  · unfold hand
    rw [e1, e2, rd_set_other _ _ _ _ hn0 (Ne.symm hq), rd_set_other _ _ _ _ hn0 (Ne.symm hq)]


theorem hand_congr (g g2 : GameState) (e1 : g2.hands = g.hands)
    (e2 : g2.hand_count = g.hand_count) (q : Int) : hand g2 q = hand g q := by
  unfold hand
  rw [e1, e2]

theorem no_card_step_spec (g : GameState) (r : Rand) (p k hc : Int)
    (hs : g.Safe) (hp0 : 0 ≤ p) (hp1 : p < g.players)
    (hk : rd g.no_card_count p = some k)
    (hhc : rd g.hand_count p = some hc) (hc0 : 0 ≤ hc) (hc1 : hc < 20) :
    ∃ c gd res, draw_card g r = some (c, gd, res.rand) ∧
      apply_step p NO_CARD g r = some res ∧
      res.game.deck = gd.deck ∧ res.game.deck_top = gd.deck_top ∧
      res.game.top_card = g.top_card ∧
      rd res.game.hand_count p = some (hc + 1) ∧
      hand res.game p = (hand g p).map (fun l => l ++ [c]) ∧
      (∀ q, q ≠ p → hand res.game q = hand g q) ∧
      rd res.game.no_card_count p = some (k + 1) ∧
      (k + 1 < 3 →
        res.exited = false ∧ res.game.active = g.active ∧
        next_player g p = some res.game.current_turn ∧
        res.game.game_over = g.game_over ∧ res.game.scores = g.scores) ∧
      (3 ≤ k + 1 →
        res.exited = true ∧ res.game.active = g.active.set p.toNat 0 ∧
        rd res.game.active p = some 0 ∧
        ∃ gb, gb.players = g.players ∧ gb.active = g.active.set p.toNat 0 ∧
          gb.scores = g.scores ∧ gb.game_over = g.game_over ∧
          next_player gb p = some gb.current_turn ∧
          check_last_player gb = some res.game ∧
          res.game.current_turn = gb.current_turn) ∧
      res.game.Safe ∧ res.game.players = g.players := by
  have hw := hs.wf
  have h5 := hs.players_le
  have hsn : ({ g with no_card_count := g.no_card_count.set p.toNat (k + 1) } : GameState).Safe :=
    ⟨⟨hw.active_len, by simpa using hw.no_card_len, hw.hands_len, hw.hand_len,
      hw.hand_count_len, hw.deck_len, hw.scores_len⟩, hs.players_pos, hs.players_le, hs.top_lo,
      hs.top_hi⟩
  obtain ⟨c, g1, r1, h, g2, hd, hh, hdeal, hg2, hs2⟩ :=
    deal_to_ok _ r p hc hsn hp0 (by omega) hhc hc0 hc1
  dsimp only at hd hh hdeal hg2
  have hdraw := draw_card_no_card_count g r (g.no_card_count.set p.toNat (k + 1))
  rw [hd] at hdraw
  cases hdg : draw_card g r with
  | none => rw [hdg] at hdraw; simp at hdraw
  | some x =>
    rw [hdg] at hdraw
    simp only [Option.map_some', Option.some.injEq, Prod.mk.injEq] at hdraw
    obtain ⟨hxc, hxg, hxr⟩ := hdraw
    -- the fields of the state after the draw
    have e_players : g2.players = g.players := by rw [hg2]
    have e_active : g2.active = g.active := by rw [hg2]
    have e_top : g2.top_card = g.top_card := by rw [hg2]
    have e_scores : g2.scores = g.scores := by rw [hg2]
    have e_over : g2.game_over = g.game_over := by rw [hg2]
    have e_ncc : g2.no_card_count = g.no_card_count.set p.toNat (k + 1) := by rw [hg2]
    have e_hands : g2.hands = g.hands.set p.toNat (h.set hc.toNat c) := by rw [hg2]
    have e_hc : g2.hand_count = g.hand_count.set p.toNat (hc + 1) := by rw [hg2]
    have e_deck : g2.deck = x.2.1.deck := by rw [hg2, hxg]
    have e_dt : g2.deck_top = x.2.1.deck_top := by rw [hg2, hxg]
    have hnc : rd g2.no_card_count p = some (k + 1) := by
      rw [e_ncc]
      exact rd_set_same _ _ _ hp0 (by rw [hw.no_card_len]; simp only [MAX_PLAYERS]; omega)
    have hhand := hand_after_deal g2 g p hc h c hw.handsWF hp0 (by omega) hw.hand_count_len
      hh hhc hc0 hc1 e_hands e_hc
    rw [hxc] at hhand
    have hstep : apply_step p NO_CARD g r = no_card_step p g r := by
      unfold apply_step; rw [if_pos rfl]
    have hwr : wr g.no_card_count p (k + 1) = some (g.no_card_count.set p.toNat (k + 1)) :=
      wr_of_lt _ _ _ hp0 (by rw [hw.no_card_len]; simp only [MAX_PLAYERS]; omega)
    by_cases hk3 : 3 ≤ k + 1
    · obtain ⟨t, g3, ht, hchk, hdis, hg3, hs3⟩ := disqualify_ok g2 p hs2 hp0
        (by rw [e_players]; exact hp1)
      have hfin : apply_step p NO_CARD g r = some ⟨g3, r1, .disqualified_no_card, true⟩ := by
        rw [hstep]
        unfold no_card_step
        rw [hk]
        simp only [hwr, hdeal, hnc]
        rw [if_pos (by omega)]
        simp only [hdis]
      have f_hands : g3.hands = g2.hands := by rw [hg3]
      have f_hc : g3.hand_count = g2.hand_count := by rw [hg3]
      have f_act : g3.active = g.active.set p.toNat 0 := by rw [hg3, e_active]
      have f_ct : g3.current_turn = t := by rw [hg3]
      refine ⟨x.1, x.2.1, ⟨g3, r1, .disqualified_no_card, true⟩, by rw [hxr], hfin,
        by rw [hg3]; exact e_deck, by rw [hg3]; exact e_dt, by rw [hg3]; exact e_top,
        by rw [f_hc]; exact hhand.2.1, ?_, ?_, by rw [hg3]; exact hnc, fun h => by omega, ?_, hs3,
        by rw [hg3]; exact e_players⟩
      · rw [hand_congr g2 g3 f_hands f_hc]; exact hhand.1
      · intro q hq
        rw [hand_congr g2 g3 f_hands f_hc]; exact hhand.2.2 q hq
      · intro _
        refine ⟨rfl, f_act, ?_,
          { g2 with active := g2.active.set p.toNat 0, current_turn := t },
          ?_, ?_, ?_, ?_, ?_, hchk, f_ct⟩
        · rw [f_act]
          exact rd_set_same _ _ _ hp0 (by rw [hw.active_len]; simp only [MAX_PLAYERS]; omega)
        · exact e_players
        · simp only [e_active]
        · exact e_scores
        · exact e_over
        · have hfr := next_player_frame
            ({ g2 with active := g2.active.set p.toNat 0, current_turn := t } : GameState)
            { g2 with active := g2.active.set p.toNat 0 } rfl rfl
          rw [hfr]
          exact ht
    · obtain ⟨t, ht, _⟩ := next_player_ok g p hs hp0 hp1
      have hnp : next_player g2 = next_player g := next_player_frame _ _ e_players e_active
      have hfin : apply_step p NO_CARD g r =
          some ⟨{ g2 with current_turn := t }, r1, .silent, false⟩ := by
        rw [hstep]
        unfold no_card_step
        rw [hk]
        simp only [hwr, hdeal, hnc]
        rw [if_neg (by omega)]
        simp only [hnp, ht]
      have hw2 := hs2.wf
      refine ⟨x.1, x.2.1, ⟨{ g2 with current_turn := t }, r1, .silent, false⟩, by rw [hxr], hfin,
        e_deck, e_dt, e_top, hhand.2.1, ?_, ?_, hnc,
        fun _ => ⟨rfl, e_active, ht, e_over, e_scores⟩, fun h => by omega, ?_, e_players⟩
      · exact (hand_congr g2 { g2 with current_turn := t } rfl rfl p).trans hhand.1
      · intro q hq
        exact (hand_congr g2 { g2 with current_turn := t } rfl rfl q).trans (hhand.2.2 q hq)
      · exact ⟨⟨hw2.active_len, hw2.no_card_len, hw2.hands_len, hw2.hand_len,
          hw2.hand_count_len, hw2.deck_len, hw2.scores_len⟩, hs2.players_pos, hs2.players_le,
          hs2.top_lo, hs2.top_hi⟩

theorem strike_state_safe : strike_state.Safe :=
  ⟨⟨by decide, by decide, by decide, by decide, by decide, by decide, by decide⟩,
    by decide, by decide, by decide, by decide⟩

/-- The scenario of the specification run from streak 0: after three `NO_CARD`
steps of player 1 in a three-player game `active[1]` is zero, the hand of
player 1 has grown from 5 to 8 cards and the turn is with player 2. -/
theorem no_card_thrice_scenario :
    (no_card_thrice 1 { strike_state with no_card_count := [0, 0, 0, 0, 0] } (fun k => k)).map
        (fun res => (res.exited, res.game.active, res.game.hand_count,
          res.game.no_card_count, res.game.current_turn))
      = some (true, [1, 0, 1, 0, 0], [5, 8, 5, 0, 0], [0, 3, 0, 0, 0], 2) := by
  decide

/-! ## Legal plays -/

theorem shift_left_ok (pid : Int) (hp0 : 0 ≤ pid) (hp1 : pid < 5) :
    ∀ (l : List Nat) (hs : List (List Card)), HandsWF hs → (∀ i ∈ l, i + 1 < 20) →
      ∃ hs2, shift_left hs pid l = some hs2 ∧ HandsWF hs2 := by
  intro l
  induction l with
  | nil => intro hs hw _; exact ⟨hs, rfl, hw⟩
  | cons i rest ih =>
    intro hs hw hl
    have hi := hl i (List.mem_cons_self _ _)
    obtain ⟨c, hc⟩ := rd_hand_ok hs pid ((i : Int) + 1) hw hp0 hp1 (by omega) (by omega)
    obtain ⟨h, _, hwr, hw2⟩ := wr_hand_ok hs pid (i : Int) c hw hp0 hp1 (by omega) (by omega)
    obtain ⟨hs2, h2, hw3⟩ := ih _ hw2 (fun j hj => hl j (List.mem_cons_of_mem _ hj))
    refine ⟨hs2, ?_, hw3⟩
    rw [shift_left, hc]
    simp only [hwr]
    exact h2

/-- The fields that the card effect leaves alone. -/
theorem card_effect_ok (pid : Int) (played : Card) (g : GameState) (r : Rand)
    (hs : g.Safe) (hp0 : 0 ≤ pid) (hp1 : pid < g.players) (hact : is_active g pid = true)
    (hcs : ∀ q, 0 ≤ q → q < g.players → ∃ k, rd g.hand_count q = some k ∧ 0 ≤ k ∧ k ≤ 18) :
    ∃ g2 r2, card_effect pid played g r = some (g2, r2) ∧ g2.Safe ∧
      g2.players = g.players ∧ g2.active = g.active ∧ g2.no_card_count = g.no_card_count ∧
      g2.top_card = g.top_card ∧ g2.scores = g.scores ∧ g2.game_over = g.game_over := by
  have hany : ∃ q a, 0 ≤ q ∧ q < g.players ∧ rd g.active q = some a ∧ a ≠ 0 := by
    unfold is_active at hact
    cases h : rd g.active pid with
    | none => rw [h] at hact; simp at hact
    | some a => rw [h] at hact; exact ⟨pid, a, hp0, hp1, h, by simpa using hact⟩
  have hw := hs.wf
  have keep : ∀ t : Int, ({ g with current_turn := t } : GameState).Safe := fun t =>
    ⟨⟨hw.active_len, hw.no_card_len, hw.hands_len, hw.hand_len, hw.hand_count_len, hw.deck_len,
      hw.scores_len⟩, hs.players_pos, hs.players_le, hs.top_lo, hs.top_hi⟩
  obtain ⟨n1, hn1, _, hn1lt, hn1act⟩ := next_player_ok g pid hs hp0 hp1
  obtain ⟨hn10, _⟩ := hn1act hany
  unfold card_effect
  cases hty : played.type with
  | NUMBER =>
    simp only [hn1]
    exact ⟨_, _, rfl, keep n1, rfl, rfl, rfl, rfl, rfl, rfl⟩
  | SKIP =>
    obtain ⟨t, ht, _⟩ := next_player_ok g n1 hs hn10 hn1lt
    simp only [hn1, ht]
    exact ⟨_, _, rfl, keep t, rfl, rfl, rfl, rfl, rfl, rfl⟩
  | PLUS2 =>
    obtain ⟨k, hk, hk0, hk18⟩ := hcs n1 hn10 hn1lt
    have h5 := hs.players_le
    obtain ⟨c1, ga, r1, h1, g1, _, _, hdeal1, hg1, hs1⟩ :=
      deal_to_ok g r n1 k hs hn10 (by omega) hk hk0 (by omega)
    have hk1 : rd g1.hand_count n1 = some (k + 1) := by
      rw [hg1]
      exact rd_set_same _ _ _ hn10 (by rw [hw.hand_count_len]; simp only [MAX_PLAYERS]; omega)
    obtain ⟨c2, gb, r2, h2, g2, _, _, hdeal2, hg2, hs2⟩ :=
      deal_to_ok g1 r1 n1 (k + 1) hs1 hn10 (by omega) hk1 (by omega) (by omega)
    have e1 : g1.players = g.players := by rw [hg1]
    have e2 : g2.players = g.players := by rw [hg2, e1]
    obtain ⟨t, ht, _⟩ := next_player_ok g2 n1 hs2 hn10 (by rw [e2]; exact hn1lt)
    simp only [hn1, hdeal1, hdeal2, ht]
    have hw2 := hs2.wf
    refine ⟨_, _, rfl, ⟨⟨hw2.active_len, hw2.no_card_len, hw2.hands_len, hw2.hand_len,
      hw2.hand_count_len, hw2.deck_len, hw2.scores_len⟩, hs2.players_pos, hs2.players_le,
      hs2.top_lo, hs2.top_hi⟩, e2, ?_, ?_, ?_, ?_, ?_⟩
    · show g2.active = g.active
      rw [hg2]; simp only; rw [hg1]
    · show g2.no_card_count = g.no_card_count
      rw [hg2]; simp only; rw [hg1]
    · show g2.top_card = g.top_card
      rw [hg2]; simp only; rw [hg1]
    · show g2.scores = g.scores
      rw [hg2]; simp only; rw [hg1]
    · show g2.game_over = g.game_over
      rw [hg2]; simp only; rw [hg1]


theorem play_card_ok (g : GameState) (r : Rand) (pid choice hc : Int) (played : Card)
    (hs : g.Safe) (hp0 : 0 ≤ pid) (hp1 : pid < g.players) (hact : is_active g pid = true)
    (hcs : ∀ q, 0 ≤ q → q < g.players → ∃ k, rd g.hand_count q = some k ∧ 0 ≤ k ∧ k ≤ 18)
    (hhc : rd g.hand_count pid = some hc) (hch0 : 0 ≤ choice) (hch1 : choice < hc)
    (hplayed : rd_hand g.hands pid choice = some played) :
    ∃ res, play_card pid choice g r = some res ∧
      res.game.no_card_count = g.no_card_count ∧ res.game.top_card = played ∧
      res.game.players = g.players ∧
      (hc = 1 → res.exited = true ∧ res.reply = .you_win ∧ res.game.game_over = 1 ∧
        res.game.scores = g.scores ∧ res.game.active = g.active ∧
        res.game.current_turn = g.current_turn ∧ res.rand = r) := by
  have hw := hs.wf
  have h5 := hs.players_le
  obtain ⟨k, hk, hk0, hk18⟩ := hcs pid hp0 hp1
  rw [hhc] at hk
  have hkc : hc = k := Option.some.inj hk
  subst hkc
  obtain ⟨hs2, hshift, hw2⟩ := shift_left_ok pid hp0 (by omega)
    (List.range' choice.toNat (hc - 1 - choice).toNat) g.hands hw.handsWF
    (fun i hi => by have := (List.mem_range'_1.mp hi).2; omega)
  have hwr : wr g.hand_count pid (hc - 1) = some (g.hand_count.set pid.toNat (hc - 1)) :=
    wr_of_lt _ _ _ hp0 (by rw [hw.hand_count_len]; simp only [MAX_PLAYERS]; omega)
  unfold play_card
  simp only [hplayed, hhc, hshift, hwr]
  by_cases h1 : hc - 1 = 0
  · rw [if_pos h1]
    exact ⟨_, rfl, rfl, rfl, rfl, fun _ => ⟨rfl, rfl, rfl, rfl, rfl, rfl, rfl⟩⟩
  · rw [if_neg h1]
    have hs1 : GameState.Safe { g with
        top_card := played
        hands := hs2
        hand_count := g.hand_count.set pid.toNat (hc - 1) } :=
      ⟨⟨hw.active_len, hw.no_card_len, hw2.1, hw2.2, by simpa using hw.hand_count_len,
        hw.deck_len, hw.scores_len⟩, hs.players_pos, hs.players_le, hs.top_lo, hs.top_hi⟩
    have hcs1 : ∀ q, 0 ≤ q → q < g.players →
        ∃ k, rd (g.hand_count.set pid.toNat (hc - 1)) q = some k ∧ 0 ≤ k ∧ k ≤ 18 := by
      intro q hq0 hq1
      by_cases hqp : pid = q
      · subst hqp
        exact ⟨hc - 1, rd_set_same _ _ _ hp0
          (by rw [hw.hand_count_len]; simp only [MAX_PLAYERS]; omega), by omega, by omega⟩
      · rw [rd_set_other _ _ _ _ hp0 hqp]
        exact hcs q hq0 hq1
    obtain ⟨g2, r2, heff, hsafe2, e_pl, e_act, e_ncc, e_top, e_sc, e_go⟩ :=
      card_effect_ok pid played _ r hs1 hp0 hp1 hact hcs1
    dsimp only at e_pl e_act e_ncc e_top e_sc e_go
    obtain ⟨hc2, hhc2⟩ := rd_some_of_lt g2.hand_count pid hp0
      (by rw [hsafe2.wf.hand_count_len]; simp only [MAX_PLAYERS]; omega)
    simp only [heff, hhc2]
    by_cases h8 : hc2 ≥ MAX_HAND
    · rw [if_pos h8]
      obtain ⟨t, g3, _, _, hdis, hg3, _⟩ := disqualify_ok g2 pid hsafe2 hp0 (by rw [e_pl]; exact hp1)
      simp only [hdis]
      refine ⟨_, rfl, ?_, ?_, ?_, fun h => by omega⟩
      · show g3.no_card_count = g.no_card_count
        rw [hg3]; exact e_ncc
      · show g3.top_card = played
        rw [hg3]; exact e_top
      · show g3.players = g.players
        rw [hg3]; exact e_pl
    · rw [if_neg h8]
      exact ⟨_, rfl, e_ncc, e_top, e_pl, fun h => by omega⟩

theorem to_int_range (x : Int) : -2147483648 ≤ to_int x ∧ to_int x ≤ 2147483647 := by
  unfold to_int
  omega

theorem to_int_of_range (x : Int) (h0 : -2147483648 ≤ x) (h1 : x ≤ 2147483647) :
    to_int x = x := by
  unfold to_int
  omega

theorem atoi_range (s : List Char) : -2147483648 ≤ atoi s ∧ atoi s ≤ 2147483647 :=
  to_int_range _

theorem choice_of_pos (buf : List Char) (h1 : 1 ≤ atoi buf) :
    to_int (atoi buf - 1) = atoi buf - 1 :=
  to_int_of_range _ (by omega) (by have := atoi_range buf; omega)

theorem apply_step_legal (g : GameState) (r : Rand) (p hc : Int) (buf : List Char) (played : Card)
    (hbuf : buf ≠ NO_CARD) (hhc : rd g.hand_count p = some hc)
    (h1 : 1 ≤ atoi buf) (h2 : atoi buf ≤ hc)
    (hplayed : rd_hand g.hands p (atoi buf - 1) = some played)
    (hlegal : valid_move played g.top_card = true) :
    apply_step p buf g r = play_card p (atoi buf - 1) g r := by
  unfold apply_step
  rw [if_neg hbuf]
  simp only
  rw [choice_of_pos buf h1]
  rw [if_neg (by omega)]
  simp only [hhc]
  rw [if_neg (by omega)]
  simp only [hplayed, hlegal, if_true]


/-- C9, as stated, fails: player 0, at streak 2, plays the legal card
`RED NUMBER 5` (input `1`) on `RED NUMBER 3`; the play is accepted and the
streak is still 2 afterwards, not 0. -/
theorem legal_play_does_not_reset_streak :
    rd streak_state.no_card_count 0 = some 2 ∧
    rd_hand streak_state.hands 0 (atoi ['1'] - 1) = some ⟨.RED, .NUMBER, 5⟩ ∧
    valid_move ⟨.RED, .NUMBER, 5⟩ streak_state.top_card = true ∧
    (apply_step 0 ['1'] streak_state (fun k => k)).map
        (fun res => (res.reply, res.game.top_card, rd res.game.no_card_count 0))
      = some (.silent, ⟨.RED, .NUMBER, 5⟩, some 2) ∧
    (apply_step 0 ['1'] streak_state (fun k => k)).map
        (fun res => rd res.game.no_card_count 0) ≠ some (some 0) := by
  decide

/-- C9, amended: a legal play (an index in `1..hand_count[p]` of a card that
`valid_move` accepts against `top_card`) by an active player `p` is applied and
leaves the whole `no_card_count` array as it was: the streak is not reset. -/
theorem legal_play_keeps_no_card_count (g : GameState) (r : Rand) (p hc : Int)
    (buf : List Char) (played : Card)
    (hs : g.Safe) (hp0 : 0 ≤ p) (hp1 : p < g.players) (hact : is_active g p = true)
    (hcs : ∀ q, 0 ≤ q → q < g.players → ∃ k, rd g.hand_count q = some k ∧ 0 ≤ k ∧ k ≤ 18)
    (hbuf : buf ≠ NO_CARD) (hhc : rd g.hand_count p = some hc)
    (h1 : 1 ≤ atoi buf) (h2 : atoi buf ≤ hc)
    (hplayed : rd_hand g.hands p (atoi buf - 1) = some played)
    (hlegal : valid_move played g.top_card = true) :
    ∃ res, apply_step p buf g r = some res ∧ res.game.top_card = played ∧
      res.game.no_card_count = g.no_card_count := by
  rw [apply_step_legal g r p hc buf played hbuf hhc h1 h2 hplayed hlegal]
  obtain ⟨res, hres, hncc, htop, _⟩ :=
    play_card_ok g r p (atoi buf - 1) hc played hs hp0 hp1 hact hcs hhc (by omega) (by omega)
      hplayed
  exact ⟨res, hres, htop, hncc⟩

theorem streak_state_safe : streak_state.Safe :=
  ⟨⟨by decide, by decide, by decide, by decide, by decide, by decide, by decide⟩,
    by decide, by decide, by decide, by decide⟩

/-- Witness for `legal_play_keeps_no_card_count`: player 0 of `streak_state`
plays card 1. -/
theorem legal_play_keeps_no_card_count_witness :
    ∃ res, apply_step 0 ['1'] streak_state (fun k => k) = some res ∧
      res.game.top_card = ⟨.RED, .NUMBER, 5⟩ ∧
      res.game.no_card_count = [2, 0, 0, 0, 0] :=
  legal_play_keeps_no_card_count streak_state (fun k => k) 0 2 ['1'] ⟨.RED, .NUMBER, 5⟩
    streak_state_safe (by decide) (by decide) (by decide)
    (by
      intro q hq0 hq1
      have hq3 : q < 3 := hq1
      interval_cases q
      · exact ⟨2, by decide⟩
      · exact ⟨5, by decide⟩
      · exact ⟨5, by decide⟩)
    (by decide) (by decide) (by decide) (by decide) (by decide) (by decide)

/-- C10: player 0 holds the single card `RED NUMBER 5` and plays it on
`RED NUMBER 3`: the step sets `game_over`, sends the win notice and exits, and
the `scores` array is what it was (4, 0, 7): `scores[0]` is not incremented. -/
theorem empty_hand_win_keeps_scores :
    rd last_card_state.hand_count 0 = some 1 ∧
    rd_hand last_card_state.hands 0 0 = some ⟨.RED, .NUMBER, 5⟩ ∧
    valid_move ⟨.RED, .NUMBER, 5⟩ last_card_state.top_card = true ∧
    last_card_state.scores = [4, 0, 7, 0, 0] ∧
    (apply_step 0 ['1'] last_card_state (fun k => k)).map
        (fun res => (res.reply, res.exited, res.game.game_over, res.game.scores,
          rd res.game.hand_count 0))
      = some (.you_win, true, 1, [4, 0, 7, 0, 0], some 0) := by
  decide

/-- C20: `valid_move a b` is `a.color = b.color || a.type = b.type`: the
equal-number clause never decides; so `valid_move` is symmetric, any two
`NUMBER` cards are legal on each other (`RED 5` on `BLUE 7`), and a move is
illegal exactly when colour and type both differ. -/
theorem valid_move_color_or_type (a b : Card) :
    valid_move a b = (decide (a.color = b.color) || decide (a.type = b.type)) ∧
    valid_move a b = valid_move b a ∧
    (∀ (c1 c2 : Color) (n1 n2 : Int),
      valid_move ⟨c1, .NUMBER, n1⟩ ⟨c2, .NUMBER, n2⟩ = true) ∧
    valid_move ⟨.RED, .NUMBER, 5⟩ ⟨.BLUE, .NUMBER, 7⟩ = true ∧
    (valid_move a b = false ↔ a.color ≠ b.color ∧ a.type ≠ b.type) := by
  have key : ∀ x y : Card,
      valid_move x y = (decide (x.color = y.color) || decide (x.type = y.type)) := by
    intro x y
    unfold valid_move
    by_cases hc : x.color = y.color
    · simp [hc]
    · by_cases ht : x.type = y.type
      · simp [hc, ht]
      · have hn : ¬ (x.type = .NUMBER ∧ y.type = .NUMBER ∧ x.number = y.number) := by
          rintro ⟨h1, h2, _⟩
          exact ht (h1.trans h2.symm)
        simp [hc, ht, hn]
  refine ⟨key a b, ?_, ?_, by decide, ?_⟩
  · rw [key a b, key b a]
    by_cases hc : a.color = b.color <;> by_cases ht : a.type = b.type <;>
      simp [hc, ht, eq_comm]
  · intro c1 c2 n1 n2
    rw [key]
    simp
  · rw [key a b]
    simp

theorem atoi_non_numeric (c : Char) (cs : List Char) (hsp : isspace c = false)
    (hm : c ≠ '-') (hpl : c ≠ '+') (hd : ¬ (48 ≤ c.toNat ∧ c.toNat ≤ 57)) :
    atoi (c :: cs) = 0 := by
  have hv : decimal_value (c :: cs) = 0 := by
    unfold decimal_value
    rw [List.dropWhile_cons_of_neg (by simp [hsp])]
    split
    · next h => exact absurd (List.cons.inj h).1 hm
    · next h => exact absurd (List.cons.inj h).1 hpl
    · simp [atoi_digits, hd]
  unfold atoi strtol
  rw [hv]
  decide

theorem apply_step_rejected (g : GameState) (r : Rand) (p hc : Int) (buf : List Char)
    (hbuf : buf ≠ NO_CARD) (hhc : rd g.hand_count p = some hc) (hci : hc ≤ 2147483647)
    (hbad : atoi buf < 1 ∨ hc < atoi buf ∨
      ∃ c, rd_hand g.hands p (atoi buf - 1) = some c ∧ valid_move c g.top_card = false) :
    ∃ res, apply_step p buf g r = some res ∧ res.game = g ∧ res.rand = r ∧
      res.exited = false ∧
      (res.reply = .invalid_card_number ∨ res.reply = .invalid_move) := by
  have hr := atoi_range buf
  unfold apply_step
  rw [if_neg hbuf]
  simp only
  by_cases h0 : to_int (atoi buf - 1) < 0
  · rw [if_pos h0]
    exact ⟨_, rfl, rfl, rfl, rfl, Or.inl rfl⟩
  · rw [if_neg h0]
    simp only [hhc]
    by_cases h1 : to_int (atoi buf - 1) ≥ hc
    · rw [if_pos h1]
      exact ⟨_, rfl, rfl, rfl, rfl, Or.inl rfl⟩
    · rw [if_neg h1]
      have hpos : 1 ≤ atoi buf := by
        unfold to_int at h0 h1
        omega
      rw [choice_of_pos buf hpos] at h1 ⊢
      rcases hbad with h | h | ⟨c, hc1, hc2⟩
      · omega
      · omega
      · simp only [hc1, hc2]
        exact ⟨_, rfl, rfl, rfl, rfl, Or.inr rfl⟩

/-- C14: an input line other than `NO_CARD` whose index `atoi buf` (the 32-bit
`int` that `atoi` returns) is outside `1..hand_count[p]`, or selects a card that
`valid_move` refuses against `top_card`, is answered by a rejection message:
the worker goes on and the game state and the random stream are exactly what
they were.  Input that does not start with a number is parsed as 0 and so is
rejected as well; the index is the `int` value, so `4294967298` is index 2 and
is not rejected for its size. -/
theorem rejected_input_keeps_state (g : GameState) (r : Rand) (p hc : Int) (buf : List Char)
    (hbuf : buf ≠ NO_CARD) (hhc : rd g.hand_count p = some hc) (hci : hc ≤ 2147483647)
    (hbad : atoi buf < 1 ∨ hc < atoi buf ∨
      ∃ c, rd_hand g.hands p (atoi buf - 1) = some c ∧ valid_move c g.top_card = false) :
    (∃ res, apply_step p buf g r = some res ∧ res.game = g ∧ res.rand = r ∧
      res.exited = false ∧
      (res.reply = .invalid_card_number ∨ res.reply = .invalid_move)) ∧
    atoi [] = 0 ∧
    (∀ (c : Char) (cs : List Char), isspace c = false → c ≠ '-' → c ≠ '+' →
      ¬ (48 ≤ c.toNat ∧ c.toNat ≤ 57) → atoi (c :: cs) = 0) ∧
    (∀ s : List Char, -2147483648 ≤ atoi s ∧ atoi s ≤ 2147483647) ∧
    atoi ['4', '2', '9', '4', '9', '6', '7', '2', '9', '8'] = 2 :=
  ⟨apply_step_rejected g r p hc buf hbuf hhc hci hbad, by decide, atoi_non_numeric, atoi_range,
    by decide⟩

/-- Witness for `rejected_input_keeps_state`: player 0 of `streak_state` sends
the non-numeric line `x`. -/
theorem rejected_input_keeps_state_witness :
    ∃ res, apply_step 0 ['x'] streak_state (fun k => k) = some res ∧ res.game = streak_state :=
  let ⟨res, h1, h2, _⟩ :=
    (rejected_input_keeps_state streak_state (fun k => k) 0 2 ['x'] (by decide) (by decide)
      (by decide) (Or.inl (by decide))).1
  ⟨res, h1, h2⟩

theorem count_alive_spec (g : GameState) (hlen : g.active.length = MAX_PLAYERS) :
    ∀ (l : List Nat) (st : Int × Int), (∀ i ∈ l, i < 5) →
      count_alive g l st =
        some (st.1 + (((l.map Int.ofNat).filter (is_active g)).length : Int),
              (((l.map Int.ofNat).filter (is_active g)).getLast?).getD st.2) := by
  intro l
  induction l with
  | nil => intro st _; simp [count_alive]
  | cons i rest ih =>
    intro st hl
    obtain ⟨a, ha⟩ := rd_some_of_lt g.active (i : Int) (by omega)
      (by rw [hlen]; have := hl i (List.mem_cons_self _ _); simp only [MAX_PLAYERS]; omega)
    rw [count_alive, ha]
    simp only
    rw [ih _ (fun j hj => hl j (List.mem_cons_of_mem _ hj))]
    have hia : is_active g (Int.ofNat i) = decide (a ≠ 0) := by
      unfold is_active
      rw [show (Int.ofNat i : Int) = (i : Int) from rfl, ha]
    by_cases hz : a ≠ 0
    · have hact : is_active g (Int.ofNat i) = true := by rw [hia]; simpa using hz
      rw [if_pos hz, List.map_cons, List.filter_cons_of_pos hact, List.getLast?_cons]
      simp only [List.length_cons, Option.getD_some, Option.some.injEq, Prod.mk.injEq]
      refine ⟨by push_cast; omega, rfl⟩
    · have hact : ¬ is_active g (Int.ofNat i) = true := by rw [hia]; simpa using hz
      rw [if_neg hz, List.map_cons, List.filter_cons_of_neg hact]

theorem check_last_player_win (g : GameState) (h5 : g.players ≤ 5)
    (hal : g.active.length = MAX_PLAYERS) (hsl : g.scores.length = MAX_PLAYERS) :
    ∃ g2, check_last_player g = some g2 ∧
      (∀ w, active_slots g = [w] → ∃ s, rd g.scores w = some s ∧
        g2 = { g with scores := g.scores.set w.toNat (to_int (s + 1)), game_over := 1 } ∧
        rd g2.scores w = some (to_int (s + 1)) ∧
        (-2147483648 ≤ s → s < 2147483647 → rd g2.scores w = some (s + 1)) ∧
        ∀ q, q ≠ w → rd g2.scores q = rd g.scores q) ∧
      ((active_slots g).length ≠ 1 → g2 = g) := by
  have hsp := count_alive_spec g hal (List.range g.players.toNat) (0, -1)
    (fun i hi => by have := List.mem_range.mp hi; omega)
  have hslots : ((List.range g.players.toNat).map Int.ofNat).filter (is_active g)
      = active_slots g := rfl
  rw [hslots] at hsp
  unfold check_last_player
  rw [hsp]
  simp only [zero_add]
  by_cases h1 : ((active_slots g).length : Int) = 1
  · rw [if_pos h1]
    have hlen1 : (active_slots g).length = 1 := by omega
    obtain ⟨w, hw⟩ := List.length_eq_one.mp hlen1
    have hmem := (mem_active_slots g w).mp (by rw [hw]; exact List.mem_singleton_self w)
    obtain ⟨s, hsw⟩ := rd_some_of_lt g.scores w hmem.1
      (by rw [hsl]; simp only [MAX_PLAYERS]; omega)
    rw [hw]
    simp only [List.getLast?_singleton, Option.getD_some, hsw]
    rw [wr_of_lt _ _ _ hmem.1 (by rw [hsl]; simp only [MAX_PLAYERS]; omega)]
    refine ⟨_, rfl, ?_, fun h => absurd (List.length_singleton w) h⟩
    intro w2 hw2
    have : w2 = w := by
      have := List.cons.inj hw2
      exact this.1.symm
    subst this
    have hset : rd (g.scores.set w2.toNat (to_int (s + 1))) w2 = some (to_int (s + 1)) :=
      rd_set_same _ _ _ hmem.1 (by rw [hsl]; simp only [MAX_PLAYERS]; omega)
    refine ⟨s, hsw, rfl, hset, fun hlo hhi => ?_, fun q hq => ?_⟩
    · have e := to_int_of_range (s + 1) (by omega) (by omega)
      rw [e] at hset ⊢
      exact hset
    · exact rd_set_other _ _ _ _ hmem.1 (Ne.symm hq)
  · rw [if_neg h1]
    refine ⟨g, rfl, fun w hw => ?_, fun _ => rfl⟩
    rw [hw] at h1
    simp at h1

/-- C15: `check_last_player` succeeds; when exactly one slot `w` among
`0..players-1` is active it sets `game_over` to 1 and increments the `int`
`scores[w]`, every other score and every other field staying as it was: the new
score is `s + 1` for every score `s` below `INT_MAX` (at `INT_MAX` the stored
`int` is `INT_MIN`); when the number of active slots is anything else the state
is returned unchanged. -/
theorem check_last_player_spec (g : GameState) (hs : g.Safe) :
    ∃ g2, check_last_player g = some g2 ∧
      (∀ w, active_slots g = [w] → ∃ s, rd g.scores w = some s ∧
        g2 = { g with scores := g.scores.set w.toNat (to_int (s + 1)), game_over := 1 } ∧
        rd g2.scores w = some (to_int (s + 1)) ∧
        (-2147483648 ≤ s → s < 2147483647 → rd g2.scores w = some (s + 1)) ∧
        ∀ q, q ≠ w → rd g2.scores q = rd g.scores q) ∧
      ((active_slots g).length ≠ 1 → g2 = g) :=
  check_last_player_win g hs.players_le hs.wf.active_len hs.wf.scores_len

theorem sole_survivor_state_safe : sole_survivor_state.Safe :=
  ⟨⟨by decide, by decide, by decide, by decide, by decide, by decide, by decide⟩,
    by decide, by decide, by decide, by decide⟩

/-- Witness for `check_last_player_spec`: only player 2 is active, with 7 wins. -/
theorem check_last_player_spec_witness :
    ∃ g2, check_last_player sole_survivor_state = some g2 ∧ g2.game_over = 1 ∧
      rd g2.scores 2 = some 8 ∧ rd g2.scores 0 = some 4 := by
  obtain ⟨g2, h, hone, _⟩ := check_last_player_spec sole_survivor_state sole_survivor_state_safe
  obtain ⟨s, hs1, hg2, _, hs2, hoth⟩ := hone 2 (by decide)
  have h7 : s = 7 := by
    have : rd sole_survivor_state.scores 2 = some 7 := by decide
    rw [hs1] at this
    exact Option.some.inj this
  subst h7
  refine ⟨g2, h, by rw [hg2], hs2 (by decide) (by decide), ?_⟩
  rw [hoth 0 (by decide)]
  decide

theorem active_slots_after_out (g gb : GameState) (p : Int) (hp0 : 0 ≤ p)
    (hgp : gb.players = g.players) (hga : gb.active = g.active.set p.toNat 0) :
    active_slots gb = (active_slots g).filter (fun q => decide (q ≠ p)) := by
  unfold active_slots
  rw [hgp, List.filter_filter]
  apply List.filter_congr
  intro x _
  unfold is_active
  rw [hga]
  by_cases hx : x = p
  · subst hx
    unfold rd
    rw [if_pos hp0, List.getElem?_set]
    by_cases hl : x.toNat < g.active.length
    · simp [hl]
    · simp [hl]
  · rw [rd_set_other _ _ _ _ hp0 (Ne.symm hx)]
    simp [hx]

/-- C8: a `NO_CARD` turn of player `p` taken at streak `k` in `0..2` (the first,
second and third such turn counted from streak 0) appends the drawn card to
`p`'s hand, changes no other hand and raises the streak to `k + 1`.  For
`k < 2` the worker goes on, `p` stays active and `current_turn` becomes
`next_player(p)`.  For `k = 2` the worker exits, `active[p]` becomes 0,
`current_turn` becomes the next active player after `p`, and the win condition
is evaluated on the slots left active, which are the active slots other than
`p`: when exactly one slot `w` is left, `game_over` is set and the `int`
`scores[w]` is incremented (to `s + 1` for every `s` below `INT_MAX`), the other
scores staying; otherwise `game_over` and the scores are as before. -/
theorem no_card_three_strikes (g : GameState) (r : Rand) (p k hc : Int)
    (hs : g.Safe) (hp0 : 0 ≤ p) (hp1 : p < g.players)
    (hact : is_active g p = true)
    (hk : rd g.no_card_count p = some k) (hk0 : 0 ≤ k) (hk2 : k ≤ 2)
    (hhc : rd g.hand_count p = some hc) (hc0 : 0 ≤ hc) (hc1 : hc < 20) :
    ∃ c gd res, draw_card g r = some (c, gd, res.rand) ∧
      apply_step p NO_CARD g r = some res ∧
      hand res.game p = (hand g p).map (fun l => l ++ [c]) ∧
      rd res.game.hand_count p = some (hc + 1) ∧
      (∀ q, q ≠ p → hand res.game q = hand g q) ∧
      rd res.game.no_card_count p = some (k + 1) ∧
      (k < 2 →
        res.exited = false ∧ is_active res.game p = true ∧ res.game.active = g.active ∧
        next_player g p = some res.game.current_turn ∧
        res.game.game_over = g.game_over ∧ res.game.scores = g.scores) ∧
      (k = 2 →
        res.exited = true ∧ is_active res.game p = false ∧ rd res.game.active p = some 0 ∧
        res.game.active = g.active.set p.toNat 0 ∧
        ∃ gb, gb.players = g.players ∧ gb.active = g.active.set p.toNat 0 ∧
          gb.scores = g.scores ∧ gb.game_over = g.game_over ∧
          next_player gb p = some gb.current_turn ∧
          check_last_player gb = some res.game ∧
          res.game.current_turn = gb.current_turn ∧
          active_slots gb = (active_slots g).filter (fun q => decide (q ≠ p)) ∧
          (∀ w, (active_slots g).filter (fun q => decide (q ≠ p)) = [w] →
            res.game.game_over = 1 ∧
            ∃ s, rd g.scores w = some s ∧
              rd res.game.scores w = some (to_int (s + 1)) ∧
              (-2147483648 ≤ s → s < 2147483647 → rd res.game.scores w = some (s + 1)) ∧
              ∀ q, q ≠ w → rd res.game.scores q = rd g.scores q) ∧
          (((active_slots g).filter (fun q => decide (q ≠ p))).length ≠ 1 →
            res.game.game_over = g.game_over ∧ res.game.scores = g.scores)) := by
  obtain ⟨c, gd, res, hd, hstep, _, _, _, hcnt, hhand, hoth, hnc, hlt, hge, _⟩ :=
    no_card_step_spec g r p k hc hs hp0 hp1 hk hhc hc0 hc1
  refine ⟨c, gd, res, hd, hstep, hhand, hcnt, hoth, hnc, fun h2 => ?_, fun h2 => ?_⟩
  · obtain ⟨h1, h3, h4, h5, h6⟩ := hlt (by omega)
    exact ⟨h1, by unfold is_active at hact ⊢; rw [h3]; exact hact, h3, h4, h5, h6⟩
  · obtain ⟨h1, h3, h4, gb, hgp, hga, hgs, hgo, hnx, hchk, hct⟩ := hge (by omega)
    have hslots := active_slots_after_out g gb p hp0 hgp hga
    obtain ⟨g2, hg2, hone, hmany⟩ := check_last_player_win gb
      (by rw [hgp]; exact hs.players_le)
      (by rw [hga, List.length_set]; exact hs.wf.active_len)
      (by rw [hgs]; exact hs.wf.scores_len)
    rw [hchk] at hg2
    have e2 : g2 = res.game := (Option.some.inj hg2).symm
    subst e2
    rw [hslots] at hone hmany
    refine ⟨h1, by unfold is_active; rw [h4]; decide, h4, h3, gb, hgp, hga, hgs, hgo, hnx,
      hchk, hct, hslots, fun w hw => ?_, fun hne => ?_⟩
    · obtain ⟨s, hs1, hfr, hs2, hs3, hs4⟩ := hone w hw
      rw [hgs] at hs1 hs4
      exact ⟨by rw [hfr], s, hs1, hs2, hs3, hs4⟩
    · rw [hmany hne]
      exact ⟨hgo, hgs⟩

theorem duel_state_safe : duel_state.Safe :=
  ⟨⟨by decide, by decide, by decide, by decide, by decide, by decide, by decide⟩,
    by decide, by decide, by decide, by decide⟩

/-- Witness for `no_card_three_strikes`: the third `NO_CARD` of player 1 in a
three-player game makes `active[1]` zero and passes the turn to player 2, the
game going on; with only players 0 and 1 active it ends the game and adds a win
to player 0. -/
theorem no_card_three_strikes_witness :
    (∃ res, apply_step 1 NO_CARD strike_state (fun k => k) = some res ∧
      res.exited = true ∧ rd res.game.active 1 = some 0 ∧
      rd res.game.hand_count 1 = some 6 ∧ res.game.current_turn = 2 ∧
      res.game.game_over = 0 ∧ res.game.scores = strike_state.scores) ∧
    (∃ res, apply_step 1 NO_CARD duel_state (fun k => k) = some res ∧
      res.exited = true ∧ rd res.game.active 1 = some 0 ∧
      rd res.game.hand_count 1 = some 6 ∧
      res.game.game_over = 1 ∧ rd res.game.scores 0 = some 5 ∧
      rd res.game.scores 2 = some 7) := by
  constructor
  · obtain ⟨c, gd, res, _, hstep, _, hcnt, _, _, _, hthird⟩ :=
      no_card_three_strikes strike_state (fun k => k) 1 2 5 strike_state_safe
        (by decide) (by decide) (by decide) (by decide) (by decide) (by decide)
        (by decide) (by decide) (by decide)
    obtain ⟨hex, _, hact, _, gb, hgp, hga, _, _, hnext, _, hct, _, _, hmany⟩ := hthird rfl
    obtain ⟨hover, hsc⟩ := hmany (by decide)
    refine ⟨res, hstep, hex, hact, hcnt, ?_, hover, hsc⟩
    have hfr := next_player_frame gb (flag_state 3 [true, false, true, false, false])
      (by rw [hgp]; decide) (by rw [hga]; decide)
    rw [hfr] at hnext
    have h2 : next_player (flag_state 3 [true, false, true, false, false]) 1 = some 2 := by
      decide
    rw [h2] at hnext
    rw [hct]
    exact (Option.some.inj hnext).symm
  · obtain ⟨c, gd, res, _, hstep, _, hcnt, _, _, _, hthird⟩ :=
      no_card_three_strikes duel_state (fun k => k) 1 2 5 duel_state_safe
        (by decide) (by decide) (by decide) (by decide) (by decide) (by decide)
        (by decide) (by decide) (by decide)
    obtain ⟨hex, _, hact, _, gb, _, _, _, _, _, _, _, _, hone, _⟩ := hthird rfl
    obtain ⟨hover, s, hs1, _, hs2, hs3⟩ := hone 0 (by decide)
    have h4 : s = 4 := by
      have : rd duel_state.scores 0 = some 4 := by decide
      rw [hs1] at this
      exact Option.some.inj this
    subst h4
    refine ⟨res, hstep, hex, hact, hcnt, hover, hs2 (by decide) (by decide), ?_⟩
    rw [hs3 2 (by decide)]
    decide

/-- C13: on `seven_card_state` a `NO_CARD` of player 0 leaves that player
active with 8 cards and the worker running, and a `+2` played by player 0
leaves player 1 active with 9 cards: neither step marks the player whose hand
reached 8 cards inactive. -/
theorem eight_cards_stay_active :
    (apply_step 0 NO_CARD seven_card_state (fun k => k)).map
        (fun res => (res.reply, res.exited, rd res.game.hand_count 0, rd res.game.active 0,
          res.game.game_over))
      = some (.silent, false, some 8, some 1, 0) ∧
    rd_hand seven_card_state.hands 0 0 = some ⟨.RED, .PLUS2, -1⟩ ∧
    (apply_step 0 ['1'] seven_card_state (fun k => k)).map
        (fun res => (res.reply, res.exited, rd res.game.hand_count 1, rd res.game.active 1,
          res.game.current_turn, res.game.game_over))
      = some (.silent, false, some 9, some 1, 2, 0) := by
  refine ⟨by decide, by decide, by decide⟩

/-- C16: the ledger written for the win counts 2, 1, 0 of three players is
`Player 0: 2`, `Player 1: 1`, `Player 2: 0`, one per line; `load_scores` on
this text assigns `scores[0] = 2` only: the second call of `fscanf` meets the
newline left by the first where the format wants `P`, so it and every later
call assign nothing, and `scores[1]` is loaded as 0, not 1. -/
theorem ledger_round_trip_loses_counts :
    write_scores { zero_state 3 with scores := [2, 1, 0, 0, 0] }
      = some ("Player 0: 2\nPlayer 1: 1\nPlayer 2: 0\n").toList ∧
    (load_scores (zero_state 3) (some ("Player 0: 2\nPlayer 1: 1\nPlayer 2: 0\n").toList)).map
        (fun x => x.1.scores) = some [2, 0, 0, 0, 0] ∧
    fscanf_record ("Player 0: 2\nPlayer 1: 1\nPlayer 2: 0\n").toList
      = (some 2, ("\nPlayer 1: 1\nPlayer 2: 0\n").toList) ∧
    fscanf_record ("\nPlayer 1: 1\nPlayer 2: 0\n").toList
      = (none, ("\nPlayer 1: 1\nPlayer 2: 0\n").toList) := by
  decide

theorem set_same {α : Type} (l : List α) (i : Nat) (v : α) (h : l[i]? = some v) :
    l.set i v = l := by
  apply List.ext_getElem?
  intro k
  rw [List.getElem?_set]
  by_cases hk : i = k
  · subst hk
    have hlt := (List.getElem?_eq_some_iff.mp h).1
    rw [if_pos rfl, if_pos hlt, h]
  · rw [if_neg hk]

theorem shift_left_spec (pid : Int) (hp0 : 0 ≤ pid) (hp1 : pid < 5) :
    ∀ (m c : Nat) (hs : List (List Card)) (h : List Card), HandsWF hs → rd hs pid = some h →
      c + m + 1 ≤ 20 →
      ∃ h2, shift_left hs pid (List.range' c m) = some (hs.set pid.toNat h2) ∧
        h2.length = 20 ∧
        ∀ k : Nat, h2[k]? = if c ≤ k ∧ k < c + m then h[k + 1]? else h[k]? := by
  intro m
  induction m with
  | zero =>
    intro c hs h hw hh _
    have hl := rd_hands_length hs pid h hw hh
    refine ⟨h, ?_, hl, fun k => by rw [if_neg (by omega)]⟩
    simp only [List.range'_zero, shift_left]
    rw [rd_nonneg hs pid hp0] at hh
    rw [set_same hs pid.toNat h hh]
  | succ m ih =>
    intro c hs h hw hh hc
    have hl := rd_hands_length hs pid h hw hh
    simp only [HAND_CAP] at hl
    have hlen : (hs.length : Int) = 5 := by rw [hw.1]; rfl
    have hx : rd h ((c : Int) + 1) = some (h.get ⟨c + 1, by omega⟩) := by
      have := rd_eq_getElem h ((c : Int) + 1) (by omega) (by rw [hl]; omega)
      rw [this]
      congr 1
    obtain ⟨h0, hh0, hwr, hw2⟩ := wr_hand_ok hs pid (c : Int) (h.get ⟨c + 1, by omega⟩) hw hp0 hp1
      (by omega) (by omega)
    rw [hh] at hh0
    have he : h0 = h := (Option.some.inj hh0).symm
    subst he
    have hrd1 : rd (hs.set pid.toNat (h0.set (c : Int).toNat (h0.get ⟨c + 1, by omega⟩))) pid
        = some (h0.set (c : Int).toNat (h0.get ⟨c + 1, by omega⟩)) :=
      rd_set_same _ _ _ hp0 (by omega)
    obtain ⟨h2, hsh, hl2, hget⟩ := ih (c + 1) _ _ hw2 hrd1 (by omega)
    refine ⟨h2, ?_, hl2, fun k => ?_⟩
    · rw [List.range'_succ, shift_left]
      unfold rd_hand
      rw [hh]
      simp only
      rw [hx]
      simp only [hwr]
      rw [hsh, List.set_set]
    · rw [hget k]
      simp only [Int.toNat_ofNat, List.getElem?_set, List.get_eq_getElem]
      have hsome : h0[c + 1]? = some (h0.get ⟨c + 1, by omega⟩) :=
        List.getElem?_eq_getElem (by omega)
      split_ifs <;> first | rfl | omega | (subst_vars; rw [hsome]; rfl)

theorem take_shift_eq_eraseIdx (h h2 : List Card) (c n : Nat) (hc : c < n)
    (hget : ∀ k : Nat, h2[k]? = if c ≤ k ∧ k < c + (n - 1 - c) then h[k + 1]? else h[k]?) :
    h2.take (n - 1) = (h.take n).eraseIdx c := by
  apply List.ext_getElem?
  intro k
  rw [List.getElem?_take, List.getElem?_eraseIdx, hget k]
  by_cases hk : k < n - 1
  · rw [if_pos hk]
    by_cases hkc : k < c
    · rw [if_neg (by omega), if_pos hkc, List.getElem?_take, if_pos (by omega)]
    · rw [if_pos (by omega), if_neg hkc, List.getElem?_take, if_pos (by omega)]
  · rw [if_neg hk, if_neg (by omega), List.getElem?_take, if_neg (by omega)]

theorem refill_congr (g g2 : GameState) (r : Rand) (hd : g2.deck = g.deck)
    (ht : g2.deck_top = g.deck_top) :
    refill g2 r = ({ g2 with deck := (refill g r).1.deck, deck_top := (refill g r).1.deck_top },
      (refill g r).2) := by
  unfold refill
  rw [ht]
  split
  · simp only [shuffle_deck, build_deck, hd]
  · simp only [← hd, ← ht]

theorem draw_card_congr (g g2 : GameState) (r : Rand) (hd : g2.deck = g.deck)
    (ht : g2.deck_top = g.deck_top) :
    draw_card g2 r = (draw_card g r).map
      (fun x => (x.1, { g2 with deck := x.2.1.deck, deck_top := x.2.1.deck_top }, x.2.2)) := by
  unfold draw_card
  rw [refill_congr g g2 r hd ht]
  simp only
  cases rd (refill g r).1.deck (refill g r).1.deck_top <;> rfl

/-- Two draws from a state and from another state with the same deck and cursor. -/
theorem draw_two (g : GameState) (r : Rand) (c1 c2 : Card) (ga gb gc : GameState) (r1 r2 : Rand)
    (h1 : draw_card g r = some (c1, ga, r1))
    (hd : gb.deck = ga.deck) (ht : gb.deck_top = ga.deck_top)
    (h2 : draw_card gb r1 = some (c2, gc, r2)) :
    ∃ gd, draw_n 2 g r = some ([c1, c2], gd, r2) ∧ gd.deck = gc.deck ∧
      gd.deck_top = gc.deck_top := by
  have hc := draw_card_congr ga gb r1 hd ht
  rw [h2] at hc
  cases hda : draw_card ga r1 with
  | none => rw [hda] at hc; simp at hc
  | some x =>
    rw [hda] at hc
    simp only [Option.map_some', Option.some.injEq, Prod.mk.injEq] at hc
    obtain ⟨hx1, hx2, hx3⟩ := hc
    refine ⟨x.2.1, ?_, by rw [hx2], by rw [hx2]⟩
    obtain ⟨xc, xg, xr⟩ := x
    simp only at hx1 hx3
    subst hx1 hx3
    simp only [draw_n, h1, hda]

theorem play_card_removal (g : GameState) (r : Rand) (p choice hc : Int) (played : Card)
    (h : List Card) (hs : g.Safe) (hp0 : 0 ≤ p) (hp1 : p < g.players)
    (hhc : rd g.hand_count p = some hc) (hc20 : hc ≤ 20) (hch0 : 0 ≤ choice) (hch1 : choice < hc)
    (hh : rd g.hands p = some h) (hplayed : rd_hand g.hands p choice = some played) :
    ∃ h2, h2.take (hc - 1).toNat = (h.take hc.toNat).eraseIdx choice.toNat ∧ h2.length = 20 ∧
      play_card p choice g r =
        (if hc - 1 = 0 then
          some ⟨{ g with top_card := played
                         hands := g.hands.set p.toNat h2
                         hand_count := g.hand_count.set p.toNat (hc - 1)
                         game_over := 1 }, r, .you_win, true⟩
        else
          match card_effect p played { g with top_card := played
                                              hands := g.hands.set p.toNat h2
                                              hand_count := g.hand_count.set p.toNat (hc - 1) } r with
          | none => none
          | some (g2, r2) =>
            match rd g2.hand_count p with
            | none => none
            | some hc2 =>
              if hc2 ≥ MAX_HAND then
                match disqualify g2 p with
                | none => none
                | some g3 => some ⟨g3, r2, .disqualified_8_cards, true⟩
              else some ⟨g2, r2, .silent, false⟩) := by
  have hw := hs.wf
  have h5 := hs.players_le
  obtain ⟨h2, hshift, hl2, hget⟩ := shift_left_spec p hp0 (by omega)
    (hc - 1 - choice).toNat choice.toNat g.hands h hw.handsWF hh (by omega)
  have hwr : wr g.hand_count p (hc - 1) = some (g.hand_count.set p.toNat (hc - 1)) :=
    wr_of_lt _ _ _ hp0 (by rw [hw.hand_count_len]; simp only [MAX_PLAYERS]; omega)
  refine ⟨h2, ?_, hl2, ?_⟩
  · have he := take_shift_eq_eraseIdx h h2 choice.toNat hc.toNat (by omega)
      (by
        intro k
        rw [hget k]
        have : (hc - 1 - choice).toNat = hc.toNat - 1 - choice.toNat := by omega
        rw [this])
    have : (hc - 1).toNat = hc.toNat - 1 := by omega
    rw [this]
    exact he
  · unfold play_card
    simp only [hplayed, hhc, hshift, hwr]

theorem is_active_of_active_eq (g g2 : GameState) (h : g2.active = g.active) :
    is_active g2 = is_active g := by
  funext n
  unfold is_active
  rw [h]

theorem is_active_iff (g : GameState) (n : Int) :
    is_active g n = true ↔ ∃ a, rd g.active n = some a ∧ a ≠ 0 := by
  unfold is_active
  cases h : rd g.active n with
  | none => simp
  | some a => simp

theorem card_effect_spec (pid : Int) (played : Card) (g : GameState) (r : Rand)
    (hs : g.Safe) (hp0 : 0 ≤ pid) (hp1 : pid < g.players) (hact : is_active g pid = true)
    (hcs : ∀ q, 0 ≤ q → q < g.players → ∃ k, rd g.hand_count q = some k ∧ 0 ≤ k ∧ k ≤ 18) :
    ∃ g2 r2 n1, card_effect pid played g r = some (g2, r2) ∧ g2.Safe ∧
      next_player g pid = some n1 ∧ 0 ≤ n1 ∧ n1 < g.players ∧ is_active g n1 = true ∧
      g2.players = g.players ∧ g2.active = g.active ∧ g2.no_card_count = g.no_card_count ∧
      g2.top_card = g.top_card ∧ g2.scores = g.scores ∧ g2.game_over = g.game_over ∧
      (0 ≤ g2.current_turn ∧ g2.current_turn < g.players ∧
        is_active g g2.current_turn = true) ∧
      (played.type = .NUMBER → g2 = { g with current_turn := n1 } ∧ r2 = r) ∧
      (played.type = .SKIP → next_player g n1 = some g2.current_turn ∧
        g2 = { g with current_turn := g2.current_turn } ∧ r2 = r) ∧
      (played.type = .PLUS2 → next_player g n1 = some g2.current_turn ∧
        ∃ c1 c2 gd k, draw_n 2 g r = some ([c1, c2], gd, r2) ∧
          g2.deck = gd.deck ∧ g2.deck_top = gd.deck_top ∧
          rd g.hand_count n1 = some k ∧ rd g2.hand_count n1 = some (k + 2) ∧
          hand g2 n1 = (hand g n1).map (fun l => l ++ [c1, c2]) ∧
          ∀ q, q ≠ n1 → hand g2 q = hand g q ∧ rd g2.hand_count q = rd g.hand_count q) := by
  have hany : ∃ q a, 0 ≤ q ∧ q < g.players ∧ rd g.active q = some a ∧ a ≠ 0 := by
    obtain ⟨a, h1, h2⟩ := (is_active_iff g pid).mp hact
    exact ⟨pid, a, hp0, hp1, h1, h2⟩
  have hw := hs.wf
  have h5 := hs.players_le
  have keep : ∀ t : Int, ({ g with current_turn := t } : GameState).Safe := fun t =>
    ⟨⟨hw.active_len, hw.no_card_len, hw.hands_len, hw.hand_len, hw.hand_count_len, hw.deck_len,
      hw.scores_len⟩, hs.players_pos, hs.players_le, hs.top_lo, hs.top_hi⟩
  obtain ⟨n1, hn1, _, hn1lt, hn1act⟩ := next_player_ok g pid hs hp0 hp1
  obtain ⟨hn10, hn1a⟩ := hn1act hany
  have hn1active : is_active g n1 = true := (is_active_iff g n1).mpr hn1a
  obtain ⟨t, ht, _, htlt, htact⟩ := next_player_ok g n1 hs hn10 hn1lt
  obtain ⟨ht0, hta⟩ := htact hany
  have htactive : is_active g t = true := (is_active_iff g t).mpr hta
  unfold card_effect
  cases hty : played.type with
  | NUMBER =>
    simp only [hn1]
    refine ⟨_, _, n1, rfl, keep n1, rfl, hn10, hn1lt, hn1active, rfl, rfl, rfl, rfl, rfl, rfl,
      ⟨hn10, hn1lt, hn1active⟩, fun _ => ⟨rfl, rfl⟩, ?_, ?_⟩ <;> intro h <;> cases h
  | SKIP =>
    simp only [hn1, ht]
    refine ⟨_, _, n1, rfl, keep t, rfl, hn10, hn1lt, hn1active, rfl, rfl, rfl, rfl, rfl, rfl,
      ⟨ht0, htlt, htactive⟩, ?_, fun _ => ⟨ht, rfl, rfl⟩, ?_⟩ <;> intro h <;> cases h
  | PLUS2 =>
    obtain ⟨k, hk, hk0, hk18⟩ := hcs n1 hn10 hn1lt
    obtain ⟨c1, ga, r1, h1, g1, hd1, hh1, hdeal1, hg1, hs1⟩ :=
      deal_to_ok g r n1 k hs hn10 (by omega) hk hk0 (by omega)
    have hk1 : rd g1.hand_count n1 = some (k + 1) := by
      rw [hg1]
      exact rd_set_same _ _ _ hn10 (by rw [hw.hand_count_len]; simp only [MAX_PLAYERS]; omega)
    obtain ⟨c2, gb, r2, h2, g2, hd2, hh2, hdeal2, hg2, hs2⟩ :=
      deal_to_ok g1 r1 n1 (k + 1) hs1 hn10 (by omega) hk1 (by omega) (by omega)
    have e1 : g1.players = g.players := by rw [hg1]
    have e2 : g2.players = g.players := by rw [hg2, e1]
    have ea1 : g1.active = g.active := by rw [hg1]
    have ea2 : g2.active = g.active := by rw [hg2]; simp only; rw [ea1]
    have hnp : next_player g2 = next_player g := next_player_frame _ _ e2 ea2
    simp only [hn1, hdeal1, hdeal2, hnp, ht]
    have hw2 := hs2.wf
    have hsafe : ({ g2 with current_turn := t } : GameState).Safe :=
      ⟨⟨hw2.active_len, hw2.no_card_len, hw2.hands_len, hw2.hand_len,
        hw2.hand_count_len, hw2.deck_len, hw2.scores_len⟩, hs2.players_pos, hs2.players_le,
        hs2.top_lo, hs2.top_hi⟩
    have hdk1 : g1.deck = ga.deck := by rw [hg1]
    have hdt1 : g1.deck_top = ga.deck_top := by rw [hg1]
    obtain ⟨gd, hdn, hgd1, hgd2⟩ := draw_two g r c1 c2 ga g1 gb r1 r2 hd1 hdk1 hdt1 hd2
    have hhA := hand_after_deal g1 g n1 k h1 c1 hw.handsWF hn10 (by omega) hw.hand_count_len
      hh1 hk hk0 (by omega) (by rw [hg1]) (by rw [hg1])
    have hhB := hand_after_deal g2 g1 n1 (k + 1) h2 c2 hs1.wf.handsWF hn10 (by omega)
      hs1.wf.hand_count_len hh2 hk1 (by omega) (by omega) (by rw [hg2]) (by rw [hg2])
    refine ⟨_, _, n1, rfl, hsafe, rfl, hn10, hn1lt, hn1active, e2, ea2, ?_, ?_, ?_, ?_,
      ⟨ht0, htlt, htactive⟩, ?_, ?_, fun _ => ⟨ht, ?_⟩⟩
    · show g2.no_card_count = g.no_card_count
      rw [hg2]; simp only; rw [hg1]
    · show g2.top_card = g.top_card
      rw [hg2]; simp only; rw [hg1]
    · show g2.scores = g.scores
      rw [hg2]; simp only; rw [hg1]
    · show g2.game_over = g.game_over
      rw [hg2]; simp only; rw [hg1]
    · intro h; cases h
    · intro h; cases h
    · refine ⟨c1, c2, gd, k, hdn, ?_, ?_, hk, ?_, ?_, fun q hq => ⟨?_, ?_⟩⟩
      · show g2.deck = gd.deck
        rw [hgd1, hg2]
      · show g2.deck_top = gd.deck_top
        rw [hgd2, hg2]
      · show rd g2.hand_count n1 = some (k + 2)
        rw [hhB.2.1]
        congr 1
        omega
      · show hand g2 n1 = _
        rw [hhB.1, hhA.1]
        cases hand g n1 <;> simp
      · show hand g2 q = hand g q
        rw [hhB.2.2 q hq, hhA.2.2 q hq]
      · show rd g2.hand_count q = rd g.hand_count q
        rw [hg2]
        simp only
        rw [rd_set_other _ _ _ _ hn10 (Ne.symm hq), hg1]
        simp only
        rw [rd_set_other _ _ _ _ hn10 (Ne.symm hq)]

theorem removed_state_facts (g : GameState) (p hc : Int) (played : Card) (h h2 : List Card)
    (c : Nat) (hs : g.Safe) (hp0 : 0 ≤ p) (hp1 : p < g.players)
    (hh : rd g.hands p = some h) (hhc : rd g.hand_count p = some hc)
    (hl2 : h2.length = 20) (htake : h2.take (hc - 1).toNat = (h.take hc.toNat).eraseIdx c) :
    (removed_state g p played h2 hc).Safe ∧
      hand g p = some (h.take hc.toNat) ∧
      hand (removed_state g p played h2 hc) p = some ((h.take hc.toNat).eraseIdx c) ∧
      (∀ q, q ≠ p → hand (removed_state g p played h2 hc) q = hand g q) ∧
      rd (removed_state g p played h2 hc).hand_count p = some (hc - 1) ∧
      (∀ q, q ≠ p → rd (removed_state g p played h2 hc).hand_count q = rd g.hand_count q) := by
  have hw := hs.wf
  have h5 := hs.players_le
  have hlenh : (p : Int) < (g.hands.length : Int) := by
    rw [hw.hands_len]; simp only [MAX_PLAYERS]; omega
  have hlenc : (p : Int) < (g.hand_count.length : Int) := by
    rw [hw.hand_count_len]; simp only [MAX_PLAYERS]; omega
  have hwf2 : HandsWF (g.hands.set p.toNat h2) :=
    HandsWF_set _ _ _ hw.handsWF (by simpa using hl2)
  refine ⟨?_, ?_, ?_, fun q hq => ?_, ?_, fun q hq => ?_⟩
  · exact ⟨⟨hw.active_len, hw.no_card_len, hwf2.1, hwf2.2,
      by simpa [removed_state] using hw.hand_count_len, hw.deck_len, hw.scores_len⟩,
      hs.players_pos, hs.players_le, hs.top_lo, hs.top_hi⟩
  · unfold hand
    rw [hh, hhc]
  · unfold hand
    simp only [removed_state]
    rw [rd_set_same _ _ _ hp0 hlenh, rd_set_same _ _ _ hp0 hlenc]
    simp only [htake]
  · unfold hand
    simp only [removed_state]
    rw [rd_set_other _ _ _ _ hp0 (Ne.symm hq), rd_set_other _ _ _ _ hp0 (Ne.symm hq)]
  · simp only [removed_state]
    exact rd_set_same _ _ _ hp0 hlenc
  · simp only [removed_state]
    exact rd_set_other _ _ _ _ hp0 (Ne.symm hq)

theorem play_card_effect (g : GameState) (r : Rand) (p choice hc : Int) (played : Card)
    (h : List Card) (hs : g.Safe) (hp0 : 0 ≤ p) (hp1 : p < g.players)
    (hact : is_active g p = true)
    (hcs : ∀ q, 0 ≤ q → q < g.players → ∃ k, rd g.hand_count q = some k ∧ 0 ≤ k ∧ k ≤ 18)
    (hhc : rd g.hand_count p = some hc) (hch0 : 0 ≤ choice) (hch1 : choice < hc)
    (hh : rd g.hands p = some h) (hplayed : rd_hand g.hands p choice = some played) :
    ∃ h2, h2.take (hc - 1).toNat = (h.take hc.toNat).eraseIdx choice.toNat ∧ h2.length = 20 ∧
      (hc = 1 → play_card p choice g r =
        some ⟨{ removed_state g p played h2 hc with game_over := 1 }, r, .you_win, true⟩) ∧
      (hc ≠ 1 → ∃ g2 r2 hc2,
        card_effect p played (removed_state g p played h2 hc) r = some (g2, r2) ∧
        rd g2.hand_count p = some hc2 ∧
        (hc2 < 8 → play_card p choice g r = some ⟨g2, r2, .silent, false⟩) ∧
        (8 ≤ hc2 → play_card p choice g r =
          (disqualify g2 p).map (fun g3 => ⟨g3, r2, .disqualified_8_cards, true⟩))) := by
  have hw := hs.wf
  have h5 := hs.players_le
  obtain ⟨k, hk, hk0, hk18⟩ := hcs p hp0 hp1
  rw [hhc] at hk
  have hkc : hc = k := Option.some.inj hk
  subst hkc
  obtain ⟨h2, htake, hl2, hplay⟩ :=
    play_card_removal g r p choice hc played h hs hp0 hp1 hhc (by omega) hch0 hch1 hh hplayed
  refine ⟨h2, htake, hl2, fun h1 => ?_, fun h1 => ?_⟩
  · rw [hplay, if_pos (by omega)]
    rfl
  · obtain ⟨hsafe, _, _, _, hcp, hcq⟩ :=
      removed_state_facts g p hc played h h2 choice.toNat hs hp0 hp1 hh hhc hl2 htake
    have hcs1 : ∀ q, 0 ≤ q → q < (removed_state g p played h2 hc).players →
        ∃ k, rd (removed_state g p played h2 hc).hand_count q = some k ∧ 0 ≤ k ∧ k ≤ 18 := by
      intro q hq0 hq1
      by_cases hqp : q = p
      · subst hqp
        exact ⟨hc - 1, hcp, by omega, by omega⟩
      · rw [hcq q hqp]
        exact hcs q hq0 hq1
    obtain ⟨g2, r2, heff, hsafe2, _⟩ :=
      card_effect_ok p played (removed_state g p played h2 hc) r hsafe hp0 hp1 hact hcs1
    obtain ⟨hc2, hhc2⟩ := rd_some_of_lt g2.hand_count p hp0
      (by rw [hsafe2.wf.hand_count_len]; simp only [MAX_PLAYERS]; omega)
    have heff2 : card_effect p played
        { g with top_card := played
                 hands := g.hands.set p.toNat h2
                 hand_count := g.hand_count.set p.toNat (hc - 1) } r = some (g2, r2) := heff
    refine ⟨g2, r2, hc2, heff, hhc2, fun h8 => ?_, fun h8 => ?_⟩
    · rw [hplay, if_neg (by omega)]
      simp only [heff2, hhc2]
      rw [if_neg (by simp only [MAX_HAND]; omega)]
    · rw [hplay, if_neg (by omega)]
      simp only [heff2, hhc2]
      rw [if_pos (by simp only [MAX_HAND]; omega)]
      cases disqualify g2 p <;> rfl

theorem flag_state_reduce (g : GameState) (cur : Int)
    (hN : 0 < g.players) (hN5 : g.players ≤ 5) (hlen : g.active.length = MAX_PLAYERS)
    (hc0 : 0 ≤ cur) (hc1 : cur < g.players) :
    ∃ bs ∈ bool_lists 5, ∃ n ∈ [1, 2, 3, 4, 5], ∃ c ∈ List.range n,
      next_player g = next_player (flag_state (n : Nat) bs) ∧
      active_slots g = active_slots (flag_state (n : Nat) bs) ∧
      is_active g = is_active (flag_state (n : Nat) bs) ∧ cur = ((c : Nat) : Int) := by
  have hp : g.players = (flag_state (g.players.toNat : Nat)
      (g.active.map (fun a => decide (a ≠ 0)))).players := by
    simp only [flag_state, zero_state]; omega
  have hf : g.active.map (fun a => decide (a ≠ 0)) =
      (flag_state (g.players.toNat : Nat) (g.active.map (fun a => decide (a ≠ 0)))).active.map
        (fun a => decide (a ≠ 0)) := by
    simp only [flag_state, List.map_map]
    apply List.map_congr_left
    intro a _
    by_cases ha : a = 0 <;> simp [ha]
  refine ⟨_, mem_bool_lists 5 (g.active.map (fun a => decide (a ≠ 0))) (by simp [hlen]),
    g.players.toNat, ?_, cur.toNat, ?_, next_player_congr g _ hp hf,
    active_slots_congr g _ hp hf, ?_, by omega⟩
  · simp only [List.mem_cons, List.mem_singleton, List.not_mem_nil, or_false]; omega
  · rw [List.mem_range]; omega
  · funext n
    have key := rd_flags_congr g _ hf n
    unfold is_active
    cases h1 : rd g.active n <;>
      cases h2 : rd (flag_state (g.players.toNat : Nat)
        (g.active.map (fun a => decide (a ≠ 0)))).active n <;>
      rw [h1, h2] at key <;> simp at key ⊢
    simpa using key

set_option maxRecDepth 100000 in
theorem two_step_all :
    ∀ bs ∈ bool_lists 5, ∀ n ∈ [1, 2, 3, 4, 5], ∀ c ∈ List.range n,
      is_active (flag_state (n : Nat) bs) (c : Nat) = true →
      3 ≤ (active_slots (flag_state (n : Nat) bs)).length →
      two_step_ok (next_player (flag_state (n : Nat) bs)) (c : Nat) = true := by
  decide

theorem two_step_state (g : GameState) (p : Int) (hs : g.Safe) (hp0 : 0 ≤ p)
    (hp1 : p < g.players) (hact : is_active g p = true) (h3 : 3 ≤ (active_slots g).length) :
    ∃ n1 n2, next_player g p = some n1 ∧ next_player g n1 = some n2 ∧
      n1 ≠ p ∧ n2 ≠ p ∧ n2 ≠ n1 := by
  obtain ⟨bs, hbs, n, hn, c, hc, hnp, hsl, hia, hcur⟩ :=
    flag_state_reduce g p hs.players_pos hs.players_le hs.wf.active_len hp0 hp1
  have := two_step_all bs hbs n hn c hc (by rw [← hia, ← hcur]; exact hact) (by rw [← hsl]; exact h3)
  rw [← hnp, ← hcur] at this
  unfold two_step_ok at this
  cases h1 : next_player g p with
  | none => rw [h1] at this; simp at this
  | some n1 =>
    rw [h1] at this
    simp only at this
    cases h2 : next_player g n1 with
    | none => rw [h2] at this; simp at this
    | some n2 =>
      rw [h2] at this
      simp only [decide_eq_true_eq] at this
      exact ⟨n1, n2, rfl, h2, this⟩

theorem other_active (g : GameState) (p : Int) (h2 : 2 ≤ (active_slots g).length) :
    ∃ q a, q ≠ p ∧ 0 ≤ q ∧ q < g.players ∧ rd g.active q = some a ∧ a ≠ 0 := by
  have hnd := active_slots_nodup g
  match hl : active_slots g with
  | [] => rw [hl] at h2; simp at h2
  | [_] => rw [hl] at h2; simp at h2
  | a :: b :: rest =>
    rw [hl] at hnd
    have hab : a ≠ b := by
      intro h
      rw [h] at hnd
      simp at hnd
    have ha := (mem_active_slots g a).mp (by rw [hl]; simp)
    have hb := (mem_active_slots g b).mp (by rw [hl]; simp)
    by_cases hap : a = p
    · obtain ⟨x, hx1, hx2⟩ := hb.2.2
      exact ⟨b, x, by rw [← hap]; exact Ne.symm hab, hb.1, hb.2.1, hx1, hx2⟩
    · obtain ⟨x, hx1, hx2⟩ := ha.2.2
      exact ⟨a, x, hap, ha.1, ha.2.1, hx1, hx2⟩

theorem card_effect_facts (pid : Int) (played : Card) (g : GameState) (r : Rand)
    (hs : g.Safe) (hp0 : 0 ≤ pid) (hp1 : pid < g.players) (hact : is_active g pid = true)
    (hcs : ∀ q, 0 ≤ q → q < g.players → ∃ k, rd g.hand_count q = some k ∧ 0 ≤ k ∧ k ≤ 18) :
    ∃ g2 r2 n1, card_effect pid played g r = some (g2, r2) ∧
      EffectFacts pid played g r g2 r2 n1 := by
  obtain ⟨g2, r2, n1, h, a1, a2, a3, a4, a5, a6, a7, a8, a9, a10, a11, ⟨b1, b2, b3⟩, c1, c2, c3⟩ :=
    card_effect_spec pid played g r hs hp0 hp1 hact hcs
  exact ⟨g2, r2, n1, h, ⟨a1, a2, a3, a4, a5, a6, a7, a8, a9, a10, a11, b1, b2, b3, c1, c2, c3⟩⟩

/-- A legal play that does not empty the hand: the card effect runs on the
state after the removal and the end of the step follows. -/
theorem play_card_outcome (g : GameState) (r : Rand) (p choice hc : Int) (played : Card)
    (h : List Card) (hs : g.Safe) (hp0 : 0 ≤ p) (hp1 : p < g.players)
    (hact : is_active g p = true)
    (hcs : ∀ q, 0 ≤ q → q < g.players → ∃ k, rd g.hand_count q = some k ∧ 0 ≤ k ∧ k ≤ 18)
    (hhc : rd g.hand_count p = some hc) (hch0 : 0 ≤ choice) (hch1 : choice < hc)
    (hh : rd g.hands p = some h) (hplayed : rd_hand g.hands p choice = some played)
    (hne : hc ≠ 1) :
    ∃ h2 g2 r2 n1 hc2 res,
      h2.take (hc - 1).toNat = (h.take hc.toNat).eraseIdx choice.toNat ∧ h2.length = 20 ∧
      EffectFacts p played (removed_state g p played h2 hc) r g2 r2 n1 ∧
      rd g2.hand_count p = some hc2 ∧
      play_card p choice g r = some res ∧ OutcomeFacts p g2 r2 hc2 res := by
  obtain ⟨h2, htake, hl2, _, hgo⟩ :=
    play_card_effect g r p choice hc played h hs hp0 hp1 hact hcs hhc hch0 hch1 hh hplayed
  obtain ⟨g2, r2, hc2, heff, hhc2, hlt, hge⟩ := hgo hne
  obtain ⟨hsafe, _, _, _, hcp, hcq⟩ :=
    removed_state_facts g p hc played h h2 choice.toNat hs hp0 hp1 hh hhc hl2 htake
  obtain ⟨k, hk, hk0, hk18⟩ := hcs p hp0 hp1
  rw [hhc] at hk
  have hkc : hc = k := Option.some.inj hk
  subst hkc
  have hcs1 : ∀ q, 0 ≤ q → q < (removed_state g p played h2 hc).players →
      ∃ k, rd (removed_state g p played h2 hc).hand_count q = some k ∧ 0 ≤ k ∧ k ≤ 18 := by
    intro q hq0 hq1
    by_cases hqp : q = p
    · subst hqp
      exact ⟨hc - 1, hcp, by omega, by omega⟩
    · rw [hcq q hqp]
      exact hcs q hq0 hq1
  obtain ⟨g2b, r2b, n1, heffb, hfacts⟩ :=
    card_effect_facts p played (removed_state g p played h2 hc) r hsafe hp0 hp1 hact hcs1
  rw [heff] at heffb
  have hinj := Option.some.inj heffb
  have e1 : g2 = g2b := (Prod.mk.inj hinj).1
  have e2 : r2 = r2b := (Prod.mk.inj hinj).2
  subst e1 e2
  have hpl : p < g2.players := by rw [hfacts.players_eq]; exact hp1
  by_cases h8 : hc2 < 8
  · refine ⟨h2, g2, r2, n1, hc2, ⟨g2, r2, .silent, false⟩, htake, hl2, hfacts, hhc2, hlt h8,
      ⟨rfl, rfl, hfacts.safe, fun _ => ⟨rfl, rfl, rfl⟩, fun h => by omega⟩⟩
  · obtain ⟨t, g3, ht, hchk, hdis, hg3, hs3⟩ := disqualify_ok g2 p hfacts.safe hp0 hpl
    have hplay := hge (by omega)
    rw [hdis] at hplay
    refine ⟨h2, g2, r2, n1, hc2, ⟨g3, r2, .disqualified_8_cards, true⟩, htake, hl2, hfacts, hhc2,
      hplay, ⟨rfl, ?_, hs3, fun h => by omega, fun _ => ⟨rfl, rfl, ?_, ?_⟩⟩⟩
    · show g3 = { g2 with active := g3.active
                          current_turn := g3.current_turn
                          scores := g3.scores
                          game_over := g3.game_over }
      rw [hg3]
    · show g3.active = g2.active.set p.toNat 0
      rw [hg3]
    · refine ⟨{ g2 with active := g2.active.set p.toNat 0, current_turn := t },
        rfl, rfl, rfl, rfl, ?_, hchk, ?_⟩
      · have hfr := next_player_frame
          ({ g2 with active := g2.active.set p.toNat 0, current_turn := t } : GameState)
          { g2 with active := g2.active.set p.toNat 0 } rfl rfl
        rw [hfr]
        exact ht
      · show g3.current_turn = t
        rw [hg3]

theorem draw_n_congr (n : Nat) :
    ∀ (g g2 : GameState) (r : Rand), g2.deck = g.deck → g2.deck_top = g.deck_top →
      draw_n n g2 r = (draw_n n g r).map
        (fun x => (x.1, { g2 with deck := x.2.1.deck, deck_top := x.2.1.deck_top }, x.2.2)) := by
  induction n with
  | zero =>
    intro g g2 r hd ht
    simp only [draw_n, Option.map_some', ← hd, ← ht]
  | succ n ih =>
    intro g g2 r hd ht
    rw [draw_n, draw_n, draw_card_congr g g2 r hd ht]
    cases h1 : draw_card g r with
    | none => rfl
    | some x =>
      obtain ⟨c, g1, r1⟩ := x
      simp only [Option.map_some']
      rw [ih g1 { g2 with deck := g1.deck, deck_top := g1.deck_top } r1 rfl rfl]
      cases h2 : draw_n n g1 r1 with
      | none => rfl
      | some y => rfl

theorem skip_step (g : GameState) (r : Rand) (p hc : Int) (buf : List Char)
    (played : Card) (h : List Card)
    (hs : g.Safe) (hp0 : 0 ≤ p) (hp1 : p < g.players) (hact : is_active g p = true)
    (hcs : ∀ q, 0 ≤ q → q < g.players → ∃ k, rd g.hand_count q = some k ∧ 0 ≤ k ∧ k ≤ 18)
    (hbuf : buf ≠ NO_CARD) (hhc : rd g.hand_count p = some hc)
    (h1 : 1 ≤ atoi buf) (h2 : atoi buf ≤ hc) (hh : rd g.hands p = some h)
    (hplayed : rd_hand g.hands p (atoi buf - 1) = some played)
    (hlegal : valid_move played g.top_card = true)
    (hty : played.type = .SKIP) (h3 : 3 ≤ (active_slots g).length)
    (hk1 : 1 ≤ hc - 1) (hk7 : hc - 1 ≤ 7) :
    ∃ res n1 n2, apply_step p buf g r = some res ∧
      next_player g p = some n1 ∧ next_player g n1 = some n2 ∧
      res.game.current_turn = n2 ∧ n1 ≠ p ∧ n2 ≠ p ∧ n2 ≠ n1 ∧
      is_active g n1 = true ∧ is_active res.game n2 = true ∧
      res.exited = false ∧ res.game.active = g.active ∧
      rd res.game.hand_count p = some (hc - 1) ∧
      ∀ q, q ≠ p → hand res.game q = hand g q := by
  obtain ⟨h2', g2, r2, n1, hc2, res, htake, hl2, hf, hhc2, hplay, ho⟩ :=
    play_card_outcome g r p (atoi buf - 1) hc played h hs hp0 hp1 hact hcs hhc (by omega)
      (by omega) hh hplayed (by omega)
  obtain ⟨_, _, _, hq', hcp, _⟩ :=
    removed_state_facts g p hc played h h2' (atoi buf - 1).toNat hs hp0 hp1 hh hhc hl2 htake
  have hfr : next_player (removed_state g p played h2' hc) = next_player g :=
    next_player_frame _ _ rfl rfl
  obtain ⟨hn2, hg2, _⟩ := hf.skip hty
  have hnext := hf.next
  rw [hfr] at hn2 hnext
  have hcount : g2.hand_count = (removed_state g p played h2' hc).hand_count := by rw [hg2]
  rw [hcount, hcp] at hhc2
  have hc2e : hc2 = hc - 1 := (Option.some.inj hhc2).symm
  obtain ⟨hres, hex, _⟩ := ho.keep (by omega)
  obtain ⟨m1, m2, hm1, hm2, hne1, hne2, hne3⟩ := two_step_state g p hs hp0 hp1 hact h3
  rw [hnext] at hm1
  have e1 : n1 = m1 := Option.some.inj hm1
  subst e1
  rw [hn2] at hm2
  have e2 : g2.current_turn = m2 := Option.some.inj hm2
  have hact2 : is_active res.game m2 = true := by
    rw [hres, is_active_of_active_eq (removed_state g p played h2' hc) g2 hf.active_eq, ← e2]
    exact hf.turn_active
  have hactn1 : is_active g n1 = true := hf.n1_active
  refine ⟨res, n1, m2, ?_, hnext, by rw [← e2]; exact hn2, by rw [hres]; exact e2, hne1, hne2,
    hne3, hactn1, hact2, hex, ?_, ?_, fun q hq => ?_⟩
  · rw [apply_step_legal g r p hc buf played hbuf hhc h1 h2 hplayed hlegal]
    exact hplay
  · rw [hres]
    exact hf.active_eq
  · rw [hres, hcount]
    exact hcp
  · rw [hres, hg2]
    exact (hand_congr (removed_state g p played h2' hc) _ rfl rfl q).trans (hq' q hq)

theorem plus2_step (g : GameState) (r : Rand) (p hc : Int) (buf : List Char)
    (played : Card) (h : List Card)
    (hs : g.Safe) (hp0 : 0 ≤ p) (hp1 : p < g.players) (hact : is_active g p = true)
    (hcs : ∀ q, 0 ≤ q → q < g.players → ∃ k, rd g.hand_count q = some k ∧ 0 ≤ k ∧ k ≤ 18)
    (hbuf : buf ≠ NO_CARD) (hhc : rd g.hand_count p = some hc)
    (h1 : 1 ≤ atoi buf) (h2 : atoi buf ≤ hc) (hh : rd g.hands p = some h)
    (hplayed : rd_hand g.hands p (atoi buf - 1) = some played)
    (hlegal : valid_move played g.top_card = true)
    (hty : played.type = .PLUS2) (h3 : 3 ≤ (active_slots g).length)
    (hk1 : 1 ≤ hc - 1) (hk7 : hc - 1 ≤ 7) :
    ∃ res q t c1 c2 gd k, apply_step p buf g r = some res ∧
      next_player g p = some q ∧ q ≠ p ∧ is_active g q = true ∧
      draw_n 2 g r = some ([c1, c2], gd, res.rand) ∧
      res.game.deck = gd.deck ∧ res.game.deck_top = gd.deck_top ∧
      rd g.hand_count q = some k ∧ rd res.game.hand_count q = some (k + 2) ∧
      hand res.game q = (hand g q).map (fun l => l ++ [c1, c2]) ∧
      next_player g q = some t ∧ res.game.current_turn = t ∧ t ≠ q ∧ t ≠ p ∧
      is_active res.game t = true ∧
      (∀ x, x ≠ q → x ≠ p →
        hand res.game x = hand g x ∧ rd res.game.hand_count x = rd g.hand_count x) ∧
      rd res.game.hand_count p = some (hc - 1) ∧
      res.exited = false ∧ res.game.active = g.active := by
  obtain ⟨h2', g2, r2, n1, hc2, res, htake, hl2, hf, hhc2, hplay, ho⟩ :=
    play_card_outcome g r p (atoi buf - 1) hc played h hs hp0 hp1 hact hcs hhc (by omega)
      (by omega) hh hplayed (by omega)
  obtain ⟨_, _, _, hq', hcp, hcq⟩ :=
    removed_state_facts g p hc played h h2' (atoi buf - 1).toNat hs hp0 hp1 hh hhc hl2 htake
  have hfr : next_player (removed_state g p played h2' hc) = next_player g :=
    next_player_frame _ _ rfl rfl
  obtain ⟨hn2, c1, c2, gd, k, hdn, hdk, hdt, hkq, hkq2, hhq, hoth⟩ := hf.plus2 hty
  have hnext := hf.next
  rw [hfr] at hn2 hnext
  obtain ⟨m1, m2, hm1, hm2, hne1, hne2, hne3⟩ := two_step_state g p hs hp0 hp1 hact h3
  rw [hnext] at hm1
  have e1 : n1 = m1 := Option.some.inj hm1
  subst e1
  rw [hn2] at hm2
  have e2 : g2.current_turn = m2 := Option.some.inj hm2
  have hpn : p ≠ n1 := Ne.symm hne1
  rw [(hoth p hpn).2, hcp] at hhc2
  have hc2e : hc2 = hc - 1 := (Option.some.inj hhc2).symm
  obtain ⟨hres, hex, _⟩ := ho.keep (by omega)
  have hcong := draw_n_congr 2 g (removed_state g p played h2' hc) r rfl rfl
  rw [hdn] at hcong
  cases hdg : draw_n 2 g r with
  | none => rw [hdg] at hcong; simp at hcong
  | some x =>
    rw [hdg] at hcong
    simp only [Option.map_some', Option.some.injEq, Prod.mk.injEq] at hcong
    obtain ⟨hx1, hx2, hx3⟩ := hcong
    have hact2 : is_active res.game m2 = true := by
      rw [hres, is_active_of_active_eq (removed_state g p played h2' hc) g2 hf.active_eq, ← e2]
      exact hf.turn_active
    refine ⟨res, n1, m2, c1, c2, x.2.1, k, ?_, hnext, hne1, hf.n1_active, ?_, ?_, ?_, ?_, ?_, ?_,
      by rw [← e2]; exact hn2, by rw [hres]; exact e2, hne3, hne2, hact2,
      fun y hy1 hy2 => ⟨?_, ?_⟩, ?_, hex, ?_⟩
    · rw [apply_step_legal g r p hc buf played hbuf hhc h1 h2 hplayed hlegal]
      exact hplay
    · rw [ho.rand_eq]
      obtain ⟨xc, xg, xr⟩ := x
      simp only at hx1 hx3
      rw [hx1, hx3]
    · rw [hres, hdk, hx2]
    · rw [hres, hdt, hx2]
    · rw [← hcq n1 hne1]; exact hkq
    · rw [hres]; exact hkq2
    · rw [hres, hhq, hq' n1 hne1]
    · rw [hres, (hoth y hy1).1]; exact hq' y hy2
    · rw [hres, (hoth y hy1).2]; exact hcq y hy2
    · rw [hres, (hoth p hpn).2]; exact hcp
    · rw [hres]; exact hf.active_eq

/-- C11: with at least three active players, a legally played `SKIP` that
leaves `p` with 1 to 7 cards sets `current_turn` to
`next_player(next_player(p))`; that player and the skipped player
`next_player(p)` are active, differ from each other and from `p`; the worker
goes on, the active flags are untouched and no hand other than `p`'s changes. -/
theorem skip_passes_two (g : GameState) (r : Rand) (p hc : Int) (buf : List Char)
    (played : Card) (h : List Card)
    (hs : g.Safe) (hp0 : 0 ≤ p) (hp1 : p < g.players) (hact : is_active g p = true)
    (hcs : ∀ q, 0 ≤ q → q < g.players → ∃ k, rd g.hand_count q = some k ∧ 0 ≤ k ∧ k ≤ 18)
    (hbuf : buf ≠ NO_CARD) (hhc : rd g.hand_count p = some hc)
    (h1 : 1 ≤ atoi buf) (h2 : atoi buf ≤ hc) (hh : rd g.hands p = some h)
    (hplayed : rd_hand g.hands p (atoi buf - 1) = some played)
    (hlegal : valid_move played g.top_card = true)
    (hty : played.type = .SKIP) (h3 : 3 ≤ (active_slots g).length)
    (hk1 : 1 ≤ hc - 1) (hk7 : hc - 1 ≤ 7) :
    ∃ res n1 n2, apply_step p buf g r = some res ∧
      next_player g p = some n1 ∧ next_player g n1 = some n2 ∧
      res.game.current_turn = n2 ∧ n1 ≠ p ∧ n2 ≠ p ∧ n2 ≠ n1 ∧
      is_active g n1 = true ∧ is_active res.game n2 = true ∧
      res.exited = false ∧ res.game.active = g.active ∧
      rd res.game.hand_count p = some (hc - 1) ∧
      ∀ q, q ≠ p → hand res.game q = hand g q :=
  skip_step g r p hc buf played h hs hp0 hp1 hact hcs hbuf hhc h1 h2 hh hplayed hlegal hty h3
    hk1 hk7

theorem skip_state_safe : skip_state.Safe :=
  ⟨⟨by decide, by decide, by decide, by decide, by decide, by decide, by decide⟩,
    by decide, by decide, by decide, by decide⟩

theorem three_players_counts (g : GameState) (a b c : Int) (hp : g.players = 3)
    (hc : g.hand_count = [a, b, c, 0, 0]) (ha : 0 ≤ a ∧ a ≤ 18) (hb : 0 ≤ b ∧ b ≤ 18)
    (hcc : 0 ≤ c ∧ c ≤ 18) :
    ∀ q, 0 ≤ q → q < g.players → ∃ k, rd g.hand_count q = some k ∧ 0 ≤ k ∧ k ≤ 18 := by
  intro q hq0 hq1
  rw [hp] at hq1
  rw [hc]
  interval_cases q
  · exact ⟨a, rfl, ha⟩
  · exact ⟨b, rfl, hb⟩
  · exact ⟨c, rfl, hcc⟩

/-- Witness for `skip_passes_two`: active players 0, 1, 2, turn at player 0,
who plays `RED SKIP`: the turn goes to player 2. -/
theorem skip_passes_two_witness :
    ∃ res, apply_step 0 ['1'] skip_state (fun k => k) = some res ∧
      res.game.current_turn = 2 ∧ res.exited = false := by
  obtain ⟨res, n1, n2, hres, hn1, hn2, hct, _, _, _, _, _, hex, _⟩ :=
    skip_passes_two skip_state (fun k => k) 0 2 ['1'] ⟨.RED, .SKIP, -1⟩
      (⟨.RED, .SKIP, -1⟩ :: List.replicate 19 zero_card)
      skip_state_safe (by decide) (by decide) (by decide)
      (three_players_counts skip_state 2 5 5 rfl rfl (by decide) (by decide) (by decide))
      (by decide) (by decide) (by decide) (by decide) (by decide) (by decide) (by decide)
      (by decide) (by decide) (by decide) (by decide)
  have e1 : next_player skip_state 0 = some 1 := by decide
  rw [e1] at hn1
  have e1' : n1 = 1 := (Option.some.inj hn1).symm
  subst e1'
  have e2 : next_player skip_state 1 = some 2 := by decide
  rw [e2] at hn2
  exact ⟨res, hres, by rw [hct]; exact (Option.some.inj hn2).symm, hex⟩

/-- C12: with at least three active players, a legally played `+2` that
leaves `p` with 1 to 7 cards gives the next active player `q` (who is not `p`)
the next two cards drawn from the deck, appended to `q`'s hand in the order of
the draws, and sets `current_turn` to `next_player(q)`, an active player other
than `q` and `p`; the hands of the players other than `p` and `q` are
unchanged, `p` holds one card fewer, and the worker goes on. -/
theorem plus2_deals_two (g : GameState) (r : Rand) (p hc : Int) (buf : List Char)
    (played : Card) (h : List Card)
    (hs : g.Safe) (hp0 : 0 ≤ p) (hp1 : p < g.players) (hact : is_active g p = true)
    (hcs : ∀ q, 0 ≤ q → q < g.players → ∃ k, rd g.hand_count q = some k ∧ 0 ≤ k ∧ k ≤ 18)
    (hbuf : buf ≠ NO_CARD) (hhc : rd g.hand_count p = some hc)
    (h1 : 1 ≤ atoi buf) (h2 : atoi buf ≤ hc) (hh : rd g.hands p = some h)
    (hplayed : rd_hand g.hands p (atoi buf - 1) = some played)
    (hlegal : valid_move played g.top_card = true)
    (hty : played.type = .PLUS2) (h3 : 3 ≤ (active_slots g).length)
    (hk1 : 1 ≤ hc - 1) (hk7 : hc - 1 ≤ 7) :
    ∃ res q t c1 c2 gd k, apply_step p buf g r = some res ∧
      next_player g p = some q ∧ q ≠ p ∧ is_active g q = true ∧
      draw_n 2 g r = some ([c1, c2], gd, res.rand) ∧
      res.game.deck = gd.deck ∧ res.game.deck_top = gd.deck_top ∧
      rd g.hand_count q = some k ∧ rd res.game.hand_count q = some (k + 2) ∧
      hand res.game q = (hand g q).map (fun l => l ++ [c1, c2]) ∧
      next_player g q = some t ∧ res.game.current_turn = t ∧ t ≠ q ∧ t ≠ p ∧
      is_active res.game t = true ∧
      (∀ x, x ≠ q → x ≠ p →
        hand res.game x = hand g x ∧ rd res.game.hand_count x = rd g.hand_count x) ∧
      rd res.game.hand_count p = some (hc - 1) ∧
      res.exited = false ∧ res.game.active = g.active :=
  plus2_step g r p hc buf played h hs hp0 hp1 hact hcs hbuf hhc h1 h2 hh hplayed hlegal hty h3
    hk1 hk7

theorem plus2_state_safe : plus2_state.Safe :=
  ⟨⟨by decide, by decide, by decide, by decide, by decide, by decide, by decide⟩,
    by decide, by decide, by decide, by decide⟩

/-- Witness for `plus2_deals_two`: active players 0, 1, 2, turn at player 0,
who plays `RED +2`: player 1 holds two cards more and the turn goes to player 2. -/
theorem plus2_deals_two_witness :
    ∃ res, apply_step 0 ['1'] plus2_state (fun k => k) = some res ∧
      rd res.game.hand_count 1 = some 7 ∧ res.game.current_turn = 2 := by
  obtain ⟨res, q, t, c1, c2, gd, k, hres, hq, _, _, _, _, _, hk, hk2, _, ht, hct, _⟩ :=
    plus2_deals_two plus2_state (fun k => k) 0 2 ['1'] ⟨.RED, .PLUS2, -1⟩
      (⟨.RED, .PLUS2, -1⟩ :: List.replicate 19 zero_card)
      plus2_state_safe (by decide) (by decide) (by decide)
      (three_players_counts plus2_state 2 5 5 rfl rfl (by decide) (by decide) (by decide))
      (by decide) (by decide) (by decide) (by decide) (by decide) (by decide) (by decide)
      (by decide) (by decide) (by decide) (by decide)
  have e1 : next_player plus2_state 0 = some 1 := by decide
  rw [e1] at hq
  have eq1 : q = 1 := (Option.some.inj hq).symm
  subst eq1
  have e2 : next_player plus2_state 1 = some 2 := by decide
  rw [e2] at ht
  have ek : rd plus2_state.hand_count 1 = some 5 := by decide
  rw [ek] at hk
  have ek' : k = 5 := (Option.some.inj hk).symm
  subst ek'
  exact ⟨res, hres, hk2, by rw [hct]; exact (Option.some.inj ht).symm⟩

theorem turn_after_disqualify (g0 gb : GameState) (p t : Int) (hs0 : g0.Safe) (hp0 : 0 ≤ p)
    (hp1 : p < g0.players)
    (hoth : ∃ q a, q ≠ p ∧ 0 ≤ q ∧ q < g0.players ∧ rd g0.active q = some a ∧ a ≠ 0)
    (hgp : gb.players = g0.players) (hga : gb.active = g0.active.set p.toNat 0)
    (hn : next_player gb p = some t) :
    0 ≤ t ∧ t < g0.players ∧ ∃ a, rd (g0.active.set p.toNat 0) t = some a ∧ a ≠ 0 := by
  have hw := hs0.wf
  have hsafe : ({ g0 with active := g0.active.set p.toNat 0 } : GameState).Safe :=
    ⟨⟨by simpa using hw.active_len, hw.no_card_len, hw.hands_len, hw.hand_len,
      hw.hand_count_len, hw.deck_len, hw.scores_len⟩, hs0.players_pos, hs0.players_le,
      hs0.top_lo, hs0.top_hi⟩
  have hfr : next_player gb = next_player { g0 with active := g0.active.set p.toNat 0 } :=
    next_player_frame _ _ hgp hga
  rw [hfr] at hn
  obtain ⟨x, hx, _, hxlt, hxact⟩ := next_player_ok _ p hsafe hp0 hp1
  rw [hn] at hx
  have e : t = x := Option.some.inj hx
  subst e
  obtain ⟨q, a, hqp, hq0, hq1, hqa, hane⟩ := hoth
  obtain ⟨ht0, hta⟩ := hxact ⟨q, a, hq0, hq1, by
    show rd (g0.active.set p.toNat 0) q = some a
    rw [rd_set_other _ _ _ _ hp0 (Ne.symm hqp)]
    exact hqa, hane⟩
  exact ⟨ht0, hxlt, hta⟩

theorem turn_pointer_step (g : GameState) (r : Rand) (p : Int) (buf : List Char)
    (hs : g.Safe) (hp0 : 0 ≤ p) (hp1 : p < g.players) (hact : is_active g p = true)
    (hcs : ∀ q, 0 ≤ q → q < g.players → ∃ k, rd g.hand_count q = some k ∧ 0 ≤ k ∧ k ≤ 18)
    (hturn : g.current_turn = p) (h2 : 2 ≤ (active_slots g).length) :
    ∃ res, apply_step p buf g r = some res ∧ res.game.players = g.players ∧
      (res.game.game_over ≠ 0 ∨
        (0 ≤ res.game.current_turn ∧ res.game.current_turn < g.players ∧
          is_active res.game res.game.current_turn = true)) := by
  have hw := hs.wf
  have h5 := hs.players_le
  have hoth := other_active g p h2
  have hany : ∃ q a, 0 ≤ q ∧ q < g.players ∧ rd g.active q = some a ∧ a ≠ 0 := by
    obtain ⟨q, a, _, h0, h1, ha, hne⟩ := hoth
    exact ⟨q, a, h0, h1, ha, hne⟩
  obtain ⟨hc, hhc, hc0, hc18⟩ := hcs p hp0 hp1
  by_cases hb : buf = NO_CARD
  · subst hb
    obtain ⟨n, hn⟩ := rd_some_of_lt g.no_card_count p hp0
      (by rw [hw.no_card_len]; simp only [MAX_PLAYERS]; omega)
    obtain ⟨c, gd, res, _, hstep, _, _, _, _, _, _, _, hlt, hge, _, hpl⟩ :=
      no_card_step_spec g r p n hc hs hp0 hp1 hn hhc hc0 (by omega)
    refine ⟨res, hstep, hpl, Or.inr ?_⟩
    by_cases h3 : n + 1 < 3
    · obtain ⟨_, hae, hnx, _, _⟩ := hlt h3
      obtain ⟨x, hx, _, hxlt, hxact⟩ := next_player_ok g p hs hp0 hp1
      rw [hnx] at hx
      have e : res.game.current_turn = x := Option.some.inj hx
      obtain ⟨hx0, hxa⟩ := hxact hany
      rw [e]
      refine ⟨hx0, hxlt, ?_⟩
      rw [is_active_of_active_eq g res.game hae]
      exact (is_active_iff g x).mpr hxa
    · obtain ⟨_, hae, _, gb, hgp, hga, _, _, hnx, _, hct⟩ := hge (by omega)
      obtain ⟨ht0, ht1, hta⟩ :=
        turn_after_disqualify g gb p gb.current_turn hs hp0 hp1 hoth hgp hga hnx
      rw [hct]
      refine ⟨ht0, ht1, ?_⟩
      rw [is_active_iff, hae]
      exact hta
  · have rejected : (atoi buf < 1 ∨ hc < atoi buf ∨
        ∃ c, rd_hand g.hands p (atoi buf - 1) = some c ∧ valid_move c g.top_card = false) →
        ∃ res, apply_step p buf g r = some res ∧ res.game.players = g.players ∧
          (res.game.game_over ≠ 0 ∨
            (0 ≤ res.game.current_turn ∧ res.game.current_turn < g.players ∧
              is_active res.game res.game.current_turn = true)) := by
      intro hbad
      obtain ⟨res, hres, hg, _⟩ := apply_step_rejected g r p hc buf hb hhc (by omega) hbad
      refine ⟨res, hres, by rw [hg], Or.inr ?_⟩
      rw [hg, hturn]
      exact ⟨hp0, hp1, hact⟩
    by_cases hr1 : atoi buf < 1
    · exact rejected (Or.inl hr1)
    by_cases hr2 : hc < atoi buf
    · exact rejected (Or.inr (Or.inl hr2))
    obtain ⟨sel, hsel⟩ := rd_hand_ok g.hands p (atoi buf - 1) hw.handsWF hp0 (by omega)
      (by omega) (by omega)
    by_cases hv : valid_move sel g.top_card = true
    · obtain ⟨h, hh⟩ := rd_some_of_lt g.hands p hp0
        (by rw [hw.hands_len]; simp only [MAX_PLAYERS]; omega)
      rw [apply_step_legal g r p hc buf sel hb hhc (by omega) (by omega) hsel hv]
      by_cases hone : hc = 1
      · obtain ⟨h2', _, _, hwin, _⟩ :=
          play_card_effect g r p (atoi buf - 1) hc sel h hs hp0 hp1 hact hcs hhc (by omega)
            (by omega) hh hsel
        refine ⟨_, hwin hone, rfl, Or.inl ?_⟩
        show (1 : Int) ≠ 0
        decide
      · obtain ⟨h2', g2, r2, n1, hc2, res, _, _, hf, _, hplay, ho⟩ :=
          play_card_outcome g r p (atoi buf - 1) hc sel h hs hp0 hp1 hact hcs hhc (by omega)
            (by omega) hh hsel hone
        have hpl2 : g2.players = g.players := hf.players_eq
        have hact2 : g2.active = g.active := hf.active_eq
        have hplr : res.game.players = g.players := by
          rw [ho.frame]
          exact hpl2
        refine ⟨res, hplay, hplr, Or.inr ?_⟩
        by_cases h8 : hc2 < 8
        · obtain ⟨hres, _, _⟩ := ho.keep h8
          rw [hres]
          refine ⟨hf.turn_lo, hf.turn_hi, ?_⟩
          rw [is_active_of_active_eq g g2 hact2]
          exact hf.turn_active
        · obtain ⟨_, _, hae, gb, hgp, hga, _, _, hnx, _, hct⟩ := ho.out (by omega)
          have hoth2 : ∃ q a, q ≠ p ∧ 0 ≤ q ∧ q < g2.players ∧ rd g2.active q = some a ∧
              a ≠ 0 := by
            rw [hpl2, hact2]
            exact hoth
          obtain ⟨ht0, ht1, hta⟩ :=
            turn_after_disqualify g2 gb p gb.current_turn hf.safe hp0 (by rw [hpl2]; exact hp1)
              hoth2 hgp hga hnx
          rw [hct]
          refine ⟨ht0, by rw [← hpl2]; exact ht1, ?_⟩
          rw [is_active_iff, hae]
          exact hta
    · exact rejected (Or.inr (Or.inr ⟨sel, hsel, by simpa using hv⟩))

/-- C18: when `current_turn` is the active player `p` and at least two slots
are active, every apply step of `p` (any input line: `NO_CARD`, a rejected
line, or a legal play of any card type, with or without a disqualification)
succeeds, keeps the player count, and leaves either `game_over` set or
`current_turn` at an index in `0..players-1` whose slot is active in the
resulting state. -/
theorem turn_pointer_invariant (g : GameState) (r : Rand) (p : Int) (buf : List Char)
    (hs : g.Safe) (hp0 : 0 ≤ p) (hp1 : p < g.players) (hact : is_active g p = true)
    (hcs : ∀ q, 0 ≤ q → q < g.players → ∃ k, rd g.hand_count q = some k ∧ 0 ≤ k ∧ k ≤ 18)
    (hturn : g.current_turn = p) (h2 : 2 ≤ (active_slots g).length) :
    ∃ res, apply_step p buf g r = some res ∧ res.game.players = g.players ∧
      (res.game.game_over ≠ 0 ∨
        (0 ≤ res.game.current_turn ∧ res.game.current_turn < g.players ∧
          is_active res.game res.game.current_turn = true)) :=
  turn_pointer_step g r p buf hs hp0 hp1 hact hcs hturn h2

/-- Witness for `turn_pointer_invariant`: the third `NO_CARD` of player 1 in
`strike_state`, which disqualifies that player. -/
theorem turn_pointer_invariant_witness :
    ∃ res, apply_step 1 NO_CARD strike_state (fun k => k) = some res ∧
      res.game.players = strike_state.players ∧
      (res.game.game_over ≠ 0 ∨
        (0 ≤ res.game.current_turn ∧ res.game.current_turn < strike_state.players ∧
          is_active res.game res.game.current_turn = true)) :=
  turn_pointer_invariant strike_state (fun k => k) 1 NO_CARD strike_state_safe
    (by decide) (by decide) (by decide)
    (three_players_counts strike_state 5 5 5 rfl rfl (by decide) (by decide) (by decide))
    (by decide) (by decide)

theorem deal_hand_spec (i : Int) (hi0 : 0 ≤ i) (hi1 : i < 5) (m : Nat) :
    ∀ (j0 : Nat) (g : GameState) (r : Rand), g.deck.length = DECK_SIZE → HandsWF g.hands →
      0 ≤ g.deck_top → g.deck_top + m ≤ 108 → j0 + m ≤ 20 →
      ∃ hs2 h h2, HandsWF hs2 ∧
        deal_hand i (List.range' j0 m) g r =
          some ({ g with hands := hs2, deck_top := g.deck_top + m }, r) ∧
        (∀ q, q ≠ i → rd hs2 q = rd g.hands q) ∧
        rd g.hands i = some h ∧ rd hs2 i = some h2 ∧
        ∀ k : Nat, h2[k]? =
          if j0 ≤ k ∧ k < j0 + m then g.deck[g.deck_top.toNat + (k - j0)]? else h[k]? := by
  induction m with
  | zero =>
    intro j0 g r _ hw _ _ _
    obtain ⟨h, hh⟩ := rd_some_of_lt g.hands i hi0 (by rw [hw.1]; simp only [MAX_PLAYERS]; omega)
    refine ⟨g.hands, h, h, hw, ?_, fun _ _ => rfl, hh, hh, fun k => by rw [if_neg (by omega)]⟩
    simp only [List.range'_zero, deal_hand, Nat.cast_zero, add_zero]
  | succ m ih =>
    intro j0 g r hlen hw ht0 ht1 hj
    have ht1' : g.deck_top + (m : Int) + 1 ≤ 108 := by push_cast at ht1; omega
    obtain ⟨c, hc, hd⟩ := draw_card_of_lt g r hlen ht0 (by omega)
    obtain ⟨h, hh, hwr, hw2⟩ := wr_hand_ok g.hands i (j0 : Int) c hw hi0 hi1 (by omega) (by omega)
    have hl := rd_hands_length g.hands i h hw hh
    simp only [HAND_CAP] at hl
    have hrd1 : rd (g.hands.set i.toNat (h.set (j0 : Int).toNat c)) i
        = some (h.set (j0 : Int).toNat c) :=
      rd_set_same _ _ _ hi0 (by rw [hw.1]; simp only [MAX_PLAYERS]; omega)
    obtain ⟨hs2, h', h2, hw3, hdeal, hoth, hh', hh2, hget⟩ :=
      ih (j0 + 1) { g with hands := g.hands.set i.toNat (h.set (j0 : Int).toNat c),
                           deck_top := g.deck_top + 1 } r hlen hw2 (by simp only; omega)
        (by simp only; omega) (by omega)
    simp only at hdeal hoth hh' hget
    rw [hrd1] at hh'
    have he : h' = h.set (j0 : Int).toNat c := (Option.some.inj hh').symm
    subst he
    refine ⟨hs2, h, h2, hw3, ?_, fun q hq => ?_, hh, hh2, fun k => ?_⟩
    · rw [List.range'_succ, deal_hand, hd]
      simp only [hwr]
      rw [hdeal]
      have : g.deck_top + 1 + (m : Int) = g.deck_top + ((m + 1 : Nat) : Int) := by
        push_cast; omega
      rw [this]
    · rw [hoth q hq]
      exact rd_set_other _ _ _ _ hi0 (Ne.symm hq)
    · rw [hget k]
      rw [rd_nonneg _ _ ht0] at hc
      simp only [Int.toNat_ofNat, List.getElem?_set]
      by_cases hk : k = j0
      · subst hk
        rw [if_neg (by omega), if_pos rfl, if_pos (by omega), if_pos (by omega)]
        rw [Nat.sub_self, Nat.add_zero, hc]
      · by_cases hin : j0 + 1 ≤ k ∧ k < j0 + 1 + m
        · rw [if_pos hin, if_pos (by omega)]
          have : (g.deck_top + 1).toNat + (k - (j0 + 1)) = g.deck_top.toNat + (k - j0) := by
            omega
          rw [this]
        · rw [if_neg hin, if_neg (Ne.symm hk), if_neg (by omega)]

theorem deal_players_spec (m : Nat) :
    ∀ (i0 : Nat) (g : GameState) (r : Rand), g.WF → 0 ≤ g.deck_top →
      g.deck_top + 5 * (m : Int) ≤ 108 → i0 + m ≤ 5 →
      ∃ gf, deal_players (List.range' i0 m) g r = some (gf, r) ∧ DealFacts i0 m g gf := by
  induction m with
  | zero =>
    intro i0 g r hw _ _ _
    refine ⟨g, by simp only [List.range'_zero, deal_players], ?_⟩
    exact
      { deck := rfl, deck_top := by simp, players := rfl, top_card := rfl, scores := rfl,
        current_turn := rfl, game_over := rfl, active_len := rfl, no_card_len := rfl,
        hand_count_len := rfl, hands_wf := hw.handsWF,
        dealt := fun q h1 h2 => absurd h2 (by omega),
        other := fun q _ => ⟨rfl, rfl, rfl, rfl⟩ }
  | succ m ih =>
    intro i0 g r hw ht0 ht1 hi
    have hal := hw.active_len
    have hnl := hw.no_card_len
    have hcl := hw.hand_count_len
    simp only [MAX_PLAYERS] at hal hnl hcl
    have hi0 : (0 : Int) ≤ (i0 : Int) := Int.ofNat_nonneg i0
    have hwa := wr_of_lt g.active (i0 : Int) 1 hi0 (by rw [hal]; omega)
    have hwn := wr_of_lt g.no_card_count (i0 : Int) 0 hi0 (by rw [hnl]; omega)
    have hwc := wr_of_lt g.hand_count (i0 : Int) (HAND_SIZE : Int) hi0 (by rw [hcl]; omega)
    obtain ⟨hs2, h, h2, hw3, hdeal, hoth, hh, hh2, hget⟩ :=
      deal_hand_spec (i0 : Int) hi0 (by omega) 5 0
        { g with active := g.active.set (i0 : Int).toNat 1
                 no_card_count := g.no_card_count.set (i0 : Int).toNat 0
                 hand_count := g.hand_count.set (i0 : Int).toNat (HAND_SIZE : Int) } r
        hw.deck_len hw.handsWF ht0 (by simp only; push_cast at ht1 ⊢; omega) (by omega)
    simp only at hdeal hoth hh hget
    obtain ⟨gf, hrun, hf⟩ :=
      ih (i0 + 1)
        { g with active := g.active.set (i0 : Int).toNat 1
                 no_card_count := g.no_card_count.set (i0 : Int).toNat 0
                 hand_count := g.hand_count.set (i0 : Int).toNat (HAND_SIZE : Int)
                 hands := hs2
                 deck_top := g.deck_top + ((5 : Nat) : Int) } r
        { active_len := by simpa using hw.active_len
          no_card_len := by simpa using hw.no_card_len
          hands_len := hw3.1
          hand_len := hw3.2
          hand_count_len := by simpa using hw.hand_count_len
          deck_len := hw.deck_len
          scores_len := hw.scores_len }
        (by simp only; omega) (by simp only; push_cast at ht1 ⊢; omega) (by omega)
    have hd := hf.deck
    have hdt := hf.deck_top
    have hdealt := hf.dealt
    have hother := hf.other
    simp only at hd hdt hdealt hother
    refine ⟨gf, ?_, ?_⟩
    · rw [List.range'_succ, deal_players, hwa, hwn, hwc]
      simp only
      have h5 : List.range HAND_SIZE = List.range' 0 5 := by
        rw [List.range_eq_range']
      rw [h5, hdeal]
      exact hrun
    · refine
        { deck := hd, deck_top := by rw [hdt]; push_cast; omega, players := hf.players,
          top_card := hf.top_card, scores := hf.scores, current_turn := hf.current_turn,
          game_over := hf.game_over,
          active_len := by rw [hf.active_len]; simp,
          no_card_len := by rw [hf.no_card_len]; simp,
          hand_count_len := by rw [hf.hand_count_len]; simp,
          hands_wf := hf.hands_wf, dealt := ?_, other := ?_ }
      · intro q hq0 hq1
        by_cases hq : q = i0
        · subst hq
          obtain ⟨oa, onc, oc, oh⟩ := hother (q : Int) (Or.inl (by push_cast; omega))
          refine ⟨?_, ?_, ?_, h2, ?_, ?_⟩
          · rw [oa]; exact rd_set_same _ _ _ hi0 (by rw [hal]; omega)
          · rw [onc]; exact rd_set_same _ _ _ hi0 (by rw [hnl]; omega)
          · rw [oc]; exact rd_set_same _ _ _ hi0 (by rw [hcl]; omega)
          · rw [oh]; exact hh2
          · apply List.ext_getElem?
            intro k
            rw [List.getElem?_take, List.getElem?_take, hget k, List.getElem?_drop]
            by_cases hk : k < 5
            · rw [if_pos hk, if_pos hk, if_pos (by omega)]
              have : g.deck_top.toNat + (k - 0) = g.deck_top.toNat + 5 * (q - q) + k := by omega
              rw [this]
            · rw [if_neg hk, if_neg hk]
        · obtain ⟨da, dn, dc, h3, dh, dt⟩ := hdealt q (by omega) (by omega)
          refine ⟨da, dn, dc, h3, dh, ?_⟩
          rw [dt]
          have : (g.deck_top + ((5 : Nat) : Int)).toNat + 5 * (q - (i0 + 1))
              = g.deck_top.toNat + 5 * (q - i0) := by omega
          rw [this]
      · intro q hq
        have hne : (i0 : Int) ≠ q := by
          rcases hq with hq | hq
          · omega
          · push_cast at hq; omega
        obtain ⟨oa, onc, oc, oh⟩ := hother q (by
          rcases hq with hq | hq
          · left; push_cast; omega
          · right; push_cast at hq ⊢; omega)
        refine ⟨?_, ?_, ?_, ?_⟩
        · rw [oa]; exact rd_set_other _ _ _ _ hi0 hne
        · rw [onc]; exact rd_set_other _ _ _ _ hi0 hne
        · rw [oc]; exact rd_set_other _ _ _ _ hi0 hne
        · rw [oh]; exact hoth q (Ne.symm hne)

theorem draw_top_spec (fuel : Nat) :
    ∀ (g : GameState) (r : Rand) (j : Nat) (cj : Card), g.deck.length = DECK_SIZE →
      0 ≤ g.deck_top → j < fuel → g.deck_top.toNat + j < 108 →
      g.deck[g.deck_top.toNat + j]? = some cj → cj.type = .NUMBER →
      ∃ (k : Nat) (c : Card), k ≤ j ∧ g.deck[g.deck_top.toNat + k]? = some c ∧
        c.type = .NUMBER ∧
        (∀ k2, k2 < k → ∀ c2, g.deck[g.deck_top.toNat + k2]? = some c2 → c2.type ≠ .NUMBER) ∧
        draw_top fuel g r =
          some ({ g with top_card := c, deck_top := g.deck_top + (k : Int) + 1 }, r) := by
  induction fuel with
  | zero => intro g r j cj _ _ hj; omega
  | succ fuel ih =>
    intro g r j cj hlen ht0 hj ht1 hcj hnum
    obtain ⟨c0, hc0, hd⟩ := draw_card_of_lt g r hlen ht0 (by omega)
    rw [rd_nonneg _ _ ht0] at hc0
    by_cases h0 : c0.type = .NUMBER
    · refine ⟨0, c0, Nat.zero_le _, by rw [Nat.add_zero]; exact hc0, h0,
        fun k2 hk2 => absurd hk2 (Nat.not_lt_zero _), ?_⟩
      rw [draw_top, hd]
      simp only [h0, ne_eq, not_true_eq_false, if_false, Nat.cast_zero, add_zero]
    · have hj0 : j ≠ 0 := by
        intro hj0
        subst hj0
        rw [Nat.add_zero, hc0] at hcj
        exact h0 (by rw [Option.some.inj hcj]; exact hnum)
      have hidx : ∀ x : Nat, (g.deck_top + 1).toNat + x = g.deck_top.toNat + (x + 1) := by
        intro x; omega
      obtain ⟨k, c, hk, hc, hcn, hmin, hrun⟩ :=
        ih { g with deck_top := g.deck_top + 1, top_card := c0 } r (j - 1) cj hlen
          (by simp only; omega) (by omega) (by simp only; omega)
          (by simp only; rw [hidx, Nat.sub_add_cancel (by omega)]; exact hcj) hnum
      simp only at hc hmin hrun
      rw [hidx] at hc
      refine ⟨k + 1, c, by omega, hc, hcn, fun k2 hk2 c2 hc2 => ?_, ?_⟩
      · by_cases hk0 : k2 = 0
        · subst hk0
          rw [Nat.add_zero, hc0] at hc2
          rw [← Option.some.inj hc2]; exact h0
        · refine hmin (k2 - 1) (by omega) c2 ?_
          rw [hidx, Nat.sub_add_cancel (by omega)]; exact hc2
      · rw [draw_top, hd]
        simp only [h0, ne_eq, not_false_eq_true, if_true]
        rw [hrun]
        have : g.deck_top + 1 + (k : Int) + 1 = g.deck_top + ((k + 1 : Nat) : Int) + 1 := by
          push_cast; omega
        rw [this]

theorem number_within (D : List Card) (t B : Nat) (hc : D.countP not_number ≤ B)
    (hl : t + B + 1 ≤ D.length) :
    ∃ j c, j ≤ B ∧ D[t + j]? = some c ∧ c.type = .NUMBER := by
  by_contra hno
  have hall : ∀ x ∈ (D.drop t).take (B + 1), not_number x = true := by
    intro x hx
    obtain ⟨k, hk⟩ := List.mem_iff_getElem?.1 hx
    rw [List.getElem?_take] at hk
    by_cases hkb : k < B + 1
    · rw [if_pos hkb, List.getElem?_drop] at hk
      unfold not_number
      rw [decide_eq_true_iff]
      intro hn
      exact hno ⟨k, x, by omega, hk, hn⟩
    · rw [if_neg hkb] at hk
      cases hk
  have h1 : ((D.drop t).take (B + 1)).countP not_number = B + 1 := by
    rw [List.countP_eq_length.2 hall, List.length_take, List.length_drop]
    omega
  have h2 : ((D.drop t).take (B + 1)).countP not_number ≤ D.countP not_number :=
    List.Sublist.countP_le _ ((List.take_sublist _ _).trans (List.drop_sublist _ _))
  omega

theorem shuffled_actions (g : GameState) (r : Rand) (h : g.deck.length = DECK_SIZE) :
    (shuffle_deck (build_deck g) r).1.deck.countP not_number = 16 + stale_actions g := by
  rw [List.Perm.countP_eq _ (shuffle_deck_perm_aux (build_deck g) r (build_deck_length g h)),
    build_deck_eq g h]
  simp only [List.countP_append]
  rfl

theorem shuffle_build_frame (g : GameState) (r : Rand) :
    (shuffle_deck (build_deck g) r).1 =
      { g with deck := (shuffle_deck (build_deck g) r).1.deck, deck_top := 0 } := by
  simp only [shuffle_deck, build_deck]

theorem stale_actions_le (g : GameState) (h : g.deck.length = DECK_SIZE) :
    stale_actions g ≤ 16 := by
  unfold stale_actions
  refine (List.countP_le_length _).trans ?_
  rw [List.length_drop, h]
  decide

theorem startup_spec (fuel : Nat) (n : Int) (g : GameState) (r : Rand) (hw : g.WF)
    (hn3 : 3 ≤ n) (hn5 : n ≤ 5) (hfuel : 17 + stale_actions g ≤ fuel) :
    ∃ gf k,
      startup fuel n g r
        = some (gf, (shuffle_deck (build_deck { g with players := n }) r).2) ∧
      k < 17 + stale_actions g ∧ stale_actions g ≤ 16 ∧
      gf.players = n ∧ gf.scores = g.scores ∧ gf.current_turn = g.current_turn ∧
      gf.game_over = g.game_over ∧
      gf.deck = (shuffle_deck (build_deck { g with players := n }) r).1.deck ∧
      gf.deck_top = 5 * n + (k : Int) + 1 ∧
      gf.top_card.type = .NUMBER ∧
      gf.deck[(5 * n).toNat + k]? = some gf.top_card ∧
      (∀ k2, k2 < k → ∀ c2, gf.deck[(5 * n).toNat + k2]? = some c2 → c2.type ≠ .NUMBER) ∧
      (∀ q, 0 ≤ q → q < n →
        rd gf.active q = some 1 ∧ rd gf.no_card_count q = some 0 ∧
        rd gf.hand_count q = some 5 ∧
        hand gf q = some ((gf.deck.drop (5 * q.toNat)).take 5)) := by
  obtain ⟨m, rfl⟩ := Int.eq_ofNat_of_zero_le (show 0 ≤ n by omega)
  have hl0 : ({ g with players := (m : Int) } : GameState).deck.length = DECK_SIZE := hw.deck_len
  have hst : stale_actions { g with players := (m : Int) } = stale_actions g := rfl
  have hsl := stale_actions_le g hw.deck_len
  have hfr := shuffle_build_frame { g with players := (m : Int) } r
  have hlen : (shuffle_deck (build_deck { g with players := (m : Int) }) r).1.deck.length
      = DECK_SIZE := by
    rw [shuffle_deck_length, build_deck_length _ hl0]
  have hcnt := shuffled_actions { g with players := (m : Int) } r hl0
  rw [hst] at hcnt
  have hclamp : ¬ ((m : Int) < 3 ∨ (m : Int) > 5) := by omega
  simp only [startup, if_neg hclamp, Int.toNat_ofNat]
  generalize shuffle_deck (build_deck { g with players := (m : Int) }) r = S at hfr hlen hcnt ⊢
  obtain ⟨gs, rs⟩ := S
  simp only at hfr hlen hcnt ⊢
  have ht : gs.deck_top = 0 := by rw [hfr]
  have hwf : gs.WF :=
    { active_len := by rw [hfr]; exact hw.active_len
      no_card_len := by rw [hfr]; exact hw.no_card_len
      hands_len := by rw [hfr]; exact hw.hands_len
      hand_len := by rw [hfr]; exact hw.hand_len
      hand_count_len := by rw [hfr]; exact hw.hand_count_len
      deck_len := hlen
      scores_len := by rw [hfr]; exact hw.scores_len }
  obtain ⟨gf1, hrun, hf⟩ := deal_players_spec m 0 gs rs hwf (by omega) (by omega) (by omega)
  have hd1 := hf.deck
  have ht1 := hf.deck_top
  rw [ht] at ht1
  have ht1n : gf1.deck_top.toNat = 5 * m := by omega
  obtain ⟨j, cj, hj, hcj, hnum⟩ :=
    number_within gs.deck (5 * m) (16 + stale_actions g) (by omega)
      (by rw [hlen]; simp only [DECK_SIZE]; omega)
  obtain ⟨k, c, hk, hc, hcn, hmin, hrun2⟩ :=
    draw_top_spec fuel gf1 rs j cj (by rw [hd1]; exact hlen) (by omega) (by omega)
      (by omega) (by rw [hd1, ht1n]; exact hcj) hnum
  rw [hd1, ht1n] at hc
  have h5 : (5 * (m : Int)).toNat = 5 * m := by omega
  refine ⟨{ gf1 with top_card := c, deck_top := gf1.deck_top + (k : Int) + 1 }, k, ?_,
    by omega, hsl, ?_, ?_, ?_, ?_, hd1, ?_, hcn, ?_, ?_, ?_⟩
  · rw [List.range_eq_range', hrun]
    simp only
    exact hrun2
  · show gf1.players = _
    rw [hf.players, hfr]
  · show gf1.scores = _
    rw [hf.scores, hfr]
  · show gf1.current_turn = _
    rw [hf.current_turn, hfr]
  · show gf1.game_over = _
    rw [hf.game_over, hfr]
  · show gf1.deck_top + (k : Int) + 1 = _
    rw [ht1]; omega
  · show gf1.deck[_]? = some c
    rw [hd1, h5]; exact hc
  · intro k2 hk2 c2 hc2
    refine hmin k2 hk2 c2 ?_
    rw [ht1n]
    rw [h5] at hc2
    exact hc2
  · intro q hq0 hq1
    obtain ⟨qn, rfl⟩ := Int.eq_ofNat_of_zero_le hq0
    obtain ⟨da, dn, dc, h, dh, dt⟩ := hf.dealt qn (by omega) (by omega)
    refine ⟨da, dn, dc, ?_⟩
    show hand gf1 _ = some ((gf1.deck.drop _).take 5)
    unfold hand
    rw [dh, dc]
    simp only
    rw [hd1, ht] at *
    have : (5 : Int).toNat = 5 := rfl
    rw [this, dt]
    simp

theorem zero_state_wf (n : Int) : (zero_state n).WF :=
  { active_len := (by decide : (List.replicate 5 (0 : Int)).length = MAX_PLAYERS)
    no_card_len := (by decide : (List.replicate 5 (0 : Int)).length = MAX_PLAYERS)
    hands_len :=
      (by decide : (List.replicate 5 (List.replicate 20 zero_card)).length = MAX_PLAYERS)
    hand_len :=
      (by decide : ∀ h ∈ List.replicate 5 (List.replicate 20 zero_card), h.length = HAND_CAP)
    hand_count_len := (by decide : (List.replicate 5 (0 : Int)).length = MAX_PLAYERS)
    deck_len := (by decide : (List.replicate 108 zero_card).length = DECK_SIZE)
    scores_len := (by decide : (List.replicate 5 (0 : Int)).length = MAX_PLAYERS) }

/-- C19: for every player count `n` in 3..5, every random source and every
well-sized prior state, the startup of `main` (build, shuffle, deal, face-up
card) returns as soon as the redraw loop is allowed `17 + stale_actions g`
draws (at most 33; 17 on the zero-filled state): it makes `k + 1` draws with
`k < 17 + stale_actions g`, never reaches the end of the deck, and leaves each
of the `n` players active with streak 0 and the 5 cards
`deck[5 q .. 5 q + 4]` of the shuffled deck in hand; `top_card` is the first
`NUMBER` card at or after `deck[5 n]`. -/
theorem startup_deal_terminates (fuel : Nat) (n : Int) (g : GameState) (r : Rand) (hw : g.WF)
    (hn3 : 3 ≤ n) (hn5 : n ≤ 5) (hfuel : 17 + stale_actions g ≤ fuel) :
    ∃ gf k,
      startup fuel n g r
        = some (gf, (shuffle_deck (build_deck { g with players := n }) r).2) ∧
      k < 17 + stale_actions g ∧ stale_actions g ≤ 16 ∧
      gf.players = n ∧ gf.scores = g.scores ∧ gf.current_turn = g.current_turn ∧
      gf.game_over = g.game_over ∧
      gf.deck = (shuffle_deck (build_deck { g with players := n }) r).1.deck ∧
      gf.deck_top = 5 * n + (k : Int) + 1 ∧
      gf.top_card.type = .NUMBER ∧
      gf.deck[(5 * n).toNat + k]? = some gf.top_card ∧
      (∀ k2, k2 < k → ∀ c2, gf.deck[(5 * n).toNat + k2]? = some c2 → c2.type ≠ .NUMBER) ∧
      (∀ q, 0 ≤ q → q < n →
        rd gf.active q = some 1 ∧ rd gf.no_card_count q = some 0 ∧
        rd gf.hand_count q = some 5 ∧
        hand gf q = some ((gf.deck.drop (5 * q.toNat)).take 5)) :=
  startup_spec fuel n g r hw hn3 hn5 hfuel

/-- Witness for `startup_deal_terminates`: the zero-filled state, 3 players, the
random source `k ↦ k` and 17 draws allowed. -/
theorem startup_deal_terminates_witness :
    (zero_state 3).WF ∧ 17 + stale_actions (zero_state 3) ≤ 17 ∧
    ∃ gf k,
      startup 17 3 (zero_state 3) (fun k => k)
        = some (gf, (shuffle_deck (build_deck { zero_state 3 with players := 3 })
            (fun k => k)).2) ∧
      k < 17 + stale_actions (zero_state 3) ∧ stale_actions (zero_state 3) ≤ 16 ∧
      gf.players = 3 ∧ gf.scores = (zero_state 3).scores ∧
      gf.current_turn = (zero_state 3).current_turn ∧
      gf.game_over = (zero_state 3).game_over ∧
      gf.deck = (shuffle_deck (build_deck { zero_state 3 with players := 3 })
        (fun k => k)).1.deck ∧
      gf.deck_top = 5 * 3 + (k : Int) + 1 ∧
      gf.top_card.type = .NUMBER ∧
      gf.deck[(5 * (3 : Int)).toNat + k]? = some gf.top_card ∧
      (∀ k2, k2 < k → ∀ c2, gf.deck[(5 * (3 : Int)).toNat + k2]? = some c2 →
        c2.type ≠ .NUMBER) ∧
      (∀ q, 0 ≤ q → q < (3 : Int) →
        rd gf.active q = some 1 ∧ rd gf.no_card_count q = some 0 ∧
        rd gf.hand_count q = some 5 ∧
        hand gf q = some ((gf.deck.drop (5 * q.toNat)).take 5)) :=
  ⟨zero_state_wf 3, by decide,
    startup_deal_terminates 17 3 (zero_state 3) (fun k => k) (zero_state_wf 3) (by decide)
      (by decide) (by decide)⟩

end Uno
